import Mathlib

/-!
# go2swag: annotation scanner and document builder

A shallow embedding of `scanner.go`, `regexrps.go` and `builder.go`.

* Go strings are lists of characters (`Str`).
* A Go map is an association list; `range` over a map visits the entries in an
  order chosen by a `RangeOrder`, which is a parameter of every run.
* Pointers to operations and schemas are modelled by writing the mutated value
  back into the slot the pointer aliases.
* A run that panics or never returns yields a `Fault`.
* The functions of Go's standard library whose tables are not part of the
  repository (`unicode`, `strconv.Unquote`) are fields of `Stdlib`.
-/

set_option linter.dupNamespace false

namespace Go2Swag

/-- Go string, as the list of its characters. -/
abbrev Str := List Char

/-! ## Go standard library -/

/-- The rune test `unicode.IsSpace`: the White_Space property. -/
def IsSpace (c : Char) : Bool :=
  let n := c.toNat
  (decide (9 ≤ n) && decide (n ≤ 13)) || decide (n = 32) || decide (n = 0x85) || decide (n = 0xA0)
    || decide (n = 0x1680) || (decide (0x2000 ≤ n) && decide (n ≤ 0x200a)) || decide (n = 0x2028)
    || decide (n = 0x2029) || decide (n = 0x202f) || decide (n = 0x205f) || decide (n = 0x3000)

/-- The function `strings.TrimSpace`. -/
def TrimSpace (s : Str) : Str :=
  ((s.dropWhile IsSpace).reverse.dropWhile IsSpace).reverse

/-- The function `strings.TrimLeft(s, cutset)` for a cutset of one character. -/
def TrimLeft (s : Str) (cut : Char) : Str :=
  s.dropWhile (fun c => decide (c = cut))

/-- The function `strings.HasPrefix`. -/
def HasPrefix (s pre : Str) : Bool := pre.isPrefixOf s

/-- The function `strings.HasSuffix`. -/
def HasSuffix (s suf : Str) : Bool := suf.reverse.isPrefixOf s.reverse

/-- The function `strings.Index(s, sep)` for a separator of one character; `none` stands for -1. -/
def Index : Str → Char → Option Nat
  | [], _ => none
  | x :: xs, c => if x = c then some 0 else (Index xs c).map (· + 1)

/-- The function `strings.Split(s, sep)` for a separator of one character. -/
def Split : Str → Char → List Str
  | [], _ => [[]]
  | x :: xs, c =>
    if x = c then [] :: Split xs c
    else
      match Split xs c with
      | [] => [[x]]
      | h :: t => (x :: h) :: t

/-- The function `strings.Join(elems, sep)`. -/
def Join : List Str → Str → Str
  | [], _ => []
  | [a], _ => a
  | a :: b :: r, sep => a ++ sep ++ Join (b :: r) sep

/-- Largest value of a 64-bit Go `int`. -/
def maxInt : Int := 2 ^ 63 - 1

/-- Value of a string of ASCII decimal digits, `none` when another character occurs. -/
def digitsValue : Str → Nat → Option Nat
  | [], acc => some acc
  | c :: cs, acc =>
    if decide (48 ≤ c.toNat) && decide (c.toNat ≤ 57) then digitsValue cs (acc * 10 + (c.toNat - 48))
    else none

/-- The value part of `strconv.Atoi` (the error is discarded by the caller): 0 on a syntax
error, the nearest bound on a range error (64-bit `int`). -/
def Atoi (s : Str) : Int :=
  let body : Str := match s with
    | c :: r => if c = '-' ∨ c = '+' then r else s
    | [] => []
  let neg : Bool := match s with
    | c :: _ => decide (c = '-')
    | [] => false
  match body with
  | [] => 0
  | _ :: _ =>
    match digitsValue body 0 with
    | none => 0
    | some n =>
      if neg then (if (n : Int) > maxInt + 1 then -(maxInt + 1) else -(n : Int))
      else (if (n : Int) > maxInt then maxInt else (n : Int))

/-- Library functions whose tables live outside the repository, constrained by what they do on
ASCII: the case mappings and general categories of `unicode`, and `strconv.Unquote`
(`none` when it returns an error). -/
structure Stdlib where
  /-- The rune mapping `unicode.ToUpper`. -/
  upper : Char → Char
  /-- The rune mapping `unicode.ToLower`. -/
  lower : Char → Char
  /-- General category L (letters). -/
  L : Char → Bool
  /-- General category N (numbers). -/
  N : Char → Bool
  /-- General category Pd (dash punctuation). -/
  Pd : Char → Bool
  /-- General category Pc (connector punctuation). -/
  Pc : Char → Bool
  /-- General category Zs (space separators). -/
  Zs : Char → Bool
  /-- The function `strconv.Unquote`. -/
  Unquote : Str → Option Str
  upper_ascii : ∀ c : Char, c.toNat < 128 → upper c = c.toUpper
  lower_ascii : ∀ c : Char, c.toNat < 128 → lower c = c.toLower
  L_ascii : ∀ c : Char, c.toNat < 128 → L c = c.isAlpha
  N_ascii : ∀ c : Char, c.toNat < 128 → N c = c.isDigit
  Pd_ascii : ∀ c : Char, c.toNat < 128 → Pd c = decide (c = '-')
  Pc_ascii : ∀ c : Char, c.toNat < 128 → Pc c = decide (c = '_')
  Zs_ascii : ∀ c : Char, c.toNat < 128 → Zs c = decide (c = ' ')
  /-- A string that unquotes starts with a quote character. -/
  unquote_head : ∀ v tv, Unquote v = some tv →
    v.head? = some '"' ∨ v.head? = some (Char.ofNat 96) ∨ v.head? = some (Char.ofNat 39)

/-- The function `strings.ToUpper`. -/
def ToUpper (lib : Stdlib) (s : Str) : Str := s.map lib.upper

/-- The function `strings.ToLower`. -/
def ToLower (lib : Stdlib) (s : Str) : Str := s.map lib.lower

/-- The value of a hexadecimal digit. -/
def hexDigit (c : Char) : Option Nat :=
  if '0' ≤ c ∧ c ≤ '9' then some (c.toNat - 48)
  else if 'a' ≤ c ∧ c ≤ 'f' then some (c.toNat - 87)
  else if 'A' ≤ c ∧ c ≤ 'F' then some (c.toNat - 55)
  else none

/-- The value of an octal digit. -/
def octDigit (c : Char) : Option Nat :=
  if '0' ≤ c ∧ c ≤ '7' then some (c.toNat - 48) else none

/-- The number that a list of digits with the given values denotes in a base. -/
def digitsIn (base : Nat) (value : Char → Option Nat) : List Char → Option Nat
  | [] => some 0
  | cs => cs.foldl (fun acc c => acc.bind (fun a => (value c).map (fun d => a * base + d)))
      (some 0)

/-- The character of an escape that denotes a byte: the texts of the model are sequences of
code points, so a byte from 128 on, which is no character of its own, has no counterpart. -/
def byteChar (v : Nat) : Option Char := if v < 128 then some (Char.ofNat v) else none

/-- The character of an escape that denotes a code point, `none` when `utf8.ValidRune` says
no. -/
def runeChar (v : Nat) : Option Char :=
  if v < 55296 ∨ (57343 < v ∧ v < 1114112) then some (Char.ofNat v) else none

/-- The loop of `strconv.Unquote` over `UnquoteChar` for the text between the quotes. -/
def unquoteChars (quote : Char) : Nat → Str → Option Str
  | 0, _ => none
  | _ + 1, [] => some []
  | n + 1, c :: rest =>
    if c = quote then none
    else if c ≠ Char.ofNat 92 then (unquoteChars quote n rest).map (fun r => c :: r)
    else
      match rest with
      | [] => none
      | e :: rest1 =>
        let simple (x : Nat) : Option Str :=
          (unquoteChars quote n rest1).map (fun r => Char.ofNat x :: r)
        if e = 'a' then simple 7
        else if e = 'b' then simple 8
        else if e = 'f' then simple 12
        else if e = 'n' then simple 10
        else if e = 'r' then simple 13
        else if e = 't' then simple 9
        else if e = 'v' then simple 11
        else if e = Char.ofNat 92 then simple 92
        else if e = Char.ofNat 39 ∨ e = '"' then
          if e = quote then (unquoteChars quote n rest1).map (fun r => e :: r) else none
        else if e = 'x' then
          if rest1.length < 2 then none
          else
            ((digitsIn 16 hexDigit (rest1.take 2)).bind byteChar).bind (fun ch =>
              (unquoteChars quote n (rest1.drop 2)).map (fun r => ch :: r))
        else if e = 'u' then
          if rest1.length < 4 then none
          else
            ((digitsIn 16 hexDigit (rest1.take 4)).bind runeChar).bind (fun ch =>
              (unquoteChars quote n (rest1.drop 4)).map (fun r => ch :: r))
        else if e = 'U' then
          if rest1.length < 8 then none
          else
            ((digitsIn 16 hexDigit (rest1.take 8)).bind runeChar).bind (fun ch =>
              (unquoteChars quote n (rest1.drop 8)).map (fun r => ch :: r))
        else if (octDigit e).isSome then
          if rest1.length < 2 then none
          else
            ((digitsIn 8 octDigit (e :: rest1.take 2)).bind
                (fun v => if v > 255 then none else byteChar v)).bind (fun ch =>
              (unquoteChars quote n (rest1.drop 2)).map (fun r => ch :: r))
        else none

/-- The function `strconv.Unquote` on a text of code points: a literal in back quotes gives
its text without carriage returns; a literal in double quotes gives its text with the escapes
decoded; a literal in single quotes gives its one character. -/
def Unquote (v : Str) : Option Str :=
  match v with
  | [] => none
  | q :: r =>
    if r.getLast? ≠ some q then none
    else
      let s := r.dropLast
      if q = Char.ofNat 96 then
        if Char.ofNat 96 ∈ s then none else some (s.filter (fun c => c ≠ Char.ofNat 13))
      else if q = '"' then
        if Char.ofNat 10 ∈ s then none else unquoteChars q (s.length + 1) s
      else if q = Char.ofNat 39 then
        if Char.ofNat 10 ∈ s then none
        else
          match unquoteChars q (s.length + 1) s with
          | some [c] => some [c]
          | _ => none
      else none

/-- The ASCII instance of the library tables: the ASCII case mappings and categories, nothing
outside ASCII, and `Unquote`. -/
def Stdlib.ascii : Stdlib where
  upper := Char.toUpper
  lower := Char.toLower
  L := Char.isAlpha
  N := Char.isDigit
  Pd := fun c => decide (c = '-')
  Pc := fun c => decide (c = '_')
  Zs := fun c => decide (c = ' ')
  Unquote := Go2Swag.Unquote
  upper_ascii := fun _ _ => rfl
  lower_ascii := fun _ _ => rfl
  L_ascii := fun _ _ => rfl
  N_ascii := fun _ _ => rfl
  Pd_ascii := fun _ _ => rfl
  Pc_ascii := fun _ _ => rfl
  Zs_ascii := fun _ _ => rfl
  unquote_head := by
    intro v tv h
    cases v with
    | nil => simp [Go2Swag.Unquote] at h
    | cons q r =>
      simp only [Go2Swag.Unquote] at h
      split at h
      · cases h
      · split at h
        · rename_i hq
          right; left; simp [hq]
        · split at h
          · rename_i hq
            left; simp [hq]
          · split at h
            · rename_i hq
              right; right; simp [hq]
            · cases h

/-- How a run ends when it does not return. -/
inductive Fault where
  /-- A nil pointer is dereferenced. -/
  | nilDeref
  /-- A loop that has no exit is entered. -/
  | loops
  /-- The recursion budget of the model is used up. -/
  | fuel
  deriving DecidableEq, Repr

/-! ## Go maps -/

/-- Go map as an association list; a map has no two entries with one key. -/
abbrev GoMap (κ α : Type) := List (κ × α)

/-- Map lookup `m[k]` with the comma-ok flag as `Option`. -/
def mapGet {κ α : Type} [DecidableEq κ] : GoMap κ α → κ → Option α
  | [], _ => none
  | (k1, v) :: r, k => if k1 = k then some v else mapGet r k

/-- Map assignment `m[k] = v`. -/
def mapSet {κ α : Type} [DecidableEq κ] : GoMap κ α → κ → α → GoMap κ α
  | [], k, v => [(k, v)]
  | (k1, v1) :: r, k, v => if k1 = k then (k, v) :: r else (k1, v1) :: mapSet r k v

/-- The keys of a map. -/
def mapKeys {κ α : Type} (m : GoMap κ α) : List κ := m.map Prod.fst

/-- The order in which `range` visits the entries of a map: some permutation of them. -/
structure RangeOrder where
  order : {κ α : Type} → GoMap κ α → GoMap κ α
  perm : ∀ {κ α : Type} (m : GoMap κ α), (order m).Perm m

/-- The range order that visits the entries as they are stored. -/
def RangeOrder.stored : RangeOrder where
  order := fun m => m
  perm := fun _ => List.Perm.refl _

/-- The range order that visits the entries in reverse. -/
def RangeOrder.reversed : RangeOrder where
  order := fun m => m.reverse
  perm := fun m => List.reverse_perm m

/-! ## The document model of go-openapi/spec (the fields the builder touches) -/

/-- The struct `spec.Schema`: `Type_` is the field `Type`, `Ref` the text of the reference,
`Properties` a map (nil and empty are not told apart), `Items` the schema behind
`Items.Schema`. -/
inductive Schema where
  | mk (Type_ : List Str) (Format : Str) (Description : Str) (Ref : Str)
      (Properties : List (Str × Schema)) (Items : Option Schema)

namespace Schema

/-- The zero value of `spec.Schema`. -/
def zero : Schema := .mk [] [] [] [] [] none

def Type_ : Schema → List Str
  | .mk t _ _ _ _ _ => t

def Format : Schema → Str
  | .mk _ f _ _ _ _ => f

def Description : Schema → Str
  | .mk _ _ d _ _ _ => d

def Ref : Schema → Str
  | .mk _ _ _ r _ _ => r

def Properties : Schema → GoMap Str Schema
  | .mk _ _ _ _ p _ => p

def Items : Schema → Option Schema
  | .mk _ _ _ _ _ i => i

/-- The method `(*Schema).Typed(tpe, format)`. -/
def Typed : Schema → Str → Str → Schema
  | .mk _ _ d r p i, tpe, format => .mk [tpe] format d r p i

/-- Assignment to the field `Description`. -/
def setDescription : Schema → Str → Schema
  | .mk t f _ r p i, d => .mk t f d r p i

/-- Assignment to the field `Properties`. -/
def setProperties : Schema → GoMap Str Schema → Schema
  | .mk t f d r _ i, p => .mk t f d r p i

/-- Assignment to `Items.Schema`. -/
def setItems : Schema → Schema → Schema
  | .mk t f d r p _, i => .mk t f d r p (some i)

end Schema

/-- The function `spec.RefSchema(ref)`. -/
def RefSchema (ref : Str) : Schema := .mk [] [] [] ref [] none

/-- The struct `spec.Parameter`. -/
structure Parameter where
  Name : Str := []
  In : Str := []
  Required : Bool := false
  Type_ : Str := []
  Format : Str := []
  Description : Str := []
  Schema : Option Schema := none

/-- The function `spec.PathParam(name)`. -/
def PathParam (name : Str) : Parameter := { Name := name, In := "path".toList, Required := true }

/-- The function `spec.QueryParam(name)`. -/
def QueryParam (name : Str) : Parameter := { Name := name, In := "query".toList }

/-- The function `spec.BodyParam(name, schema)`. -/
def BodyParam (name : Str) (schema : Schema) : Parameter :=
  { Name := name, In := "body".toList, Schema := some schema }

/-- The method `(*Parameter).Typed(tpe, format)`. -/
def Parameter.Typed (p : Parameter) (tpe format : Str) : Parameter :=
  { p with Type_ := tpe, Format := format }

/-- The method `(*Parameter).WithDescription(description)`. -/
def Parameter.WithDescription (p : Parameter) (description : Str) : Parameter :=
  { p with Description := description }

/-- The struct `spec.Response`. -/
structure Response where
  Description : Str := []
  Schema : Option Schema := none

/-- The struct `spec.Responses`: the response `Default`, `none` for nil, and the map
`StatusCodeResponses`. -/
structure Responses where
  Default : Option Response := none
  StatusCodeResponses : GoMap Int Response := []

/-- The struct `spec.Operation`; a nil `Responses` is the struct without a default response and
without entries. -/
structure Operation where
  ID : Str := []
  Summary : Str := []
  Description : Str := []
  Tags : List Str := []
  Parameters : List Parameter := []
  Responses : Responses := {}

/-- Replacement of the first parameter with the name and location of `param`, `none` when there
is none. -/
def replaceParam : List Parameter → Parameter → Option (List Parameter)
  | [], _ => none
  | p :: r, param =>
    if p.Name = param.Name ∧ p.In = param.In then some (param :: r)
    else (replaceParam r param).map (fun r1 => p :: r1)

/-- The method `func (o *Operation) AddParam(param *Parameter) *Operation` of go-openapi/spec:
a parameter with that name and location is replaced, otherwise the parameter is appended; the
operation itself is returned. -/
def Operation.AddParam (o : Operation) (param : Parameter) : Operation :=
  match replaceParam o.Parameters param with
  | some ps => { o with Parameters := ps }
  | none => { o with Parameters := o.Parameters ++ [param] }

/-- The method `(*Operation).RespondsWith(code, response)` of go-openapi/spec: the code 0 sets
`Responses.Default`, every other code sets the entry of `Responses.StatusCodeResponses`. -/
def Operation.RespondsWith (o : Operation) (code : Int) (response : Response) : Operation :=
  if code = 0 then { o with Responses := { o.Responses with Default := some response } }
  else
    { o with Responses := { o.Responses with
        StatusCodeResponses := mapSet o.Responses.StatusCodeResponses code response } }

/-- The HTTP methods that have a slot in `spec.PathItem`. -/
inductive Method where
  | GET | POST | PUT | PATCH | HEAD | DELETE | OPTIONS
  deriving DecidableEq, Repr

/-- The struct `spec.PathItem`: one operation pointer per method. -/
structure PathItem where
  Get : Option Operation := none
  Put : Option Operation := none
  Post : Option Operation := none
  Delete : Option Operation := none
  Options : Option Operation := none
  Head : Option Operation := none
  Patch : Option Operation := none

/-- The operation pointer in the slot of a method. -/
def PathItem.slot (p : PathItem) : Method → Option Operation
  | .GET => p.Get
  | .POST => p.Post
  | .PUT => p.Put
  | .PATCH => p.Patch
  | .HEAD => p.Head
  | .DELETE => p.Delete
  | .OPTIONS => p.Options

/-- Assignment to the slot of a method. -/
def PathItem.setSlot (p : PathItem) (m : Method) (op : Operation) : PathItem :=
  match m with
  | .GET => { p with Get := some op }
  | .POST => { p with Post := some op }
  | .PUT => { p with Put := some op }
  | .PATCH => { p with Patch := some op }
  | .HEAD => { p with Head := some op }
  | .DELETE => { p with Delete := some op }
  | .OPTIONS => { p with Options := some op }

/-- The struct `spec.Info`. -/
structure Info where
  Title : Str := []
  Version : Str := []

/-- The struct `spec.Swagger`; `Paths` is `Paths.Paths`. -/
structure Swagger where
  Swagger : Str := []
  Info : Option Info := none
  Host : Str := []
  BasePath : Str := []
  Schemes : List Str := []
  Consumes : List Str := []
  Produces : List Str := []
  Paths : GoMap Str PathItem := []
  Definitions : GoMap Str Schema := []

/-- The document that `build` creates when its input is nil. -/
def freshDoc : Swagger := { Swagger := "2.0".toList }

/-! ## The resolved source model (go/ast, go/types) -/

/-- The object of a named type: `Pkg().Path()`, `Pkg().Name()` and `Name()`. -/
structure TypeName where
  PkgPath : Str
  PkgName : Str
  Name : Str
  deriving DecidableEq

/-- The struct field `*types.Var`: its name, `Embedded()`, `Exported()` and `Pos()`. -/
structure Var where
  Name : Str
  Embedded : Bool
  Exported : Bool
  Pos : Nat
  deriving DecidableEq

/-- The resolved types of go/types. `Basic` carries what `String()` returns, `Struct` its fields
with their types, `Named` the object of the named type; `Other` stands for every other kind
(map, chan, func, interface, ...). -/
inductive GoType where
  | Basic (name : Str)
  | Pointer (elem : GoType)
  | Struct (fields : List (Var × GoType))
  | Slice (elem : GoType)
  | Array (elem : GoType)
  | Named (obj : TypeName)
  | Other

/-- The method `Underlying()` of the named types of the program, by their object. -/
abbrev Underlying := TypeName → GoType

/-- The node `*ast.Field`: the names it declares, `Tag.Value` when it has a tag, and what
`Comment.Text()` returns. -/
structure AstField where
  Names : List Str := []
  Tag : Option Str := none
  CommentText : Str := []
  deriving DecidableEq

/-- The entry `TypesInfo.Types[decl.Spec.Type]`: what `IsBuiltin()` and `IsType()` say of it,
and its `Type`. -/
inductive TypeAndValue where
  | builtin
  | type (t : GoType)
  | other

/-- A spec of a `GenDecl`. For a `*ast.TypeSpec`, `Named` is the object of the type that
`pkg.TypesInfo.Defs[ts.Name]` has when that entry exists and its type is a `*types.Named`, and
`SpecType` is the entry `TypesInfo.Types[ts.Type]`. -/
inductive Spec where
  | ValueSpec
  | ImportSpec
  | TypeSpec (Named : Option TypeName) (SpecType : TypeAndValue)

/-- A declaration of a file: `*ast.BadDecl`, `*ast.FuncDecl`, or `*ast.GenDecl` with the texts
of its doc comment (`none` for nil) and its specs. -/
inductive Decl where
  | BadDecl
  | FuncDecl
  | GenDecl (Doc : Option (List Str)) (Specs : List Spec)

/-- The file `*ast.File`, as far as the program reads it: the `*ast.Field` nodes, each under the
positions of the names it declares, the texts of the comments of `Doc` (`none` for nil), the
comment groups `Comments`, each the list of the texts of its comments, and `Decls`. -/
structure File where
  Fields : GoMap Nat AstField := []
  Doc : Option (List Str) := none
  Comments : List (List Str) := []
  Decls : List Decl := []

/-- The first `*ast.Field` on the path that `astutil.PathEnclosingInterval(file, pos, pos)`
returns: the field declaration that holds `pos`, nil for a position outside the file. -/
def fieldAt (file : File) (pos : Nat) : Option AstField := mapGet file.Fields pos

/-! ## Regular expressions (`regexp`, leftmost-first matching) -/

/-- The regular expressions that `regexrps.go` is built from: a character class, the empty
expression, concatenation, the greedy repetitions `*`, `+` and `?`, a capture group with its
number, and the anchors `^` and `$`. -/
inductive Regex where
  | cls (p : Char → Bool)
  | eps
  | seq (a b : Regex)
  | star (r : Regex)
  | plus (r : Regex)
  | opt (r : Regex)
  | group (i : Nat) (r : Regex)
  | bol
  | eol

/-- The state of a match: the position in the text, the text from there on, and the captures
so far. -/
structure MatchState where
  pos : Nat
  rest : Str
  caps : GoMap Nat Str := []
  deriving DecidableEq

/-- Greedy repetition of `body`, at most `n` more times, each round consuming input: one more
round is tried before the continuation. -/
def repeatGreedy (body : MatchState → (MatchState → Option MatchState) → Option MatchState) :
    Nat → MatchState → (MatchState → Option MatchState) → Option MatchState
  | 0, st, k => k st
  | n + 1, st, k =>
    match body st (fun st1 =>
        if st1.rest.length < st.rest.length then repeatGreedy body n st1 k else none) with
    | some r => some r
    | none => k st

/-- Backtracking match of an expression at a state, with the continuation `k` for what follows:
the first success in the order of a backtracking search. -/
def Regex.run : Regex → MatchState → (MatchState → Option MatchState) → Option MatchState
  | .cls p, st, k =>
    match st.rest with
    | [] => none
    | c :: r => if p c then k { st with pos := st.pos + 1, rest := r } else none
  | .eps, st, k => k st
  | .seq a b, st, k => a.run st (fun st1 => b.run st1 k)
  | .star r, st, k => repeatGreedy r.run st.rest.length st k
  | .plus r, st, k => r.run st (fun st1 => repeatGreedy r.run st1.rest.length st1 k)
  | .opt r, st, k =>
    match r.run st k with
    | some res => some res
    | none => k st
  | .group i r, st, k =>
    r.run st (fun st1 =>
      k { st1 with caps := mapSet st1.caps i (st.rest.take (st.rest.length - st1.rest.length)) })
  | .bol, st, k => if st.pos = 0 then k st else none
  | .eol, st, k => if st.rest = [] then k st else none

/-- The leftmost match: the first start position, from `pos` on, at which the expression
matches. -/
def Regex.findFrom (re : Regex) : Nat → Str → Option MatchState
  | pos, [] => re.run { pos := pos, rest := [] } some
  | pos, c :: r =>
    match re.run { pos := pos, rest := c :: r } some with
    | some res => some res
    | none => re.findFrom (pos + 1) r

/-- The method `FindStringSubmatch`, without the whole match: `none` when nothing matches,
otherwise the texts of groups 1 to `n`, empty for a group that took no part. -/
def Regex.FindStringSubmatch (re : Regex) (n : Nat) (s : Str) : Option (List Str) :=
  (re.findFrom 0 s).map (fun st => (List.range n).map (fun i => (mapGet st.caps (i + 1)).getD []))

/-- The expression of a literal text. -/
def Regex.lit : Str → Regex
  | [] => .eps
  | c :: r => .seq (.cls (fun x => decide (x = c))) (Regex.lit r)

/-- The class `[\p{L}\p{N}\p{Pd}\p{Pc}]`. -/
def idClass (lib : Stdlib) (c : Char) : Bool := lib.L c || lib.N c || lib.Pd c || lib.Pc c

/-- The pattern `rxID` as capture group `i`: `((?:\p{L}[\p{L}\p{N}\p{Pd}\p{Pc}]+)+)`. -/
def rxID (lib : Stdlib) (i : Nat) : Regex :=
  .group i (.plus (.seq (.cls lib.L) (.plus (.cls (idClass lib)))))

/-- The pattern `rxStatusCode` as capture group `i`: `(\p{N}+)`. -/
def rxStatusCode (lib : Stdlib) (i : Nat) : Regex := .group i (.plus (.cls lib.N))

/-- The expression `rxReq`: `swag:req\p{Zs}*` rxID `\p{Zs}*$`. -/
def rxReq (lib : Stdlib) : Regex :=
  .seq (Regex.lit "swag:req".toList) (.seq (.star (.cls lib.Zs)) (.seq (rxID lib 1)
    (.seq (.star (.cls lib.Zs)) .eol)))

/-- The expression `rxAns`: `swag:ans\p{Zs}*` rxID `\p{Zs}*` rxStatusCode `\p{Zs}*$`. -/
def rxAns (lib : Stdlib) : Regex :=
  .seq (Regex.lit "swag:ans".toList) (.seq (.star (.cls lib.Zs)) (.seq (rxID lib 1)
    (.seq (.star (.cls lib.Zs)) (.seq (rxStatusCode lib 2) (.seq (.star (.cls lib.Zs)) .eol)))))

/-! ## The records of the scanner (`scanner.go`) -/

/-- The record `meteParser`; `Comments` is the list of the comment texts, `none` for nil. -/
structure meteParser where
  Comments : Option (List Str) := none
  deriving DecidableEq

/-- The record `routeParser`; a nil `Tags` is the empty list. -/
structure routeParser where
  ID : Str := []
  Method : Str := []
  Path : Str := []
  Tags : List Str := []
  Remaining : Option (List Str) := none
  deriving DecidableEq

/-- The record `declParser`: `Type_` is the object of the named type `Type`, `SpecType` the
resolved `Spec.Type`. -/
structure declParser where
  ID : Str := []
  Name : Str := []
  Code : Int := 0
  Comments : Option (List Str) := none
  Type_ : TypeName
  SpecType : TypeAndValue
  File : File := {}
  HasReq : Bool := false
  HasAns : Bool := false

/-- The registry `scanner`; `pkgs` holds the keys of the map of the known packages, in the
order in which they were entered. -/
structure scanner where
  pkgs : List Str := []
  metas : List meteParser := []
  routes : GoMap Str routeParser := []
  reqs : GoMap Str declParser := []
  anses : GoMap Str declParser := []

/-- The lines of a comment group: every comment text split on line feeds. -/
def groupLines (list : List Str) : List Str :=
  list.flatMap (fun text => Split text '\n')

/-- The first line, over all comments of a group in order, that an expression matches, with
its captures: the two nested loops of `HasReqAnno` and `HasAnsAnno`. -/
def firstMatch (re : Regex) (n : Nat) (list : List Str) : Option (List Str) :=
  (groupLines list).findSome? (fun ln => re.FindStringSubmatch n ln)

/-- The method `declParser.HasReqAnno`: the flag it returns and the record it leaves. -/
def HasReqAnno (lib : Stdlib) (self : declParser) : Bool × declParser :=
  if self.HasReq then (true, self)
  else
    match self.Comments with
    | none => (false, self)
    | some list =>
      match firstMatch (rxReq lib) 1 list with
      | some (m1 :: _) => (true, { self with ID := m1, Name := m1, HasReq := true })
      | _ => (false, self)

/-- The method `declParser.HasAnsAnno`: the flag it returns and the record it leaves. -/
def HasAnsAnno (lib : Stdlib) (self : declParser) : Bool × declParser :=
  if self.HasAns then (true, self)
  else
    match self.Comments with
    | none => (false, self)
    | some list =>
      match firstMatch (rxAns lib) 2 list with
      | some (m1 :: m2 :: _) =>
        (true, { self with ID := m1, Code := Atoi m2, Name := m1 ++ ['-'] ++ m2, HasAns := true })
      | _ => (false, self)

/-- The body of the loop of `processPackage` over the declarations of a `GenDecl`. Both maps
store the pointer `decl`: the record under the request key is the one that `HasAnsAnno` leaves,
and the request key is the name that `HasReqAnno` has set. -/
def registerDecl (lib : Stdlib) (self : scanner) (decl : declParser) : scanner :=
  let r := HasReqAnno lib decl
  let a := HasAnsAnno lib r.2
  let self1 : scanner := if r.1 then { self with reqs := mapSet self.reqs r.2.Name a.2 } else self
  if a.1 then { self1 with anses := mapSet self1.anses a.2.Name a.2 } else self1

/-! ## `reflect.StructTag` -/

/-- The scan of a quoted tag value after its opening quote: the text up to the closing quote
and what follows it; a backslash skips the next character. -/
def scanQuoted : Str → Option (Str × Str)
  | [] => none
  | c :: rest =>
    if c = '"' then some ([], rest)
    else if c = Char.ofNat 92 then
      match rest with
      | [] => none
      | d :: rest2 => (scanQuoted rest2).map (fun qr => (c :: d :: qr.1, qr.2))
    else (scanQuoted rest).map (fun qr => (c :: qr.1, qr.2))

/-- The loop of `reflect.StructTag.Lookup`; the first argument bounds the number of rounds, each
of which shortens the tag. -/
def tagLookup (lib : Stdlib) : Nat → Str → Str → Option Str
  | 0, _, _ => none
  | n + 1, tag, key =>
    let tag1 := tag.dropWhile (fun c => decide (c = ' '))
    if tag1 = [] then none
    else
      let name := tag1.takeWhile (fun c => decide (c.toNat > 32) && decide (c ≠ ':')
        && decide (c ≠ '"') && decide (c.toNat ≠ 0x7f))
      if name = [] then none
      else
        match tag1.drop name.length with
        | c1 :: c2 :: rest =>
          if c1 = ':' ∧ c2 = '"' then
            match scanQuoted rest with
            | none => none
            | some (q, tag2) =>
              if key = name then lib.Unquote (['"'] ++ q ++ ['"'])
              else tagLookup lib n tag2 key
          else none
        | _ => none

/-- The method `reflect.StructTag.Get(key)`. -/
def StructTagGet (lib : Stdlib) (tag key : Str) : Str :=
  (tagLookup lib (tag.length + 1) tag key).getD []

/-! ## The builder (`builder.go`) -/

/-- The function `parseJsonTags`. -/
def parseJsonTags (lib : Stdlib) (field : AstField) : Str × Bool :=
  let name : Str := match field.Names with
    | n :: _ => n
    | [] => []
  match field.Tag with
  | none => (name, false)
  | some v =>
    if (TrimSpace v).length = 0 then (name, false)
    else
      match lib.Unquote v with
      | none => (name, false)
      | some tv =>
        if TrimSpace tv ≠ [] then
          match Split (StructTagGet lib tv "json".toList) ',' with
          | p :: _ =>
            if p = "-".toList then (name, true)
            else if p = [] then (name, false)
            else (p, false)
          | [] => (name, false)
        else (name, false)

/-- The method `builder.commentLineClear`. -/
def commentLineClear (line : Str) : Str :=
  let line1 := TrimSpace line
  let line2 := if HasPrefix line1 "//".toList then line1.drop 2 else line1
  TrimSpace line2

/-- The inner switch of `buildSchemaFromType` on `titpe.String()`: the JSON type and format of
a basic type, `none` where the case is empty or missing. -/
def schemaBasic (name : Str) : Option (Str × Str) :=
  if name = "bool".toList then some ("boolean".toList, [])
  else if name = "byte".toList then some ("integer".toList, "uint8".toList)
  else if name = "complex128".toList ∨ name = "complex64".toList then none
  else if name = "error".toList then some ("string".toList, [])
  else if name = "float32".toList then some ("number".toList, "float".toList)
  else if name = "float64".toList then some ("number".toList, "double".toList)
  else if name = "int".toList then some ("integer".toList, "int64".toList)
  else if name = "int16".toList then some ("integer".toList, "int16".toList)
  else if name = "int32".toList then some ("integer".toList, "int32".toList)
  else if name = "int64".toList then some ("integer".toList, "int64".toList)
  else if name = "int8".toList then some ("integer".toList, "int8".toList)
  else if name = "rune".toList then some ("integer".toList, "int32".toList)
  else if name = "string".toList then some ("string".toList, [])
  else if name = "uint".toList then some ("integer".toList, "uint64".toList)
  else if name = "uint16".toList then some ("integer".toList, "uint16".toList)
  else if name = "uint32".toList then some ("integer".toList, "uint32".toList)
  else if name = "uint64".toList then some ("integer".toList, "uint64".toList)
  else if name = "uint8".toList then some ("integer".toList, "uint8".toList)
  else if name = "uintptr".toList then some ("integer".toList, "uint64".toList)
  else none

/-- The switch of `buildReq` on `titpe.String()`: the query parameter of a field of a basic
type, nil where the case is empty or missing. -/
def queryBasic (name field : Str) : Option Parameter :=
  if field = "bool".toList then some ((QueryParam name).Typed "boolean".toList [])
  else if field = "byte".toList then some ((QueryParam name).Typed "integer".toList "uint8".toList)
  else if field = "complex128".toList ∨ field = "complex64".toList then none
  else if field = "error".toList then some ((QueryParam name).Typed "string".toList [])
  else if field = "float32".toList then some ((QueryParam name).Typed "number".toList "float".toList)
  else if field = "float64".toList then some ((QueryParam name).Typed "number".toList "double".toList)
  else if field = "int".toList then some ((QueryParam name).Typed "integer".toList "int64".toList)
  else if field = "int16".toList then some ((QueryParam name).Typed "integer".toList "int16".toList)
  else if field = "int32".toList then some ((QueryParam name).Typed "integer".toList "int32".toList)
  else if field = "int64".toList then some ((QueryParam name).Typed "integer".toList "int64".toList)
  else if field = "int8".toList then some ((QueryParam name).Typed "integer".toList "int8".toList)
  else if field = "rune".toList then some ((QueryParam name).Typed "integer".toList "int32".toList)
  else if field = "string".toList then some ((QueryParam name).Typed "string".toList [])
  else if field = "uint".toList then some ((QueryParam name).Typed "integer".toList "uint64".toList)
  else if field = "uint16".toList then some ((QueryParam name).Typed "integer".toList "uint16".toList)
  else if field = "uint32".toList then some ((QueryParam name).Typed "integer".toList "uint32".toList)
  else if field = "uint64".toList then some ((QueryParam name).Typed "integer".toList "uint64".toList)
  else if field = "uint8".toList then some ((QueryParam name).Typed "integer".toList "uint8".toList)
  else if field = "uintptr".toList then some ((QueryParam name).Typed "integer".toList "uint64".toList)
  else none

/-- The field loop of `buildSchemaFromStruct`, from field `i` on; `recur` is the call
`self.buildSchemaFromType(decl, fld.Type(), &ps)`, whose error value the loop drops. -/
def structFields (lib : Stdlib) (recur : GoType → Schema → Except Fault Schema)
    (decl : declParser) : List (Var × GoType) → Schema → Except Fault Schema
  | [], schema => .ok schema
  | (fld, ftype) :: rest, schema =>
    if fld.Embedded then structFields lib recur decl rest schema
    else if !fld.Exported then structFields lib recur decl rest schema
    else
      match fieldAt decl.File fld.Pos with
      | none => structFields lib recur decl rest schema
      | some afld =>
        let ni := parseJsonTags lib afld
        if ni.2 then structFields lib recur decl rest schema
        else
          let ps := (mapGet schema.Properties ni.1).getD Schema.zero
          match recur ftype ps with
          | .error f => .error f
          | .ok ps1 =>
            let ps2 := ps1.setDescription afld.CommentText
            structFields lib recur decl rest (schema.setProperties (mapSet schema.Properties ni.1 ps2))

/-- The method `builder.buildSchemaFromStruct`, over the recursive call of its field loop. -/
def buildSchemaFromStruct (lib : Stdlib) (recur : GoType → Schema → Except Fault Schema)
    (decl : declParser) (st : List (Var × GoType)) (schema : Schema) : Except Fault Schema :=
  structFields lib recur decl st (schema.Typed "object".toList [])

/-- The schema behind `schema.Items.Schema` after both nil checks of the slice and array
cases. -/
def itemsOf (schema : Schema) : Schema := schema.Items.getD Schema.zero

/-- The method `builder.buildSchemaFromType`. The first argument bounds the depth of the
recursion: when it is used up the run has not returned. The Go method returns nil as its
error in every case, so the result here is the schema it leaves behind the pointer. -/
def buildSchemaFromType (lib : Stdlib) (U : Underlying) :
    Nat → declParser → GoType → Schema → Except Fault Schema
  | 0, _, _, _ => .error .fuel
  | fuel + 1, decl, tpe, schema =>
    match tpe with
    | .Basic name =>
      match schemaBasic name with
      | some tf => .ok (schema.Typed tf.1 tf.2)
      | none => .ok schema
    | .Pointer elem => buildSchemaFromType lib U fuel decl elem schema
    | .Struct fields =>
      buildSchemaFromStruct lib (buildSchemaFromType lib U fuel decl) decl fields schema
    | .Slice elem =>
      match buildSchemaFromType lib U fuel decl elem (itemsOf schema) with
      | .error f => .error f
      | .ok items => .ok ((schema.Typed "array".toList []).setItems items)
    | .Array elem =>
      match buildSchemaFromType lib U fuel decl elem (itemsOf schema) with
      | .error f => .error f
      | .ok items => .ok ((schema.Typed "array".toList []).setItems items)
    | .Named obj =>
      match U obj with
      | .Struct fields =>
        buildSchemaFromStruct lib (buildSchemaFromType lib U fuel decl) decl fields schema
      | _ => .ok schema
    | .Other => .ok schema

/-- The method `builder.buildSchemaFromDecl`; `decl.Type.Obj().Type()` is the named type
itself. The loop `for { ... }` exits at once on a builtin or a type and never otherwise. -/
def buildSchemaFromDecl (lib : Stdlib) (U : Underlying) (fuel : Nat) (decl : declParser)
    (schema : Schema) : Except Fault Schema :=
  let o := decl.Type_
  if o.PkgName = "time".toList ∧ o.Name = "Time".toList then
    .ok (schema.Typed "string".toList "date-time".toList)
  else
    match decl.SpecType with
    | .builtin => .ok schema
    | .type t => buildSchemaFromType lib U fuel decl t schema
    | .other => .error .loops

/-- The cases of the switch on the upper-cased method, in `buildRoute` and `routerOperator`. -/
def methodOf (m : Str) : Option Method :=
  if m = "GET".toList then some .GET
  else if m = "POST".toList then some .POST
  else if m = "PUT".toList then some .PUT
  else if m = "PATCH".toList then some .PATCH
  else if m = "HEAD".toList then some .HEAD
  else if m = "DELETE".toList then some .DELETE
  else if m = "OPTIONS".toList then some .OPTIONS
  else none

/-- The method `builder.routerOperator`: the operation pointer in the slot of path and
method, nil when there is none. -/
def routerOperator (lib : Stdlib) (input : Swagger) (path method : Str) : Option Operation :=
  match mapGet input.Paths path with
  | none => none
  | some pthObj =>
    match methodOf (ToUpper lib method) with
    | none => none
    | some m => pthObj.slot m

/-- Write through the pointer that `routerOperator` returned: the operation in the slot of path
and method becomes `op`. -/
def storeOperator (lib : Stdlib) (input : Swagger) (path method : Str) (op : Operation) :
    Swagger :=
  match mapGet input.Paths path with
  | none => input
  | some pthObj =>
    match methodOf (ToUpper lib method) with
    | none => input
    | some m => { input with Paths := mapSet input.Paths path (pthObj.setSlot m op) }

/-- The body of the line loop of `buildRoute`: the line goes to `Summary` while that is empty,
to `Description` afterwards. -/
def routeLine (op : Operation) (line : Str) : Operation :=
  if op.Summary = [] then { op with Summary := commentLineClear line }
  else
    let op1 : Operation :=
      if op.Description ≠ [] then { op with Description := op.Description ++ ['\n'] } else op
    { op1 with Description := op1.Description ++ commentLineClear line }

/-- The switch of `buildRoute`: the operation that `op` points to afterwards, which is the one
in the slot when its ID is the route's and a new one otherwise. -/
def routeOperation (r : routeParser) (pthObj : PathItem) (m : Option Method) : Operation :=
  match m with
  | none => { ID := r.ID }
  | some m =>
    match pthObj.slot m with
    | some old => if r.ID = old.ID then old else { ID := r.ID }
    | none => { ID := r.ID }

/-- One round of the loop of `buildRoute`. The operation `op` is the one the slot points to
whenever the method has a slot, so the slot holds it as `op` is at the end of the round; the
read of `r.Remaining.List` panics on a nil `Remaining`. -/
def buildRouteOne (lib : Stdlib) (input : Swagger) (r : routeParser) : Except Fault Swagger :=
  let pthObj := (mapGet input.Paths r.Path).getD {}
  let m := methodOf (ToUpper lib r.Method)
  let op := routeOperation r pthObj m
  match r.Remaining with
  | none => .error .nilDeref
  | some list =>
    let op1 := (groupLines list).foldl routeLine op
    let op2 : Operation := { op1 with Tags := r.Tags }
    let pthObj1 := match m with
      | some m => pthObj.setSlot m op2
      | none => pthObj
    .ok { input with Paths := mapSet input.Paths r.Path pthObj1 }

/-- Run of a loop body over a list, stopping at the first fault. -/
def forEach {α σ : Type} (step : σ → α → Except Fault σ) : List α → σ → Except Fault σ
  | [], s => .ok s
  | a :: r, s =>
    match step s a with
    | .error f => .error f
    | .ok s1 => forEach step r s1

/-- The method `builder.buildRoute`. -/
def buildRoute (lib : Stdlib) (ro : RangeOrder) (ctx : scanner) (input : Swagger) :
    Except Fault Swagger :=
  forEach (fun doc kv => buildRouteOne lib doc kv.2) (ro.order ctx.routes) input

/-- The body of the segment loop of `buildReq`. -/
def pathSegment (op : Operation) (p : Str) : Operation :=
  if HasPrefix p ['{'] && HasSuffix p ['}'] then
    op.AddParam ((PathParam ((p.take (p.length - 1)).drop 1)).Typed "string".toList [])
  else if HasPrefix p [':'] then
    op.AddParam ((PathParam (p.drop 1)).Typed "string".toList [])
  else op

/-- The segment loop of `buildReq` over `strings.Split(route.Path, "/")`. -/
def pathParams (op : Operation) (path : Str) : Operation :=
  (Split path '/').foldl pathSegment op

/-- The field loop of the GET branch of `buildReq`. -/
def queryFields (lib : Stdlib) (req : declParser) : List (Var × GoType) → Operation → Operation
  | [], op => op
  | (fld, ftype) :: rest, op =>
    if fld.Embedded then queryFields lib req rest op
    else if !fld.Exported then queryFields lib req rest op
    else
      match fieldAt req.File fld.Pos with
      | none => queryFields lib req rest op
      | some afld =>
        let ni := parseJsonTags lib afld
        if ni.2 then queryFields lib req rest op
        else
          let queryParam : Option Parameter := match ftype with
            | .Basic name => queryBasic ni.1 name
            | _ => none
          match queryParam with
          | some q => queryFields lib req rest (op.AddParam (q.WithDescription afld.CommentText))
          | none => queryFields lib req rest op

/-- The comment lines of a declaration, each cleaned by `commentLineClear`. -/
def commentLines (list : List Str) : List Str :=
  (groupLines list).map commentLineClear

/-- The description that `buildReq` and `buildAns` compute from the comment lines. -/
def descOf (commentlines : List Str) : Str :=
  if commentlines.length > 1 then Join (commentlines.drop 1) ['\n'] else [' ']

/-- One round of the loop of `buildReq`. The value `body` is what `AddParam` returns, the
operation, so the assignment to `body.Description` writes the operation's field. -/
def buildReqOne (lib : Stdlib) (U : Underlying) (fuel : Nat) (ctx : scanner) (input : Swagger)
    (req : declParser) : Except Fault Swagger :=
  match mapGet ctx.routes req.ID with
  | none => .ok input
  | some route =>
    match routerOperator lib input route.Path route.Method with
    | none => .ok input
    | some op =>
      let op1 := pathParams op route.Path
      if route.Method = "GET".toList then
        let op2 := match U req.Type_ with
          | .Struct fields => queryFields lib req fields op1
          | _ => op1
        .ok (storeOperator lib input route.Path route.Method op2)
      else
        let schema := (mapGet input.Definitions req.Name).getD Schema.zero
        match buildSchemaFromDecl lib U fuel req schema with
        | .error f => .error f
        | .ok schema1 =>
          let input1 : Swagger :=
            { input with Definitions := mapSet input.Definitions req.Name schema1 }
          match req.Comments with
          | none => .error .nilDeref
          | some list =>
            let desc := descOf (commentLines list)
            let body := op1.AddParam
              (BodyParam "Body".toList (RefSchema ("#/definitions/".toList ++ req.Name)))
            let body1 : Operation := { body with Description := desc }
            .ok (storeOperator lib input1 route.Path route.Method body1)

/-- The method `builder.buildReq`. -/
def buildReq (lib : Stdlib) (ro : RangeOrder) (U : Underlying) (fuel : Nat) (ctx : scanner)
    (input : Swagger) : Except Fault Swagger :=
  forEach (fun doc kv => buildReqOne lib U fuel ctx doc kv.2) (ro.order ctx.reqs) input

/-- One round of the loop of `buildAns`. -/
def buildAnsOne (lib : Stdlib) (U : Underlying) (fuel : Nat) (ctx : scanner) (input : Swagger)
    (ans : declParser) : Except Fault Swagger :=
  match mapGet ctx.routes ans.ID with
  | none => .ok input
  | some route =>
    match routerOperator lib input route.Path route.Method with
    | none => .ok input
    | some op =>
      let schema := (mapGet input.Definitions ans.Name).getD Schema.zero
      match buildSchemaFromDecl lib U fuel ans schema with
      | .error f => .error f
      | .ok schema1 =>
        let input1 : Swagger :=
          { input with Definitions := mapSet input.Definitions ans.Name schema1 }
        match ans.Comments with
        | none => .error .nilDeref
        | some list =>
          let desc := descOf (commentLines list)
          let response : Response :=
            { Schema := some (RefSchema ("#/definitions/".toList ++ ans.Name)),
              Description := desc }
          .ok (storeOperator lib input1 route.Path route.Method (op.RespondsWith ans.Code response))

/-- The method `builder.buildAns`. -/
def buildAns (lib : Stdlib) (ro : RangeOrder) (U : Underlying) (fuel : Nat) (ctx : scanner)
    (input : Swagger) : Except Fault Swagger :=
  forEach (fun doc kv => buildAnsOne lib U fuel ctx doc kv.2) (ro.order ctx.anses) input

/-- The local variables of the first loop of `buildMeta`: the map `metas` and the current
`key` and `value`. -/
structure MetaState where
  metas : GoMap Str Str := []
  key : Str := []
  value : Str := []
  deriving DecidableEq

/-- The body of the line loop of `buildMeta`. -/
def metaLine (st : MetaState) (line : Str) : MetaState :=
  let line1 := TrimLeft line '/'
  match Index line1 ':' with
  | some pos =>
    { metas := if st.key ≠ [] then mapSet st.metas st.key st.value else st.metas,
      key := TrimSpace (line1.take pos),
      value := TrimSpace (line1.drop (pos + 1)) }
  | none =>
    if line1 ≠ [] then { st with value := st.value ++ ['\n'] ++ line1 } else st

/-- The body of the loop of `buildMeta` over `meta.Comments.List`. -/
def metaComment (st : MetaState) (text : Str) : MetaState :=
  let st1 := (Split text '\n').foldl metaLine st
  if st1.key ≠ [] then { st1 with metas := mapSet st1.metas st1.key st1.value } else st1

/-- The body of the loop of `buildMeta` over `self.ctx.metas`; the read of
`meta.Comments.List` panics on a nil `Comments`. -/
def metaGroup (metas : GoMap Str Str) (m : meteParser) : Except Fault (GoMap Str Str) :=
  match m.Comments with
  | none => .error .nilDeref
  | some list => .ok (list.foldl metaComment { metas := metas }).metas

/-- The list `vv` that `buildMeta` computes for a list-valued key. -/
def metaList (v : Str) : List Str := (Split v ',').map TrimSpace

/-- Assignment to a field of `input.Info`, which is not nil in the second loop. -/
def setInfo (input : Swagger) (f : Info → Info) : Swagger :=
  { input with Info := some (f (input.Info.getD {})) }

/-- The body of the second loop of `buildMeta`: the switch on the lower-cased key. -/
def metaAssign (lib : Stdlib) (input : Swagger) (kv : Str × Str) : Swagger :=
  let k := ToLower lib (TrimSpace kv.1)
  let v := kv.2
  if k = "title".toList then setInfo input (fun i => { i with Title := v })
  else if k = "version".toList then setInfo input (fun i => { i with Version := v })
  else if k = "schemes".toList then { input with Schemes := metaList v }
  else if k = "host".toList then { input with Host := v }
  else if k = "basepath".toList then { input with BasePath := v }
  else if k = "consumes".toList then { input with Consumes := metaList v }
  else if k = "produces".toList then { input with Produces := metaList v }
  else input

/-- The map `metas` after the first loop of `buildMeta`. -/
def collectMetas (metas : List meteParser) : Except Fault (GoMap Str Str) :=
  forEach metaGroup metas []

/-- The method `builder.buildMeta`. -/
def buildMeta (lib : Stdlib) (ro : RangeOrder) (ctx : scanner) (input : Swagger) :
    Except Fault Swagger :=
  match collectMetas ctx.metas with
  | .error f => .error f
  | .ok metas =>
    let input1 : Swagger := { input with Info := some (input.Info.getD {}) }
    .ok ((ro.order metas).foldl (metaAssign lib) input1)

/-- The function `build`: a nil input becomes the fresh document, then the four steps run in
order. The function returns no error of its own; a fault is a run that does not return. -/
def build (lib : Stdlib) (ro : RangeOrder) (U : Underlying) (fuel : Nat) (ctx : scanner)
    (input : Option Swagger) : Except Fault Swagger :=
  let input0 := input.getD freshDoc
  match buildMeta lib ro ctx input0 with
  | .error f => .error f
  | .ok d1 =>
    match buildRoute lib ro ctx d1 with
    | .error f => .error f
    | .ok d2 =>
      match buildReq lib ro U fuel ctx d2 with
      | .error f => .error f
      | .ok d3 => buildAns lib ro U fuel ctx d3

/-! ## Observations on a run and example inputs -/

/-- The operation in the slot of path and method after a run, nil when the run did not return
or the slot is empty. -/
def opAt (lib : Stdlib) (r : Except Fault Swagger) (path method : Str) : Option Operation :=
  match r with
  | .ok d => routerOperator lib d path method
  | .error _ => none

/-- The parameters of an operation with a given location. -/
def paramsIn (op : Operation) (loc : Str) : List Parameter :=
  op.Parameters.filter (fun p => decide (p.In = loc))

/-- The reference text of the schema of a parameter, empty when it has none. -/
def Parameter.ref (p : Parameter) : Str :=
  match p.Schema with
  | some s => s.Ref
  | none => []

/-- The reference text of the schema of a response, empty when it has none. -/
def Response.ref (r : Response) : Str :=
  match r.Schema with
  | some s => s.Ref
  | none => []

/-- The definitions of a document after a run, empty when the run did not return. -/
def definitionsOf (r : Except Fault Swagger) : GoMap Str Schema :=
  match r with
  | .ok d => d.Definitions
  | .error _ => []

/-- The object of a type `name` declared in package `api`. -/
def apiObj (name : Str) : TypeName := ⟨"example.com/api".toList, "api".toList, name⟩

/-- The object of `time.Time`. -/
def timeObj : TypeName := ⟨"time".toList, "time".toList, "Time".toList⟩

/-- The struct behind `time.Time`: three unexported fields, declared in another file. -/
def timeStruct : GoType :=
  .Struct [(⟨"wall".toList, false, false, 9001⟩, .Basic "uint64".toList),
    (⟨"ext".toList, false, false, 9002⟩, .Basic "int64".toList),
    (⟨"loc".toList, false, false, 9003⟩, .Pointer (.Named ⟨"time".toList, "time".toList,
      "Location".toList⟩))]

/-- The type `*Node`. -/
def nodePointer : GoType := .Pointer (.Named (apiObj "Node".toList))

/-- The fields of `type Node struct { Next *Node }`. -/
def nodeFields : List (Var × GoType) := [(⟨"Next".toList, false, true, 11⟩, nodePointer)]

/-- The struct of `type Node struct { Next *Node }`. -/
def nodeStruct : GoType := .Struct nodeFields

/-- The struct of `type Other struct { X int }`, declared in a second file of package `api`. -/
def otherStruct : GoType :=
  .Struct [(⟨"X".toList, false, true, 5001⟩, .Basic "int".toList)]

/-- The struct of `type ItemQuery struct { Verbose bool }`. -/
def itemQueryStruct : GoType :=
  .Struct [(⟨"Verbose".toList, false, true, 51⟩, .Basic "bool".toList)]

/-- The object of the predeclared type `error`, which belongs to no package; the type is a
`*types.Named` whose underlying type is an interface. -/
def errorObj : TypeName := { PkgPath := [], PkgName := [], Name := "error".toList }

/-- The struct type `struct { Err error }`, the underlying type of `ErrQuery`. -/
def errQueryStruct : GoType :=
  .Struct [(⟨"Err".toList, false, true, 71⟩, .Named errorObj)]

/-- The named types of the example program. -/
def exUnderlying : Underlying := fun o =>
  if o = timeObj then timeStruct
  else if o = apiObj "Node".toList then nodeStruct
  else if o = apiObj "Other".toList then otherStruct
  else if o = apiObj "ItemQuery".toList then itemQueryStruct
  else if o = apiObj "Query".toList then otherStruct
  else if o = apiObj "ErrQuery".toList then errQueryStruct
  else .Other

/-- The route of `swag:route createItem POST /items` followed by the line `Creates an item.` -/
def createItemRoute : routeParser :=
  { ID := "createItem".toList, Method := "POST".toList, Path := "/items".toList,
    Remaining := some ["// Creates an item.".toList] }

/-- The route of `swag:route listItems PUT /list` followed by the line `Lists the items.` -/
def listItemsRoute : routeParser :=
  { ID := "listItems".toList, Method := "PUT".toList, Path := "/list".toList,
    Remaining := some ["// Lists the items.".toList] }

/-- The struct of `type Item struct { Name string }`. -/
def itemStruct : GoType := .Struct [(⟨"Name".toList, false, true, 21⟩, .Basic "string".toList)]

/-- The file that declares `Item`. -/
def itemFile : File := { Fields := [(21, { Names := ["Name".toList] })] }

/-- The declaration `type Item struct { Name string }` as `parseDecl` records it, with the
given doc comment. -/
def itemDecl (doc : List Str) : declParser :=
  { Comments := some doc, Type_ := apiObj "Item".toList, SpecType := .type itemStruct,
    File := itemFile }

/-- The registry of the two example routes. -/
def twoRoutes : scanner :=
  { routes := [("createItem".toList, createItemRoute), ("listItems".toList, listItemsRoute)] }

/-- The registry after the scan of `Item` with the doc comment
`// swag:req createItem` / `// The item to create.` -/
def c3Scanner : scanner :=
  registerDecl Stdlib.ascii twoRoutes
    (itemDecl ["// swag:req createItem".toList, "// The item to create.".toList])

/-- The registry after the scan of `Item` with the doc comment
`// swag:ans listItems 200` / `//`. -/
def c4Scanner : scanner :=
  registerDecl Stdlib.ascii twoRoutes (itemDecl ["// swag:ans listItems 200".toList, "//".toList])

/-- The registry after the scan of `Item` with the doc comment
`// swag:req createItem` / `// swag:ans listItems 200`. -/
def c5Scanner : scanner :=
  registerDecl Stdlib.ascii twoRoutes
    (itemDecl ["// swag:req createItem".toList, "// swag:ans listItems 200".toList])

/-- The declaration `type Stamp time.Time` with the doc comment `// swag:req createItem`. -/
def stampDecl : declParser :=
  { ID := "createItem".toList, Name := "createItem".toList,
    Comments := some ["// swag:req createItem".toList],
    Type_ := apiObj "Stamp".toList, SpecType := .type (.Named timeObj), HasReq := true }

/-- The declaration `type Event struct { At time.Time; Log []time.Time }` with the doc comment
`// swag:req createItem`. -/
def eventDecl : declParser :=
  { ID := "createItem".toList, Name := "createItem".toList,
    Comments := some ["// swag:req createItem".toList],
    Type_ := apiObj "Event".toList,
    SpecType := .type (.Struct [(⟨"At".toList, false, true, 31⟩, .Named timeObj),
      (⟨"Log".toList, false, true, 32⟩, .Slice (.Named timeObj))]),
    File := { Fields := [(31, { Names := ["At".toList] }), (32, { Names := ["Log".toList] })] },
    HasReq := true }

/-- The type and format of a schema after a run, and the names of its properties. -/
def schemaShape (r : Except Fault Schema) : Option (List Str × Str × List Str) :=
  match r with
  | .ok s => some (s.Type_, s.Format, mapKeys s.Properties)
  | .error _ => none

/-- The type and format of the property `name` of a schema after a run. -/
def propertyShape (r : Except Fault Schema) (name : Str) : Option (List Str × Str) :=
  match r with
  | .ok s => (mapGet s.Properties name).map (fun p => (p.Type_, p.Format))
  | .error _ => none

/-- The type and format of the items of the property `name` of a schema after a run. -/
def itemsShape (r : Except Fault Schema) (name : Str) : Option (List Str × Str) :=
  match r with
  | .ok s => ((mapGet s.Properties name).bind Schema.Items).map (fun p => (p.Type_, p.Format))
  | .error _ => none

/-- The number of type constructors of a type. -/
def GoType.size : GoType → Nat
  | .Basic _ => 1
  | .Pointer elem => elem.size + 1
  | .Struct fields => sizeOfFields fields + 1
  | .Slice elem => elem.size + 1
  | .Array elem => elem.size + 1
  | .Named _ => 1
  | .Other => 1
where
  /-- The number of type constructors of the types of a field list. -/
  sizeOfFields : List (Var × GoType) → Nat
    | [] => 0
    | (_, t) :: r => t.size + sizeOfFields r

/-- The declaration `type Node struct { Next *Node }` with the doc comment
`// swag:req createItem`. -/
def nodeDecl : declParser :=
  { ID := "createItem".toList, Name := "createItem".toList,
    Comments := some ["// swag:req createItem".toList],
    Type_ := apiObj "Node".toList, SpecType := .type nodeStruct,
    File := { Fields := [(11, { Names := ["Next".toList] })] }, HasReq := true }

/-- From `N` on, every budget lets `buildSchemaFromType` return on the type, whatever the
schema it starts from. -/
def ReturnsFrom (lib : Stdlib) (U : Underlying) (decl : declParser) (t : GoType) (N : Nat) : Prop :=
  ∀ fuel, N ≤ fuel → ∀ schema, ∃ s, buildSchemaFromType lib U fuel decl t schema = .ok s

/-- The test of the field loop of `buildSchemaFromStruct` for a field that it does not skip:
the field is not embedded, it is exported, its `*ast.Field` is found in the file of the
declaration, and its tag does not say `-`. -/
def fieldEntered (lib : Stdlib) (decl : declParser) (fld : Var) : Bool :=
  !fld.Embedded && fld.Exported &&
    match fieldAt decl.File fld.Pos with
    | some afld => !(parseJsonTags lib afld).2
    | none => false

/-- The objects of the named types that a call of `buildSchemaFromType` on a type comes to
before it enters a named type: those that occur in the type behind pointers, slices, arrays and
the fields of struct types that the field loop does not skip. -/
def GoType.calls (lib : Stdlib) (decl : declParser) : GoType → List TypeName
  | .Basic _ => []
  | .Pointer elem => elem.calls lib decl
  | .Struct fields => callsOfFields lib decl fields
  | .Slice elem => elem.calls lib decl
  | .Array elem => elem.calls lib decl
  | .Named obj => [obj]
  | .Other => []
where
  /-- The objects of the named types that the calls on the fields of a field list come to. -/
  callsOfFields (lib : Stdlib) (decl : declParser) : List (Var × GoType) → List TypeName
    | [] => []
    | (v, t) :: r =>
      (if fieldEntered lib decl v then t.calls lib decl else []) ++ callsOfFields lib decl r

/-- The objects of the named types that the call on a named type comes to: those of the fields
of the struct underneath, none when there is no struct underneath. -/
def calledFrom (lib : Stdlib) (U : Underlying) (decl : declParser) (obj : TypeName) :
    List TypeName :=
  match U obj with
  | .Struct fields => GoType.calls.callsOfFields lib decl fields
  | _ => []

/-- The named types that the call of `buildSchemaFromType` on the type `t` enters. -/
inductive Entered (lib : Stdlib) (U : Underlying) (decl : declParser) (t : GoType) :
    TypeName → Prop where
  | first (n : TypeName) (h : n ∈ t.calls lib decl) : Entered lib U decl t n
  | next (obj n : TypeName) (h : Entered lib U decl t obj)
      (hn : n ∈ calledFrom lib U decl obj) : Entered lib U decl t n

/-- The named types that the call on `t` enters do not lead back to themselves: every named
type that the call on an entered named type comes to has a smaller rank. -/
def AcyclicFrom (lib : Stdlib) (U : Underlying) (decl : declParser) (rank : TypeName → Nat)
    (t : GoType) : Prop :=
  ∀ obj, Entered lib U decl t obj → ∀ n ∈ calledFrom lib U decl obj, rank n < rank obj

/-- The struct type of `Holder`. -/
def holderStruct : GoType :=
  .Struct [(⟨"Inner".toList, false, true, 41⟩, .Named (apiObj "Other".toList))]

/-- The declaration `type Holder struct { Inner Other }` in the file that also declares
`type Other struct { X int }`, with the doc comment `// swag:req createItem`. -/
def holderDecl : declParser :=
  { ID := "createItem".toList, Name := "createItem".toList,
    Comments := some ["// swag:req createItem".toList],
    Type_ := apiObj "Holder".toList,
    SpecType := .type holderStruct,
    File := { Fields := [(41, { Names := ["Inner".toList] }), (5001, { Names := ["X".toList] })] },
    HasReq := true }

/-- The name that an `*ast.Field` declares first, empty when it declares none. -/
def declaredName (field : AstField) : Str := field.Names.headD []

/-- The first comma-separated segment of the value of the key `json` in the tag of a field;
empty when the field has no tag, the tag does not unquote, or the tag has no key `json`. -/
def jsonSegment (lib : Stdlib) (field : AstField) : Str :=
  match field.Tag with
  | none => []
  | some v =>
    match lib.Unquote v with
    | none => []
    | some tv => (Split (StructTagGet lib tv "json".toList) ',').headD []

/-- A field of a struct type that the field loop of `buildSchemaFromStruct` does not skip: it is
not embedded, exported, its `*ast.Field` is found in the file of the declaration, and its tag
does not say `-`. -/
def fieldKept (lib : Stdlib) (decl : declParser) (fld : Var) (afld : AstField) : Prop :=
  fld.Embedded = false ∧ fld.Exported = true ∧ fieldAt decl.File fld.Pos = some afld
    ∧ (parseJsonTags lib afld).2 = false

/-- The declaration `type Outer struct { Inner Other }` with the doc comment
`// swag:req createItem`; `Other` is declared in a second file. -/
def outerDecl : declParser :=
  { ID := "createItem".toList, Name := "createItem".toList,
    Comments := some ["// swag:req createItem".toList],
    Type_ := apiObj "Outer".toList,
    SpecType := .type (.Struct [(⟨"Inner".toList, false, true, 41⟩,
      .Named (apiObj "Other".toList))]),
    File := { Fields := [(41, { Names := ["Inner".toList] })] }, HasReq := true }

/-- The fields of `struct { X int }`, the struct behind `Other`. -/
def otherFields : List (Var × GoType) :=
  [(⟨"X".toList, false, true, 5001⟩, .Basic "int".toList)]

/-- The names of the properties of the property `name` of a schema after a run. -/
def nestedKeys (r : Except Fault Schema) (name : Str) : Option (List Str) :=
  match r with
  | .ok s => (mapGet s.Properties name).map (fun p => mapKeys p.Properties)
  | .error _ => none

/-- The operation in the slot of a path and a method of a document. -/
def slotOp (d : Swagger) (path : Str) (m : Method) : Option Operation :=
  (mapGet d.Paths path).bind (fun p => p.slot m)

/-- What `AddParam` compares: the name and the location of a parameter. -/
def paramKey (p : Parameter) : Str × Str := (p.Name, p.In)

/-- The name that a path segment of the form `{name}` or `:name` carries. -/
def segmentName (p : Str) : Option Str :=
  if HasPrefix p ['{'] && HasSuffix p ['}'] then some ((p.take (p.length - 1)).drop 1)
  else if HasPrefix p [':'] then some (p.drop 1)
  else none

/-- The names taken from the `/`-separated segments of a path template. -/
def pathNames (path : Str) : List Str := (Split path '/').filterMap segmentName

/-- A declaration is bound to a route of the registry with the given path whose method has the
given slot. -/
def Targets (lib : Stdlib) (ctx : scanner) (decl : declParser) (path : Str) (m : Method) : Prop :=
  ∃ route, mapGet ctx.routes decl.ID = some route ∧ route.Path = path
    ∧ methodOf (ToUpper lib route.Method) = some m

/-- The method of every route of the registry is in upper case, as `parseRoute` leaves it. -/
def MethodsNormalized (lib : Stdlib) (ctx : scanner) : Prop :=
  ∀ kr ∈ ctx.routes, ToUpper lib kr.2.Method = kr.2.Method

/-- The names and locations of the parameters of an operation. -/
def paramKeys (op : Operation) : List (Str × Str) := op.Parameters.map paramKey

/-- The operation `op1` arises from `op` by calls of `AddParam` with parameters that satisfy
`added`: the responses and the ID are those of `op`, no name and location is lost, names and
locations stay without repetition, and every parameter is one of `op` or an added one. -/
def ParamsExtend (added : Parameter → Prop) (op op1 : Operation) : Prop :=
  op1.Responses = op.Responses ∧ op1.ID = op.ID
    ∧ (∀ k ∈ paramKeys op, k ∈ paramKeys op1)
    ∧ ((paramKeys op).Nodup → (paramKeys op1).Nodup)
    ∧ (∀ q ∈ op1.Parameters, q ∈ op.Parameters ∨ added q)

/-- The path parameter that `buildReq` adds for a name. -/
def pathParamOf (n : Str) : Parameter := (PathParam n).Typed "string".toList []

/-- The body parameter that `buildReq` adds for a schema name. -/
def bodyParamOf (name : Str) : Parameter :=
  BodyParam "Body".toList (RefSchema ("#/definitions/".toList ++ name))

/-- The document `d1` arises from `d` by the write of `op1` through the pointer to the
operation `op` in the slot of a path and a method; every other slot is as it was. -/
def SlotUpdate (d d1 : Swagger) (path : Str) (m : Method) (op op1 : Operation) : Prop :=
  slotOp d path m = some op
    ∧ ∀ path1 m1, slotOp d1 path1 m1 = if path1 = path ∧ m1 = m then some op1 else slotOp d path1 m1

/-- The parameters that a round of `buildReq` adds for a declaration and its route. -/
def reqAdded (req : declParser) (route : routeParser) (q : Parameter) : Prop :=
  (∃ n ∈ pathNames route.Path, q = pathParamOf n)
    ∨ (q.In = "query".toList ∧ route.Method = "GET".toList)
    ∨ (q = bodyParamOf req.Name ∧ route.Method ≠ "GET".toList)

/-- The response that a round of `buildAns` registers for a declaration with the comment list
`list`. -/
def ansResponse (ans : declParser) (list : List Str) : Response :=
  { Schema := some (RefSchema ("#/definitions/".toList ++ ans.Name)),
    Description := descOf (commentLines list) }

/-- The parameter is the body parameter of a request declaration of the registry that is bound
to a route with the given path and slot whose method is not the text `GET`. -/
def BodySource (lib : Stdlib) (ctx : scanner) (q : Parameter) (path : Str) (m : Method) : Prop :=
  ∃ kv ∈ ctx.reqs, q = bodyParamOf kv.2.Name ∧ ∃ route, mapGet ctx.routes kv.2.ID = some route
    ∧ route.Path = path ∧ methodOf (ToUpper lib route.Method) = some m
    ∧ route.Method ≠ "GET".toList

/-- The parameters of every operation of a document have no repeated name and location, and
each is a path parameter of a name of the path, a query parameter, or the body parameter of a
request declaration bound to the slot. -/
def ParamInv (lib : Stdlib) (ctx : scanner) (d : Swagger) : Prop :=
  ∀ path m op, slotOp d path m = some op →
    (paramKeys op).Nodup ∧ ∀ q ∈ op.Parameters,
      (∃ n ∈ pathNames path, q = pathParamOf n) ∨ q.In = "query".toList
        ∨ BodySource lib ctx q path m

/-- No operation of a document has a response. -/
def RespEmpty (d : Swagger) : Prop :=
  ∀ path m op, slotOp d path m = some op → op.Responses = {}

/-- Every response of every operation of a document was registered for a response declaration
of the registry that is bound to the slot and has the code of the entry. -/
def AnsInv (lib : Stdlib) (ctx : scanner) (d : Swagger) : Prop :=
  ∀ path m op, slotOp d path m = some op → ∀ code resp, mapGet op.Responses.StatusCodeResponses code = some resp →
    ∃ kv ∈ ctx.anses, ∃ list, kv.2.Code = code ∧ Targets lib ctx kv.2 path m
      ∧ resp = ansResponse kv.2 list

/-- The response that an operation has for a code: the default response for the code 0, the
entry of the code in `StatusCodeResponses` for every other code. -/
def Operation.responseAt (o : Operation) (code : Int) : Option Response :=
  if code = 0 then o.Responses.Default else mapGet o.Responses.StatusCodeResponses code

/-- The default response of every operation of a document was registered for a response
declaration of the registry that is bound to the slot and has the code 0. -/
def DefaultInv (lib : Stdlib) (ctx : scanner) (d : Swagger) : Prop :=
  ∀ path m op, slotOp d path m = some op → ∀ resp, op.Responses.Default = some resp →
    ∃ kv ∈ ctx.anses, ∃ list, kv.2.Code = 0 ∧ Targets lib ctx kv.2 path m
      ∧ resp = ansResponse kv.2 list

/-- The path parameters of the operation of a route are exactly one required parameter of type
string per name taken from the path, and nothing else. -/
def PathParamsExact (lib : Stdlib) (d : Swagger) (r : routeParser) : Prop :=
  ∃ op, routerOperator lib d r.Path r.Method = some op
    ∧ (∀ q ∈ paramsIn op "path".toList, q.Required = true ∧ q.Type_ = "string".toList
        ∧ q.Format = [] ∧ q.Name ∈ pathNames r.Path)
    ∧ (∀ n ∈ pathNames r.Path, ∃ q ∈ paramsIn op "path".toList, q.Name = n)
    ∧ ((paramsIn op "path".toList).map (fun q => q.Name)).Nodup

/-- The text of a method that has a slot. -/
def Method.name : Method → Str
  | .GET => "GET".toList
  | .POST => "POST".toList
  | .PUT => "PUT".toList
  | .PATCH => "PATCH".toList
  | .HEAD => "HEAD".toList
  | .DELETE => "DELETE".toList
  | .OPTIONS => "OPTIONS".toList

/-- The route of `swag:route getItem GET /items/{id}` followed by the line `Gets an item.` -/
def getItemRoute : routeParser :=
  { ID := "getItem".toList, Method := "GET".toList, Path := "/items/{id}".toList,
    Remaining := some ["// Gets an item.".toList] }

/-- The declaration `type ItemQuery struct { Verbose bool }` documented `// swag:req getItem`,
as the scan leaves it. -/
def getItemReq : declParser :=
  { ID := "getItem".toList, Name := "getItem".toList,
    Comments := some ["// swag:req getItem".toList],
    Type_ := apiObj "ItemQuery".toList, SpecType := .type itemQueryStruct,
    File := { Fields := [(51, { Names := ["Verbose".toList] })] }, HasReq := true }

/-- The registry of the route `getItem` and its request declaration. -/
def getItemScanner : scanner :=
  { routes := [("getItem".toList, getItemRoute)], reqs := [("getItem".toList, getItemReq)] }

/-- The document of a run, the fresh document when the run did not return. -/
def docOf (r : Except Fault Swagger) : Swagger :=
  match r with
  | .ok d => d
  | .error _ => freshDoc

/-- The document that build makes of the registry of `getItem` and a fresh document. -/
def getItemDoc : Swagger :=
  docOf (build Stdlib.ascii RangeOrder.stored exUnderlying 4 getItemScanner none)

/-- The route of `swag:route addItem POST /items` followed by the line `Adds an item.` -/
def addItemRoute : routeParser :=
  { ID := "addItem".toList, Method := "POST".toList, Path := "/items".toList,
    Remaining := some ["// Adds an item.".toList] }

/-- The registry of two routes that share `POST /items`, `createItem` and `addItem`, each with
a request declaration of its own: `Item` documented `// swag:req createItem` and a second
`Item` documented `// swag:req addItem`. -/
def sharedSlotScanner : scanner :=
  registerDecl Stdlib.ascii
    (registerDecl Stdlib.ascii
      { routes := [("createItem".toList, createItemRoute), ("addItem".toList, addItemRoute)] }
      (itemDecl ["// swag:req createItem".toList, "// The item to create.".toList]))
    (itemDecl ["// swag:req addItem".toList, "// The item to add.".toList])

/-- The registry after the scan of two declarations for the route `listItems`, documented
`// swag:ans listItems 200` / `// OK.` and `// swag:ans listItems 0200` / `// Also OK.` -/
def sameNumberScanner : scanner :=
  registerDecl Stdlib.ascii
    (registerDecl Stdlib.ascii twoRoutes
      (itemDecl ["// swag:ans listItems 200".toList, "// OK.".toList]))
    (itemDecl ["// swag:ans listItems 0200".toList, "// Also OK.".toList])

/-- The registry after the scan of two declarations for the route `listItems`, documented
`// swag:ans listItems 0` / `// Anything else.` and `// swag:ans listItems 200` / `// OK.` -/
def zeroCodeScanner : scanner :=
  registerDecl Stdlib.ascii
    (registerDecl Stdlib.ascii twoRoutes
      (itemDecl ["// swag:ans listItems 0".toList, "// Anything else.".toList]))
    (itemDecl ["// swag:ans listItems 200".toList, "// OK.".toList])

/-- The registry of the two routes that share `POST /items` after the scan of three
declarations, documented `// swag:ans createItem 200`, `// swag:ans createItem 404` and
`// swag:ans addItem 200`, each with a second line. -/
def sharedSlotAnsScanner : scanner :=
  registerDecl Stdlib.ascii
    (registerDecl Stdlib.ascii
      (registerDecl Stdlib.ascii
        { routes := [("createItem".toList, createItemRoute), ("addItem".toList, addItemRoute)] }
        (itemDecl ["// swag:ans createItem 200".toList, "// Created.".toList]))
      (itemDecl ["// swag:ans createItem 404".toList, "// Missing.".toList]))
    (itemDecl ["// swag:ans addItem 200".toList, "// Added.".toList])

/-- The registry after the scan of two declarations for the route `listItems`, documented
`// swag:ans listItems 200` / `// OK.` and `// swag:ans listItems 404` / `// Missing.` -/
def twoCodesScanner : scanner :=
  registerDecl Stdlib.ascii
    (registerDecl Stdlib.ascii twoRoutes
      (itemDecl ["// swag:ans listItems 200".toList, "// OK.".toList]))
    (itemDecl ["// swag:ans listItems 404".toList, "// Missing.".toList])

/-- The record that the scan leaves for `Item` documented `// swag:ans listItems 200` /
`// OK.` -/
def ans200Decl : declParser :=
  (HasAnsAnno Stdlib.ascii (itemDecl ["// swag:ans listItems 200".toList, "// OK.".toList])).2

/-- The record that the scan leaves for `Item` documented `// swag:ans listItems 404` /
`// Missing.` -/
def ans404Decl : declParser :=
  (HasAnsAnno Stdlib.ascii
    (itemDecl ["// swag:ans listItems 404".toList, "// Missing.".toList])).2

/-- The document that build makes of the registry of the two codes and a fresh document. -/
def twoCodesDoc : Swagger :=
  docOf (build Stdlib.ascii RangeOrder.stored exUnderlying 8 twoCodesScanner none)

/-- Spec (a meta block as the specification words it): read over the lines of a comment, marker
slashes removed, from the last line back. A line with a colon is a pair of the trimmed text
before the first colon and the trimmed text after it, followed by what the continuation lines
after it append; a non-empty line without a colon is a continuation line and appends a newline
and itself. The first component is what the leading continuation lines append. -/
def specMetaScan : List Str → Str × List (Str × Str)
  | [] => ([], [])
  | line :: rest =>
    match Index line ':' with
    | none =>
      ((if line ≠ [] then '\n' :: line else []) ++ (specMetaScan rest).1, (specMetaScan rest).2)
    | some pos =>
      ([], (TrimSpace (line.take pos),
        TrimSpace (line.drop (pos + 1)) ++ (specMetaScan rest).1) :: (specMetaScan rest).2)

/-- Spec: the key and value pairs of a comment group, in the order of the text. -/
def specMetaPairs (list : List Str) : List (Str × Str) :=
  (specMetaScan ((groupLines list).map (fun l => TrimLeft l '/'))).2

/-- Spec: the value of the last pair with a given non-empty key. -/
def lastValue : List (Str × Str) → Str → Option Str
  | [], _ => none
  | (k1, v) :: rest, k =>
    match lastValue rest k with
    | some w => some w
    | none => if k1 = k ∧ k ≠ [] then some v else none

/-- The map `metas` with the current key and value stored, as the end of a comment stores
them. -/
def MetaState.finish (st : MetaState) : GoMap Str Str :=
  if st.key ≠ [] then mapSet st.metas st.key st.value else st.metas

/-- One event of the first loop of `buildMeta`: a line, or the end of a comment. -/
def metaEvent (st : MetaState) (e : Option Str) : MetaState :=
  match e with
  | some line => metaLine st line
  | none => if st.key ≠ [] then { st with metas := mapSet st.metas st.key st.value } else st

/-- The events of a comment group: the lines of each comment, then its end. -/
def groupEvents (list : List Str) : List (Option Str) :=
  list.flatMap (fun text => (Split text '\n').map some ++ [none])

/-- The lines among a list of events, marker slashes removed. -/
def eventLines (es : List (Option Str)) : List Str :=
  (es.filterMap id).map (fun l => TrimLeft l '/')

/-- The field of a document that `buildMeta` assigns for a lower-case key with a text value. -/
def metaText (d : Swagger) (key : Str) : Str :=
  if key = "title".toList then (d.Info.getD {}).Title
  else if key = "version".toList then (d.Info.getD {}).Version
  else if key = "host".toList then d.Host
  else if key = "basepath".toList then d.BasePath
  else []

/-- The field of a document that `buildMeta` assigns for a lower-case key with a list value. -/
def metaStrings (d : Swagger) (key : Str) : List Str :=
  if key = "schemes".toList then d.Schemes
  else if key = "consumes".toList then d.Consumes
  else if key = "produces".toList then d.Produces
  else []

/-- The package doc comment `// title: Foo` / `// version: 1.0` / `// schemes: http, https`. -/
def fooMeta : List Str :=
  ["// title: Foo".toList, "// version: 1.0".toList, "// schemes: http, https".toList]

/-- The package doc comment `// Title: A` / `// title: B`. -/
def twoTitlesMeta : List Str := ["// Title: A".toList, "// title: B".toList]

/-- Spec: the key and value pairs of all meta comments of a registry, in the order of the
text. -/
def specAllPairs (metas : List meteParser) : List (Str × Str) :=
  metas.flatMap (fun m => specMetaPairs (m.Comments.getD []))

/-- The key of a pair as the switch of `buildMeta` reads it. -/
def metaKey (lib : Stdlib) (k : Str) : Str := ToLower lib (TrimSpace k)

/-- The registry whose one meta record is the package doc comment `// title: Foo` /
`// version: 1.0` / `// schemes: http, https`. -/
def fooScanner : scanner := { metas := [{ Comments := some fooMeta }] }

/-- The document that `buildMeta` makes of the registry of the block `Foo` and a fresh
document. -/
def fooDoc : Swagger := docOf (buildMeta Stdlib.ascii RangeOrder.stored fooScanner freshDoc)

/-- The route of `swag:route getItem GET /items/{id}` followed by the two lines
`Gets an item.` and `More.` -/
def describedRoute : routeParser :=
  { ID := "getItem".toList, Method := "GET".toList, Path := "/items/{id}".toList,
    Remaining := some ["// Gets an item.".toList, "// More.".toList] }

/-- The registry of the one route `describedRoute`. -/
def describedScanner : scanner := { routes := [("getItem".toList, describedRoute)] }

/-- The summary and the description of the operation of `GET /items/{id}` after a run. -/
def summaryOf (r : Except Fault Swagger) : Option (Str × Str) :=
  (opAt Stdlib.ascii r "/items/{id}".toList "GET".toList).map
    (fun op => (op.Summary, op.Description))

/-- Spec: the table of the scalar kinds, each with its JSON type and format. -/
def specScalarTable : List (Str × Str × Str) :=
  [("bool".toList, "boolean".toList, []),
    ("int8".toList, "integer".toList, "int8".toList),
    ("int16".toList, "integer".toList, "int16".toList),
    ("int32".toList, "integer".toList, "int32".toList),
    ("int64".toList, "integer".toList, "int64".toList),
    ("int".toList, "integer".toList, "int64".toList),
    ("rune".toList, "integer".toList, "int32".toList),
    ("uint8".toList, "integer".toList, "uint8".toList),
    ("uint16".toList, "integer".toList, "uint16".toList),
    ("uint32".toList, "integer".toList, "uint32".toList),
    ("uint64".toList, "integer".toList, "uint64".toList),
    ("byte".toList, "integer".toList, "uint8".toList),
    ("uint".toList, "integer".toList, "uint64".toList),
    ("uintptr".toList, "integer".toList, "uint64".toList),
    ("float32".toList, "number".toList, "float".toList),
    ("float64".toList, "number".toList, "double".toList),
    ("string".toList, "string".toList, []),
    ("error".toList, "string".toList, [])]

/-- The declaration `type Orphan struct { Name string }` documented `// swag:req nowhere`, as
the scan leaves it; the registry of the two example routes has no route `nowhere`. -/
def orphanDecl : declParser :=
  { ID := "nowhere".toList, Name := "nowhere".toList,
    Comments := some ["// swag:req nowhere".toList],
    Type_ := apiObj "Orphan".toList, SpecType := .type itemStruct, File := itemFile,
    HasReq := true }

/-- The declaration `type Query Other` documented `// swag:req getItem`, as the scan leaves it;
the struct behind `Other` is declared in a second file. -/
def queryOtherDecl : declParser :=
  { ID := "getItem".toList, Name := "getItem".toList,
    Comments := some ["// swag:req getItem".toList],
    Type_ := apiObj "Query".toList, SpecType := .type (.Named (apiObj "Other".toList)),
    HasReq := true }

/-- The registry of the route `getItem` and the request declaration `Query`. -/
def queryOtherScanner : scanner :=
  { routes := [("getItem".toList, getItemRoute)], reqs := [("getItem".toList, queryOtherDecl)] }

/-- The query parameter that the GET branch of `buildReq` adds for a field with the
`*ast.Field` `afld` and a basic type with JSON type `t` and format `f`. -/
def queryParamOf (lib : Stdlib) (afld : AstField) (t f : Str) : Parameter :=
  ((QueryParam (parseJsonTags lib afld).1).Typed t f).WithDescription afld.CommentText

/-- A query parameter comes from a field of the list that the field loop keeps and whose type
is a basic type of the scalar table. -/
def QueryFrom (lib : Stdlib) (req : declParser) (fields : List (Var × GoType)) (q : Parameter) :
    Prop :=
  ∃ fld name afld t f, (fld, GoType.Basic name) ∈ fields ∧ fieldKept lib req fld afld
    ∧ schemaBasic name = some (t, f) ∧ q = queryParamOf lib afld t f

/-- The document after the route step for the registry of `getItem`, on a fresh document. -/
def getItemRouted : Swagger :=
  docOf (buildRoute Stdlib.ascii RangeOrder.stored getItemScanner freshDoc)

/-- The operation of `GET /items/{id}` after the route step for the registry of `getItem`. -/
def getItemRoutedOp : Operation :=
  (routerOperator Stdlib.ascii getItemRouted "/items/{id}".toList "GET".toList).getD {}

/-! ## The scanner (`scanner.go`): routes, files, packages -/

/-- The expression `rxSwag`: `swag:([\p{L}\p{N}\p{Pd}\p{Pc}]+)`. -/
def rxSwag (lib : Stdlib) : Regex :=
  .seq (Regex.lit "swag:".toList) (.group 1 (.plus (.cls (idClass lib))))

/-- The pattern `rxMethod` as capture group `i`: `(\p{L}+)`. -/
def rxMethod (lib : Stdlib) (i : Nat) : Regex := .group i (.plus (.cls lib.L))

/-- The class of `rxPath`: `[\p{L}\p{N}\p{Pd}\p{Pc}{}\-\.\?_~%!$&'()*+,;=:@/]`. -/
def pathClass (lib : Stdlib) (c : Char) : Bool :=
  idClass lib c || decide (c ∈ "{}-.?_~%!$&'()*+,;=:@/".toList)

/-- The pattern `rxPath` as capture group `i`: `((?:/[...]*)+/?)` over the class `pathClass`. -/
def rxPath (lib : Stdlib) (i : Nat) : Regex :=
  .group i (.seq (.plus (.seq (.cls (fun c => decide (c = '/'))) (.star (.cls (pathClass lib)))))
    (.opt (.cls (fun c => decide (c = '/')))))

/-- The class of `rxTags`: `[\p{L}\p{N}\p{Pd}\.\p{Pc}\p{Zs}]`. -/
def tagClass (lib : Stdlib) (c : Char) : Bool :=
  lib.L c || lib.N c || lib.Pd c || decide (c = '.') || lib.Pc c || lib.Zs c

/-- The pattern `rxTags` as capture group `i`: `(\p{L}[\p{L}\p{N}\p{Pd}\.\p{Pc}\p{Zs}]+)`. -/
def rxTags (lib : Stdlib) (i : Nat) : Regex :=
  .group i (.seq (.cls lib.L) (.plus (.cls (tagClass lib))))

/-- The tail of `rxRoute` after the method: `\p{Zs}*` rxPath `(?:\p{Zs}+` rxTags `)?\p{Zs}*$`. -/
def rxRouteTail (lib : Stdlib) : Regex :=
  .seq (.star (.cls lib.Zs)) (.seq (rxPath lib 3)
    (.seq (.opt (.seq (.plus (.cls lib.Zs)) (rxTags lib 4))) (.seq (.star (.cls lib.Zs)) .eol)))

/-- The expression `rxRoute`: `swag:route\p{Zs}*` rxID `\p{Zs}*` rxMethod and the tail
`rxRouteTail`. -/
def rxRoute (lib : Stdlib) : Regex :=
  .seq (Regex.lit "swag:route".toList) (.seq (.star (.cls lib.Zs)) (.seq (rxID lib 1)
    (.seq (.star (.cls lib.Zs)) (.seq (rxMethod lib 2) (rxRouteTail lib)))))

/-- The expression `rxStripComments`: `^[^\p{L}\p{N}\p{Pd}\p{Pc}\+]*`. -/
def rxStripComments (lib : Stdlib) : Regex :=
  .seq .bol (.star (.cls (fun c => !(idClass lib c || decide (c = '+')))))

/-- The call `re.ReplaceAllString(s, "")` for an expression that, like `rxStripComments`, starts
with `^`: it has its one match at the start of the text, and what is left is the text after
that match. -/
def Regex.ReplaceAllString (re : Regex) (s : Str) : Str :=
  match re.run { pos := 0, rest := s } some with
  | some st => st.rest
  | none => s

/-- The pieces of a text between the maximal runs of characters of a class; `inRun` says that
the character before was of the class. -/
def splitRuns (p : Char → Bool) : Str → Bool → List Str
  | [], _ => [[]]
  | c :: r, inRun =>
    if p c then (if inRun then splitRuns p r true else [] :: splitRuns p r true)
    else
      match splitRuns p r false with
      | h :: t => (c :: h) :: t
      | [] => [[c]]

/-- The call `rxSpace.Split(s, -1)` for `rxSpace` = `\p{Zs}+`. -/
def rxSpaceSplit (lib : Stdlib) (s : Str) : List Str := splitRuns lib.Zs s false

/-- The state of the loops of `parseRoute`: the record `route` and the flag `justMatched`. -/
structure RouteState where
  route : routeParser := {}
  justMatched : Bool := false
  deriving DecidableEq

/-- The body of the inner loop of `parseRoute`, for one line. -/
def parseRouteLine (lib : Stdlib) (st : RouteState) (line : Str) : RouteState :=
  match (rxRoute lib).FindStringSubmatch 4 line with
  | some (m1 :: m2 :: m3 :: m4 :: _) =>
    { route := { st.route with
        ID := m1, Method := ToUpper lib m2, Path := m3,
        Tags := if m4.length = 0 then [] else rxSpaceSplit lib m4 },
      justMatched := true }
  | _ =>
    if st.route.Method ≠ [] then
      let route1 : routeParser :=
        match st.route.Remaining with
        | none => { st.route with Remaining := some [] }
        | some _ => st.route
      if st.justMatched = false ∨ TrimSpace ((rxStripComments lib).ReplaceAllString line) ≠ [] then
        { route := { route1 with Remaining := some (route1.Remaining.getD [] ++ [line]) },
          justMatched := false }
      else { st with route := route1 }
    else st

/-- The function `parseRoute` on the texts of the comments of a group. -/
def parseRoute (lib : Stdlib) (lines : List Str) : routeParser :=
  ((groupLines lines).foldl (parseRouteLine lib) {}).route

/-- The flags of `node`. -/
structure node where
  metaNode : Bool := false
  routeNode : Bool := false
  reqNode : Bool := false
  ansNode : Bool := false
  deriving DecidableEq

/-- The body of the inner loop of `detectNodes`, for the text of one comment. -/
def detectComment (lib : Stdlib) (n : node) (text : Str) : node :=
  match (rxSwag lib).FindStringSubmatch 1 text with
  | some (m1 :: _) =>
    if m1 = "meta".toList then { n with metaNode := true }
    else if m1 = "route".toList then { n with routeNode := true }
    else if m1 = "req".toList then { n with reqNode := true }
    else if m1 = "ans".toList then { n with ansNode := true }
    else n
  | _ => n

/-- The method `scanner.detectNodes`. -/
def detectNodes (lib : Stdlib) (file : File) : node :=
  file.Comments.foldl (fun n comments => comments.foldl (detectComment lib) n) {}

/-- The loop of `parseDecl` over the specs of a `GenDecl` with doc comment `doc`: `decls` is the
list so far; a value or import spec makes the function return nil. -/
def parseSpecs (file : File) (doc : Option (List Str)) : List Spec → List declParser →
    List declParser
  | [], decls => decls
  | .ValueSpec :: _, _ => []
  | .ImportSpec :: _, _ => []
  | .TypeSpec none _ :: rest, decls => parseSpecs file doc rest decls
  | .TypeSpec (some nt) specType :: rest, decls =>
    parseSpecs file doc rest
      (decls ++ [{ Comments := doc, Type_ := nt, SpecType := specType, File := file }])

/-- The function `parseDecl`. -/
def parseDecl (file : File) (doc : Option (List Str)) (specs : List Spec) : List declParser :=
  parseSpecs file doc specs []

/-- The body of the loop of `processPackage` over the comment groups of a file with a route
directive. -/
def registerRoute (lib : Stdlib) (self : scanner) (cmts : List Str) : scanner :=
  let route := parseRoute lib cmts
  if route.Method ≠ [] then { self with routes := mapSet self.routes route.ID route } else self

/-- The body of the loop of `processPackage` over the declarations of a file. -/
def processDecl (lib : Stdlib) (file : File) (self : scanner) : Decl → scanner
  | .BadDecl => self
  | .FuncDecl => self
  | .GenDecl doc specs => (parseDecl file doc specs).foldl (registerDecl lib) self

/-- The body of the loop of `processPackage` over the files of a package. -/
def processFile (lib : Stdlib) (self : scanner) (file : File) : scanner :=
  let n := detectNodes lib file
  let self1 : scanner :=
    if n.metaNode then { self with metas := self.metas ++ [{ Comments := file.Doc }] } else self
  let self2 : scanner :=
    if n.routeNode then file.Comments.foldl (registerRoute lib) self1 else self1
  if n.reqNode || n.ansNode then file.Decls.foldl (processDecl lib file) self2 else self2

/-- A package `*packages.Package`: its files `Syntax` and its map `Imports`, from import path to
the `PkgPath` of the imported package. -/
structure Package where
  Syntax : List File := []
  Imports : GoMap Str Str := []

/-- The loaded packages, by their `PkgPath`. -/
abbrev Program := Str → Package

/-- The method `scanner.processPackage`, which returns no error. -/
def processPackage (lib : Stdlib) (self : scanner) (pkg : Package) : scanner :=
  pkg.Syntax.foldl (processFile lib) self

/-- The state of a scan: the registry, and the log of the calls of `processPackage`, by the
`PkgPath` of the package of each call, in the order of the calls. -/
structure ScanState where
  self : scanner := {}
  calls : List Str := []

/-- The body that the loops of `scan` and `walkImports` share, for the package with path `path`:
a known package is skipped, another is entered into `pkgs` and processed, and `walk` goes
through its imports. -/
def visit (lib : Stdlib) (prog : Program) (walk : ScanState → Str → Except Fault ScanState)
    (st : ScanState) (path : Str) : Except Fault ScanState :=
  if path ∈ st.self.pkgs then .ok st
  else
    let self1 : scanner := { st.self with pkgs := st.self.pkgs ++ [path] }
    walk { self := processPackage lib self1 (prog path), calls := st.calls ++ [path] } path

/-- The method `scanner.walkImports` on the package with path `path`; the first argument bounds
the depth of the recursion. -/
def walkImports (lib : Stdlib) (ro : RangeOrder) (prog : Program) :
    Nat → ScanState → Str → Except Fault ScanState
  | 0, _, _ => .error .fuel
  | fuel + 1, st, path =>
    forEach (fun s kv => visit lib prog (walkImports lib ro prog fuel) s kv.2)
      (ro.order (prog path).Imports) st

/-- The function `scan` on the packages with the paths `pkgs`. -/
def scan (lib : Stdlib) (ro : RangeOrder) (prog : Program) (fuel : Nat) (pkgs : List Str) :
    Except Fault ScanState :=
  forEach (visit lib prog (walkImports lib ro prog fuel)) pkgs {}

/-- The registry that a scan leaves, the empty registry when the scan did not return. -/
def registryOf (r : Except Fault ScanState) : scanner :=
  match r with
  | .ok st => st.self
  | .error _ => {}

/-- The packages that `processPackage` was called on during a scan, in the order of the calls;
empty when the scan did not return. -/
def callsOf (r : Except Fault ScanState) : List Str :=
  match r with
  | .ok st => st.calls
  | .error _ => []

/-- A file whose one comment group is the line
`// swag:route getItem GET /items/{id} items`. -/
def directiveOnlyFile : File :=
  { Comments := [["// swag:route getItem GET /items/{id} items".toList]] }

/-- The program of the one package `api` with the file `directiveOnlyFile`. -/
def directiveOnlyProgram : Program :=
  fun path => if path = "api".toList then { Syntax := [directiveOnlyFile] } else {}

/-- The registry after the scan of `directiveOnlyProgram` from the root `api`. -/
def directiveOnlyScanner : scanner :=
  registryOf (scan Stdlib.ascii RangeOrder.stored directiveOnlyProgram 1 ["api".toList])

/-- The numbers of the capture groups of an expression. -/
def Regex.groups : Regex → List Nat
  | .cls _ => []
  | .eps => []
  | .seq a b => a.groups ++ b.groups
  | .star r => r.groups
  | .plus r => r.groups
  | .opt r => r.groups
  | .group i r => i :: r.groups
  | .bol => []
  | .eol => []

/-- What a match from `st` to `st1` by an expression with the groups `gs` keeps: the text left
is no longer, and the captures of the other groups are the same. -/
def Passes (gs : List Nat) (st st1 : MatchState) : Prop :=
  st1.rest.length ≤ st.rest.length ∧ ∀ i, i ∉ gs → mapGet st1.caps i = mapGet st.caps i

/-- The comment block of the directive `swag:route traceItem TRACE /items items` and one
description line. -/
def traceBlock : List Str :=
  ["// swag:route traceItem TRACE /items items".toList, "// Traces an item.".toList]

/-- The document that build makes, from a fresh document, of the registry that holds the route
of `traceBlock`. -/
def traceDoc : Swagger :=
  docOf (build Stdlib.ascii RangeOrder.stored exUnderlying 8
    (registerRoute Stdlib.ascii {} traceBlock) none)

/-- The comment block of the directive `swag:route getItem GET /items/{id} items` and one
description line. -/
def getItemBlock : List Str :=
  ["// swag:route getItem GET /items/{id} items".toList, "// Gets an item.".toList]

/-- The packages that a list of roots reaches along the import edges of a program: the roots,
and every package that a reached package imports. -/
inductive Reachable (prog : Program) (roots : List Str) : Str → Prop where
  | root (p : Str) (h : p ∈ roots) : Reachable prog roots p
  | step (p : Str) (kv : Str × Str) (hp : Reachable prog roots p)
      (h : kv ∈ (prog p).Imports) : Reachable prog roots kv.2

/-- What holds of a state of a scan: the log of the calls is the list of the known packages,
no package is in it twice, and each of them is in `all` and satisfies `R`. -/
def ScanInv (all : List Str) (R : Str → Prop) (st : ScanState) : Prop :=
  st.calls = st.self.pkgs ∧ st.self.pkgs.Nodup ∧ ∀ p ∈ st.self.pkgs, p ∈ all ∧ R p

/-- What holds between the states before and after a part of a scan: the known packages have
grown by some `added`, all of whose imports are known afterwards. -/
def Grows (prog : Program) (st st1 : ScanState) : Prop :=
  ∃ added, st1.self.pkgs = st.self.pkgs ++ added
    ∧ ∀ p ∈ added, ∀ kv ∈ (prog p).Imports, kv.2 ∈ st1.self.pkgs

/-- A program with a diamond and a cycle: `a` imports `b` and `c`, both import `d`, and `d`
imports `a`; `e` imports `a` and is imported by none. -/
def diamondProgram : Program :=
  fun path =>
    if path = "a".toList then
      { Imports := [("x/b".toList, "b".toList), ("x/c".toList, "c".toList)] }
    else if path = "b".toList then { Imports := [("x/d".toList, "d".toList)] }
    else if path = "c".toList then { Imports := [("x/d".toList, "d".toList)] }
    else if path = "d".toList then { Imports := [("x/a".toList, "a".toList)] }
    else if path = "e".toList then { Imports := [("x/a".toList, "a".toList)] }
    else {}

/-- A file without a package doc comment whose one comment group is the line `// swag:meta`. -/
def markerOnlyFile : File :=
  { Doc := none, Comments := [["// swag:meta".toList]] }

/-- The program of the one package `api` with the file `markerOnlyFile`. -/
def markerOnlyProgram : Program :=
  fun path => if path = "api".toList then { Syntax := [markerOnlyFile] } else {}

/-- The registry after the scan of `markerOnlyProgram` from the root `api`. -/
def markerOnlyScanner : scanner :=
  registryOf (scan Stdlib.ascii RangeOrder.stored markerOnlyProgram 1 ["api".toList])

/-- The registry of the two routes that share `POST /items`, `createItem` and `addItem`, after
the scan of four declarations, documented `// swag:req addItem`, `// swag:req createItem`,
`// swag:ans createItem 200` and `// swag:ans addItem 201`, each with a second line. -/
def mixedSourcesScanner : scanner :=
  registerDecl Stdlib.ascii
    (registerDecl Stdlib.ascii
      (registerDecl Stdlib.ascii
        (registerDecl Stdlib.ascii
          { routes := [("createItem".toList, createItemRoute), ("addItem".toList, addItemRoute)] }
          (itemDecl ["// swag:req addItem".toList, "// The item to add.".toList]))
        (itemDecl ["// swag:req createItem".toList, "// The item to create.".toList]))
      (itemDecl ["// swag:ans createItem 200".toList, "// Created.".toList]))
    (itemDecl ["// swag:ans addItem 201".toList, "// Added.".toList])

/-- Every operation of a document has the ID of a route record of the registry with the path
and the method of its slot. -/
def OpRoute (lib : Stdlib) (ctx : scanner) (d : Swagger) : Prop :=
  ∀ path m op, slotOp d path m = some op →
    ∃ kr ∈ ctx.routes, kr.2.Path = path ∧ methodOf (ToUpper lib kr.2.Method) = some m
      ∧ op.ID = kr.2.ID

/-- Every parameter of every operation of a document was added in the round of `buildReq` for
a request declaration of the registry that is bound to a route with the path and the method
of the slot. -/
def ParamSource (lib : Stdlib) (ctx : scanner) (d : Swagger) : Prop :=
  ∀ path m op, slotOp d path m = some op → ∀ q ∈ op.Parameters,
    ∃ kv ∈ ctx.reqs, ∃ route, mapGet ctx.routes kv.2.ID = some route ∧ route.Path = path
      ∧ methodOf (ToUpper lib route.Method) = some m ∧ reqAdded kv.2 route q

/-- The route records of a registry are stored under their ID, as `processPackage` stores
them. -/
def KeyedByID (ctx : scanner) : Prop := ∀ kr ∈ ctx.routes, kr.2.ID = kr.1

/-- No two route records of a registry with different IDs have the same path and the same
supported method. -/
def SlotsUnshared (lib : Stdlib) (ctx : scanner) : Prop :=
  ∀ kr1 ∈ ctx.routes, ∀ kr2 ∈ ctx.routes, kr1.2.Path = kr2.2.Path →
    methodOf (ToUpper lib kr1.2.Method) ≠ none →
    methodOf (ToUpper lib kr1.2.Method) = methodOf (ToUpper lib kr2.2.Method) →
    kr1.2.ID = kr2.2.ID

/-- The registry of the two example routes after the scan of three declarations for the route
`createItem`, documented `// swag:req createItem`, `// swag:ans createItem 200` and
`// swag:ans createItem 0`, each with a second line. -/
def pairedScanner : scanner :=
  registerDecl Stdlib.ascii
    (registerDecl Stdlib.ascii
      (registerDecl Stdlib.ascii twoRoutes
        (itemDecl ["// swag:req createItem".toList, "// The item to create.".toList]))
      (itemDecl ["// swag:ans createItem 200".toList, "// Created.".toList]))
    (itemDecl ["// swag:ans createItem 0".toList, "// Anything else.".toList])

/-- The document that build makes of `pairedScanner` and a fresh document. -/
def pairedDoc : Swagger :=
  docOf (build Stdlib.ascii RangeOrder.stored exUnderlying 8 pairedScanner none)

/-- The operation of `POST /items` in `pairedDoc`. -/
def pairedOp : Operation := (slotOp pairedDoc "/items".toList .POST).getD {}

/-- The declaration `type Failure struct { Message string; Err error }` with the doc comment
`// swag:ans listItems 500`. -/
def failureDecl : declParser :=
  { ID := "listItems".toList, Name := "listItems-500".toList, Code := 500,
    Comments := some ["// swag:ans listItems 500".toList],
    Type_ := apiObj "Failure".toList,
    SpecType := .type (.Struct [(⟨"Message".toList, false, true, 61⟩, .Basic "string".toList),
      (⟨"Err".toList, false, true, 62⟩, .Named errorObj)]),
    File := { Fields := [(61, { Names := ["Message".toList] }), (62, { Names := ["Err".toList] })] },
    HasAns := true }

/-- The serialized name of a field with the `*ast.Field` `afld`: the first comma-separated
segment of the value of the key `json` in its tag, and the field's own name when that segment
is empty. -/
def serializedName (lib : Stdlib) (fld : Var) (afld : AstField) : Str :=
  if jsonSegment lib afld = [] then fld.Name else jsonSegment lib afld

/-- The declaration `type ErrQuery struct { Err error }` documented `// swag:req getItem`, as
the scan leaves it. -/
def errQueryDecl : declParser :=
  { ID := "getItem".toList, Name := "getItem".toList,
    Comments := some ["// swag:req getItem".toList],
    Type_ := apiObj "ErrQuery".toList,
    SpecType := .type errQueryStruct,
    File := { Fields := [(71, { Names := ["Err".toList] })] }, HasReq := true }

/-- The registry of the route `getItem` and the request declaration `ErrQuery`. -/
def errQueryScanner : scanner :=
  { routes := [("getItem".toList, getItemRoute)], reqs := [("getItem".toList, errQueryDecl)] }

/-- The package doc comment `// HOST: a.example.com` / `// host: b.example.com`. -/
def twoHostsMeta : List Str := ["// HOST: a.example.com".toList, "// host: b.example.com".toList]

/-! ## Theorems -/

/-- C3, the code at the failing input. For `POST /items` with the request declaration
documented `// swag:req createItem` / `// The item to create.`, the description built from the
doc comment is `The item to create.`, but the parameter `Body` stored in the operation has an
empty Description: `AddParam` returns the operation, so the text lands in the operation's own
Description, replacing the route's. -/
theorem c3_body_description_is_lost :
    descOf (commentLines ["// swag:req createItem".toList, "// The item to create.".toList])
        = "The item to create.".toList
      ∧ (opAt Stdlib.ascii (build Stdlib.ascii RangeOrder.stored exUnderlying 8 c3Scanner none)
          "/items".toList "POST".toList).map
          (fun op => ((paramsIn op "body".toList).map (fun p => (p.Name, p.Description)),
            op.Summary, op.Description))
        = some ([("Body".toList, [])], "Creates an item.".toList, "The item to create.".toList) := by
  decide

/-- C4, the code at the failing input. For the response declaration documented
`// swag:ans listItems 200` / `//` the cleaned lines are the directive and one empty line, the
description built from them is the empty string, and so is the Description of the response
that `buildAns` registers at code 200. -/
theorem c4_description_can_be_empty :
    commentLines ["// swag:ans listItems 200".toList, "//".toList]
        = ["swag:ans listItems 200".toList, []]
      ∧ descOf (commentLines ["// swag:ans listItems 200".toList, "//".toList]) = []
      ∧ (opAt Stdlib.ascii (build Stdlib.ascii RangeOrder.stored exUnderlying 8 c4Scanner none)
          "/list".toList "PUT".toList).map
          (fun op => op.Responses.StatusCodeResponses.map (fun cr => (cr.1, cr.2.Description, cr.2.ref)))
        = some [(200, [], "#/definitions/listItems-200".toList)] := by
  decide

/-- C5, the code at the failing input. A declaration documented `// swag:req createItem` /
`// swag:ans listItems 200` is stored under the request key `createItem`, but the stored
record has ID `listItems` and Name `listItems-200`; after build the operation of `createItem`
has no body parameter and Definitions has no entry `createItem`, while the operation of
`listItems` carries the body parameter, referencing `listItems-200`. -/
theorem c5_request_binding_is_overwritten :
    c5Scanner.reqs.map (fun kv => (kv.1, kv.2.ID, kv.2.Name))
        = [("createItem".toList, "listItems".toList, "listItems-200".toList)]
      ∧ (opAt Stdlib.ascii (build Stdlib.ascii RangeOrder.stored exUnderlying 8 c5Scanner none)
          "/items".toList "POST".toList).map (fun op => (paramsIn op "body".toList).length)
        = some 0
      ∧ mapKeys (definitionsOf (build Stdlib.ascii RangeOrder.stored exUnderlying 8 c5Scanner none))
        = ["listItems-200".toList]
      ∧ (opAt Stdlib.ascii (build Stdlib.ascii RangeOrder.stored exUnderlying 8 c5Scanner none)
          "/list".toList "PUT".toList).map
          (fun op => ((paramsIn op "body".toList).map Parameter.ref, mapKeys op.Responses.StatusCodeResponses))
        = some (["#/definitions/listItems-200".toList], [200]) := by
  decide

/-- C7, the code at the failing input. For `type Stamp time.Time` the schema is an object
without format; in `type Event struct { At time.Time; Log []time.Time }` the property `At` and
the items of `Log` are objects without format as well: the test for `time.Time` looks at the
object of the annotated declaration only. -/
theorem c7_time_is_expanded_as_struct :
    schemaShape (buildSchemaFromDecl Stdlib.ascii exUnderlying 8 stampDecl Schema.zero)
        = some (["object".toList], [], [])
      ∧ propertyShape (buildSchemaFromDecl Stdlib.ascii exUnderlying 8 eventDecl Schema.zero)
          "At".toList = some (["object".toList], [])
      ∧ itemsShape (buildSchemaFromDecl Stdlib.ascii exUnderlying 8 eventDecl Schema.zero)
          "Log".toList = some (["object".toList], []) := by
  decide

theorem node_struct_step (recur : GoType → Schema → Except Fault Schema) (schema : Schema)
    (h : ∀ ps, recur nodePointer ps = .error .fuel) :
    buildSchemaFromStruct Stdlib.ascii recur nodeDecl nodeFields schema = .error .fuel := by
  simp [buildSchemaFromStruct, structFields, fieldAt, nodeDecl, nodeFields, mapGet, parseJsonTags, h]

theorem node_diverges (fuel : Nat) : ∀ schema,
    buildSchemaFromType Stdlib.ascii exUnderlying fuel nodeDecl (.Named (apiObj "Node".toList)) schema
        = .error .fuel
      ∧ buildSchemaFromType Stdlib.ascii exUnderlying fuel nodeDecl nodePointer schema = .error .fuel
      ∧ buildSchemaFromType Stdlib.ascii exUnderlying fuel nodeDecl nodeStruct schema = .error .fuel := by
  induction fuel with
  | zero => intro schema; simp [buildSchemaFromType]
  | succ n ih =>
    intro schema
    have hU : exUnderlying (apiObj "Node".toList) = .Struct nodeFields := by rfl
    refine ⟨?_, ?_, ?_⟩
    · simp only [buildSchemaFromType, hU]
      exact node_struct_step _ _ (fun ps => (ih ps).2.1)
    · simp only [buildSchemaFromType, nodePointer]
      exact (ih schema).1
    · simp only [buildSchemaFromType, nodeStruct]
      exact node_struct_step _ _ (fun ps => (ih ps).2.1)

/-- C6, counterexample. On `type Node struct { Next *Node }` schema synthesis returns for no
budget of recursive calls: struct, pointer and named type call each other without end. -/
theorem c6_node_never_returns :
    ¬ ∃ fuel s, buildSchemaFromDecl Stdlib.ascii exUnderlying fuel nodeDecl Schema.zero = .ok s := by
  rintro ⟨fuel, s, h⟩
  have h1 : buildSchemaFromDecl Stdlib.ascii exUnderlying fuel nodeDecl Schema.zero
      = buildSchemaFromType Stdlib.ascii exUnderlying fuel nodeDecl nodeStruct Schema.zero := by
    simp [buildSchemaFromDecl, nodeDecl, apiObj]
  rw [h1, (node_diverges fuel Schema.zero).2.2] at h
  cases h


theorem size_of_field_le {fs : List (Var × GoType)} {vt : Var × GoType} (h : vt ∈ fs) :
    vt.2.size ≤ GoType.size.sizeOfFields fs := by
  induction fs with
  | nil => cases h
  | cons a r ih =>
    obtain ⟨v, t⟩ := a
    simp only [GoType.size.sizeOfFields]
    rcases List.mem_cons.mp h with h1 | h1
    · subst h1; exact Nat.le_add_right _ _
    · exact Nat.le_trans (ih h1) (Nat.le_add_left _ _)

theorem calls_of_field_subset (lib : Stdlib) (decl : declParser) {fs : List (Var × GoType)}
    {vt : Var × GoType} (h : vt ∈ fs) (hk : fieldEntered lib decl vt.1 = true) :
    ∀ n ∈ vt.2.calls lib decl, n ∈ GoType.calls.callsOfFields lib decl fs := by
  induction fs with
  | nil => cases h
  | cons a r ih =>
    intro n hn
    obtain ⟨v, t⟩ := a
    simp only [GoType.calls.callsOfFields, List.mem_append]
    rcases List.mem_cons.mp h with h1 | h1
    · left
      subst h1
      rw [if_pos hk]
      exact hn
    · right; exact ih h1 n hn

theorem structFields_returns_entered (lib : Stdlib)
    (recur : GoType → Schema → Except Fault Schema) (decl : declParser)
    (fields : List (Var × GoType))
    (h : ∀ vt ∈ fields, fieldEntered lib decl vt.1 = true → ∀ ps, ∃ s, recur vt.2 ps = .ok s) :
    ∀ schema, ∃ s, structFields lib recur decl fields schema = .ok s := by
  induction fields with
  | nil => intro schema; exact ⟨schema, rfl⟩
  | cons a r ih =>
    intro schema
    obtain ⟨fld, ftype⟩ := a
    have ihr := ih (fun vt hvt => h vt (List.mem_cons_of_mem _ hvt))
    simp only [structFields]
    split
    · exact ihr schema
    · rename_i he
      split
      · exact ihr schema
      · rename_i hx
        split
        · exact ihr schema
        · rename_i afld hf
          split
          · exact ihr schema
          · rename_i hi
            have hk : fieldEntered lib decl fld = true := by
              unfold fieldEntered
              rw [hf]
              cases hE : fld.Embedded <;> cases hX : fld.Exported <;>
                cases hI : (parseJsonTags lib afld).2 <;> simp_all
            obtain ⟨s1, hs1⟩ := h (fld, ftype) (List.mem_cons_self _ _) hk
              ((mapGet schema.Properties (parseJsonTags lib afld).1).getD Schema.zero)
            simp only [hs1]
            exact ihr _

theorem uniform_budget_entered (lib : Stdlib) (U : Underlying) (decl : declParser)
    (fields : List (Var × GoType))
    (h : ∀ vt ∈ fields, fieldEntered lib decl vt.1 = true → ∃ N, ReturnsFrom lib U decl vt.2 N) :
    ∃ N, ∀ vt ∈ fields, fieldEntered lib decl vt.1 = true → ReturnsFrom lib U decl vt.2 N := by
  induction fields with
  | nil => exact ⟨0, fun vt hvt => by cases hvt⟩
  | cons a r ih =>
    obtain ⟨N2, h2⟩ := ih (fun vt hvt => h vt (List.mem_cons_of_mem _ hvt))
    by_cases hk : fieldEntered lib decl a.1 = true
    · obtain ⟨N1, h1⟩ := h a (List.mem_cons_self _ _) hk
      refine ⟨max N1 N2, fun vt hvt hkv => ?_⟩
      rcases List.mem_cons.mp hvt with h3 | h3
      · subst h3
        exact fun fuel hf => h1 fuel (le_trans (le_max_left _ _) hf)
      · exact fun fuel hf => h2 vt h3 hkv fuel (le_trans (le_max_right _ _) hf)
    · refine ⟨N2, fun vt hvt hkv => ?_⟩
      rcases List.mem_cons.mp hvt with h3 | h3
      · subst h3
        exact absurd hkv hk
      · exact h2 vt h3 hkv

theorem struct_returns_entered (lib : Stdlib) (U : Underlying) (decl : declParser)
    (fields : List (Var × GoType))
    (h : ∀ vt ∈ fields, fieldEntered lib decl vt.1 = true → ∃ N, ReturnsFrom lib U decl vt.2 N) :
    ∃ N, ∀ fuel, N ≤ fuel → ∀ schema, ∃ s,
      buildSchemaFromStruct lib (buildSchemaFromType lib U fuel decl) decl fields schema = .ok s := by
  obtain ⟨N, hN⟩ := uniform_budget_entered lib U decl fields h
  refine ⟨N, fun fuel hf schema => ?_⟩
  exact structFields_returns_entered lib _ decl fields
    (fun vt hvt hk ps => hN vt hvt hk fuel hf ps) _

theorem returns_of_rank_from (lib : Stdlib) (U : Underlying) (decl : declParser)
    (rank : TypeName → Nat) (t0 : GoType) (hA : AcyclicFrom lib U decl rank t0) :
    ∀ r k t, (∀ n ∈ GoType.calls lib decl t, Entered lib U decl t0 n ∧ rank n < r) →
      GoType.size t ≤ k → ∃ N, ReturnsFrom lib U decl t N := by
  intro r
  induction r using Nat.strong_induction_on with
  | _ r ihr =>
    intro k
    induction k with
    | zero =>
      intro t _ hk
      cases t <;> simp [GoType.size] at hk
    | succ k ihk =>
      intro t hn hk
      cases t with
      | Basic name =>
        refine ⟨1, fun fuel hf schema => ?_⟩
        obtain ⟨m, rfl⟩ : ∃ m, fuel = m + 1 := ⟨fuel - 1, by omega⟩
        simp only [buildSchemaFromType]
        split <;> exact ⟨_, rfl⟩
      | Other =>
        refine ⟨1, fun fuel hf schema => ?_⟩
        obtain ⟨m, rfl⟩ : ∃ m, fuel = m + 1 := ⟨fuel - 1, by omega⟩
        exact ⟨schema, by simp only [buildSchemaFromType]⟩
      | Pointer elem =>
        obtain ⟨N, hN⟩ := ihk elem (by simpa [GoType.calls] using hn)
          (by simp only [GoType.size] at hk; omega)
        refine ⟨N + 1, fun fuel hf schema => ?_⟩
        obtain ⟨m, rfl⟩ : ∃ m, fuel = m + 1 := ⟨fuel - 1, by omega⟩
        simp only [buildSchemaFromType]
        exact hN m (by omega) schema
      | Slice elem =>
        obtain ⟨N, hN⟩ := ihk elem (by simpa [GoType.calls] using hn)
          (by simp only [GoType.size] at hk; omega)
        refine ⟨N + 1, fun fuel hf schema => ?_⟩
        obtain ⟨m, rfl⟩ : ∃ m, fuel = m + 1 := ⟨fuel - 1, by omega⟩
        obtain ⟨s, hs⟩ := hN m (by omega) (itemsOf schema)
        simp only [buildSchemaFromType, hs]
        exact ⟨_, rfl⟩
      | Array elem =>
        obtain ⟨N, hN⟩ := ihk elem (by simpa [GoType.calls] using hn)
          (by simp only [GoType.size] at hk; omega)
        refine ⟨N + 1, fun fuel hf schema => ?_⟩
        obtain ⟨m, rfl⟩ : ∃ m, fuel = m + 1 := ⟨fuel - 1, by omega⟩
        obtain ⟨s, hs⟩ := hN m (by omega) (itemsOf schema)
        simp only [buildSchemaFromType, hs]
        exact ⟨_, rfl⟩
      | Struct fields =>
        have hf : ∀ vt ∈ fields, fieldEntered lib decl vt.1 = true →
            ∃ N, ReturnsFrom lib U decl vt.2 N := by
          intro vt hvt hkv
          refine ihk vt.2 (fun n hn1 => hn n ?_) ?_
          · simpa [GoType.calls] using calls_of_field_subset lib decl hvt hkv n hn1
          · have := size_of_field_le hvt
            simp only [GoType.size] at hk
            omega
        obtain ⟨N, hN⟩ := struct_returns_entered lib U decl fields hf
        refine ⟨N + 1, fun fuel hfu schema => ?_⟩
        obtain ⟨m, rfl⟩ : ∃ m, fuel = m + 1 := ⟨fuel - 1, by omega⟩
        simp only [buildSchemaFromType]
        exact hN m (by omega) schema
      | Named obj =>
        obtain ⟨hent, hro⟩ := hn obj (by simp [GoType.calls])
        cases hU : U obj with
        | Struct fields =>
          have hcf : calledFrom lib U decl obj = GoType.calls.callsOfFields lib decl fields := by
            unfold calledFrom
            rw [hU]
          have hf : ∀ vt ∈ fields, fieldEntered lib decl vt.1 = true →
              ∃ N, ReturnsFrom lib U decl vt.2 N := by
            intro vt hvt hkv
            refine ihr (rank obj) hro vt.2.size vt.2 (fun n hn1 => ?_) (le_refl _)
            have hmem : n ∈ calledFrom lib U decl obj := by
              rw [hcf]
              exact calls_of_field_subset lib decl hvt hkv n hn1
            exact ⟨Entered.next obj n hent hmem, hA obj hent n hmem⟩
          obtain ⟨N, hN⟩ := struct_returns_entered lib U decl fields hf
          refine ⟨N + 1, fun fuel hfu schema => ?_⟩
          obtain ⟨m, rfl⟩ : ∃ m, fuel = m + 1 := ⟨fuel - 1, by omega⟩
          simp only [buildSchemaFromType, hU]
          exact hN m (by omega) schema
        | _ =>
          refine ⟨1, fun fuel hf schema => ?_⟩
          obtain ⟨m, rfl⟩ : ∃ m, fuel = m + 1 := ⟨fuel - 1, by omega⟩
          exact ⟨schema, by simp only [buildSchemaFromType, hU]⟩

/-- C6, amended. When the named types that the call of `buildSchemaFromType` on a type
enters, through pointers, slices, arrays and the struct fields that the field loop does not
skip, do not lead back to themselves (they can be ranked so that the call on an entered named
type comes only to named types of smaller rank), the call, and with it the field loop of
`buildSchemaFromStruct`, returns a schema from some budget of recursive calls on, whatever
schema it starts from and whatever other named types the program has. -/
theorem c6_synthesis_returns_without_cycles (lib : Stdlib) (U : Underlying) (decl : declParser)
    (rank : TypeName → Nat) (t : GoType) (hA : AcyclicFrom lib U decl rank t) :
    ∃ N, ∀ fuel, N ≤ fuel → ∀ schema, ∃ s,
      buildSchemaFromType lib U fuel decl t schema = .ok s := by
  have hr : ∀ n ∈ GoType.calls lib decl t,
      Entered lib U decl t n ∧ rank n < ((t.calls lib decl).map rank).sum + 1 := by
    intro n hn
    have : rank n ≤ ((t.calls lib decl).map rank).sum :=
      List.single_le_sum (fun _ _ => Nat.zero_le _) _ (List.mem_map_of_mem rank hn)
    exact ⟨Entered.first n hn, by omega⟩
  exact returns_of_rank_from lib U decl rank t hA _ t.size t hr (le_refl _)

theorem holder_enters_other (obj : TypeName)
    (h : Entered Stdlib.ascii exUnderlying holderDecl holderStruct obj) :
    obj = apiObj "Other".toList := by
  induction h with
  | first n hn =>
    have hc : holderStruct.calls Stdlib.ascii holderDecl = [apiObj "Other".toList] := by decide
    rw [hc] at hn
    exact List.mem_singleton.mp hn
  | next o n _ hn ih =>
    rw [ih] at hn
    have hc : calledFrom Stdlib.ascii exUnderlying holderDecl (apiObj "Other".toList) = [] := by
      decide
    rw [hc] at hn
    cases hn

theorem holder_acyclic :
    AcyclicFrom Stdlib.ascii exUnderlying holderDecl (fun _ => 0) holderStruct := by
  intro obj hobj n hn
  rw [holder_enters_other obj hobj] at hn
  have hc : calledFrom Stdlib.ascii exUnderlying holderDecl (apiObj "Other".toList) = [] := by
    decide
  rw [hc] at hn
  cases hn

/-- C6, witness: in the program that also has the self-referential `Node`, the call on
`struct { Inner Other }` enters the named type `Other`, whose field `X` is found in the file,
and returns; the property `Inner` has the property `X`. -/
theorem c6_synthesis_returns_witness :
    AcyclicFrom Stdlib.ascii exUnderlying holderDecl (fun _ => 0) holderStruct
      ∧ exUnderlying (apiObj "Node".toList) = nodeStruct
      ∧ nestedKeys (buildSchemaFromType Stdlib.ascii exUnderlying 3 holderDecl holderStruct
          Schema.zero) "Inner".toList = some ["X".toList]
      ∧ ∃ N, ∀ fuel, N ≤ fuel → ∀ schema, ∃ s,
          buildSchemaFromType Stdlib.ascii exUnderlying fuel holderDecl holderStruct schema
            = .ok s :=
  ⟨holder_acyclic, rfl, by decide,
    c6_synthesis_returns_without_cycles Stdlib.ascii exUnderlying holderDecl (fun _ => 0)
      holderStruct holder_acyclic⟩

theorem all_space_of_trimSpace_nil {s : Str} (h : TrimSpace s = []) : ∀ c ∈ s, IsSpace c = true := by
  unfold TrimSpace at h
  have h1 : (s.dropWhile IsSpace).reverse.dropWhile IsSpace = [] := by
    simpa using h
  have h2 : ∀ c ∈ s.dropWhile IsSpace, IsSpace c = true := by
    intro c hc
    exact (List.dropWhile_eq_nil_iff.mp h1) c (List.mem_reverse.mpr hc)
  have h3 : s.dropWhile IsSpace = [] := by
    cases hl : s.dropWhile IsSpace with
    | nil => rfl
    | cons a r =>
      have ha : IsSpace a = true := h2 a (by rw [hl]; exact List.mem_cons_self _ _)
      have hn := List.head_dropWhile_not IsSpace s (by rw [hl]; simp)
      simp [hl, ha] at hn
  exact List.dropWhile_eq_nil_iff.mp h3

theorem tagLookup_none_of_no_colon (lib : Stdlib) (n : Nat) (tag key : Str)
    (h : ∀ c ∈ tag, c ≠ ':') : tagLookup lib n tag key = none := by
  cases n with
  | zero => rfl
  | succ n =>
    simp only [tagLookup]
    split
    · rfl
    · split
      · rfl
      · split
        · rename_i c1 c2 rest hd
          split
          · rename_i hc
            exfalso
            have hm : c1 ∈ tag := by
              have h1 : c1 ∈ c1 :: c2 :: rest := List.mem_cons_self _ _
              rw [← hd] at h1
              exact (List.dropWhile_sublist _).subset (List.mem_of_mem_drop h1)
            exact h c1 hm hc.1
          · rfl
        · rfl

theorem trimSpace_ne_nil_of_unquote (lib : Stdlib) {v tv : Str} (h : lib.Unquote v = some tv) :
    TrimSpace v ≠ [] := by
  intro hn
  have hall := all_space_of_trimSpace_nil hn
  rcases lib.unquote_head v tv h with h1 | h1 | h1 <;>
  · cases v with
    | nil => simp at h1
    | cons q r =>
      simp only [List.head?_cons, Option.some.injEq] at h1
      have := hall q (List.mem_cons_self _ _)
      rw [h1] at this
      revert this
      decide

theorem structTagGet_of_blank (lib : Stdlib) {tv : Str} (key : Str) (h : TrimSpace tv = []) :
    StructTagGet lib tv key = [] := by
  unfold StructTagGet
  rw [tagLookup_none_of_no_colon]
  · rfl
  · intro c hc hcolon
    have := all_space_of_trimSpace_nil h c hc
    rw [hcolon] at this
    revert this
    decide

theorem parseJsonTags_eq (lib : Stdlib) (field : AstField) :
    parseJsonTags lib field =
      if jsonSegment lib field = "-".toList then (declaredName field, true)
      else if jsonSegment lib field = [] then (declaredName field, false)
      else (jsonSegment lib field, false) := by
  have hname : (match field.Names with
      | n :: _ => n
      | [] => ([] : Str)) = declaredName field := by
    unfold declaredName
    cases field.Names <;> rfl
  unfold parseJsonTags jsonSegment
  simp only [hname]
  cases hT : field.Tag with
  | none => simp
  | some v =>
    simp only
    cases hU : lib.Unquote v with
    | none =>
      simp only
      split <;> simp
    | some tv =>
      have hv := trimSpace_ne_nil_of_unquote lib hU
      have hv1 : ¬ (TrimSpace v).length = 0 := by
        simpa [List.length_eq_zero] using hv
      simp only [hv1, if_false]
      by_cases hb : TrimSpace tv = []
      · simp [hb, structTagGet_of_blank lib _ hb, Split]
      · simp only [hb, ne_eq, not_false_eq_true, if_true]
        cases hS : Split (StructTagGet lib tv "json".toList) ',' with
        | nil => simp
        | cons p r => simp

theorem mem_keys_mapSet {κ α : Type} [DecidableEq κ] (m : GoMap κ α) (k : κ) (v : α) (k1 : κ) :
    k1 ∈ mapKeys (mapSet m k v) ↔ k1 = k ∨ k1 ∈ mapKeys m := by
  induction m with
  | nil => simp [mapSet, mapKeys]
  | cons a r ih =>
    obtain ⟨ka, va⟩ := a
    simp only [mapSet]
    split
    · rename_i hk
      simp only [mapKeys, List.map_cons, List.mem_cons]
      subst hk
      tauto
    · simp only [mapKeys, List.map_cons, List.mem_cons] at ih ⊢
      rw [ih]
      tauto

theorem Schema.properties_setProperties (s : Schema) (p : GoMap Str Schema) :
    (s.setProperties p).Properties = p := by
  cases s; rfl

theorem Schema.properties_typed (s : Schema) (t f : Str) : (s.Typed t f).Properties = s.Properties := by
  cases s; rfl

theorem structFields_keys (lib : Stdlib) (recur : GoType → Schema → Except Fault Schema)
    (decl : declParser) (fields : List (Var × GoType)) :
    ∀ schema s, structFields lib recur decl fields schema = .ok s →
      ∀ k, k ∈ mapKeys s.Properties ↔
        (k ∈ mapKeys schema.Properties ∨ ∃ fld ft afld, (fld, ft) ∈ fields ∧
          fieldKept lib decl fld afld ∧ k = (parseJsonTags lib afld).1) := by
  induction fields with
  | nil =>
    intro schema s h k
    simp only [structFields, Except.ok.injEq] at h
    subst h
    simp
  | cons a r ih =>
    intro schema s h k
    obtain ⟨fld, ftype⟩ := a
    have hskip : (¬ ∃ afld, fieldKept lib decl fld afld) →
        structFields lib recur decl r schema = .ok s →
        (k ∈ mapKeys s.Properties ↔
        (k ∈ mapKeys schema.Properties ∨ ∃ fld1 ft afld, (fld1, ft) ∈ (fld, ftype) :: r ∧
          fieldKept lib decl fld1 afld ∧ k = (parseJsonTags lib afld).1)) := by
      intro hno h1
      rw [ih schema s h1 k]
      constructor
      · rintro (h2 | ⟨f1, ft, af, hm, hk, he⟩)
        · exact Or.inl h2
        · exact Or.inr ⟨f1, ft, af, List.mem_cons_of_mem _ hm, hk, he⟩
      · rintro (h2 | ⟨f1, ft, af, hm, hk, he⟩)
        · exact Or.inl h2
        · rcases List.mem_cons.mp hm with h3 | h3
          · simp only [Prod.mk.injEq] at h3
            obtain ⟨rfl, rfl⟩ := h3
            exact absurd ⟨af, hk⟩ hno
          · exact Or.inr ⟨f1, ft, af, h3, hk, he⟩
    simp only [structFields] at h
    split at h
    · rename_i he
      exact hskip (by rintro ⟨af, hk⟩; simp [hk.1] at he) h
    · split at h
      · rename_i hx
        exact hskip (by rintro ⟨af, hk⟩; simp [hk.2.1] at hx) h
      · split at h
        · rename_i hf
          exact hskip (by rintro ⟨af, hk⟩; simp [hk.2.2.1] at hf) h
        · rename_i he hx _ afld hf
          split at h
          · rename_i hi
            exact hskip (by
              rintro ⟨af, hk⟩
              have : af = afld := by
                have := hk.2.2.1
                rw [hf] at this
                exact (Option.some.inj this).symm
              subst this
              simp [hk.2.2.2] at hi) h
          · rename_i hi
            split at h
            · cases h
            · rename_i ps1 hps
              have hkept : fieldKept lib decl fld afld := by
                refine ⟨by simpa using he, by simpa using hx, hf, by simpa using hi⟩
              rw [ih _ s h k, Schema.properties_setProperties, mem_keys_mapSet]
              constructor
              · rintro ((h2 | h2) | ⟨f1, ft, af, hm, hk, he1⟩)
                · exact Or.inr ⟨fld, ftype, afld, List.mem_cons_self _ _, hkept, h2⟩
                · exact Or.inl h2
                · exact Or.inr ⟨f1, ft, af, List.mem_cons_of_mem _ hm, hk, he1⟩
              · rintro (h2 | ⟨f1, ft, af, hm, hk, he1⟩)
                · exact Or.inl (Or.inr h2)
                · rcases List.mem_cons.mp hm with h3 | h3
                  · simp only [Prod.mk.injEq] at h3
                    obtain ⟨rfl, rfl⟩ := h3
                    have : af = afld := by
                      have := hk.2.2.1
                      rw [hf] at this
                      exact (Option.some.inj this).symm
                    subst this
                    exact Or.inl (Or.inl he1)
                  · exact Or.inr ⟨f1, ft, af, h3, hk, he1⟩

/-- C8, counterexample. In `type Outer struct { Inner Other }` the struct behind `Other` is
declared in a second file; its field `X` is exported, not embedded and untagged, but its
`*ast.Field` is not found in the file of the declaration, so `buildSchemaFromStruct` on a fresh
schema puts nothing into Properties, and the property `Inner` of `Outer` has no property. -/
theorem c8_field_of_other_file_is_skipped :
    schemaShape (buildSchemaFromStruct Stdlib.ascii
        (buildSchemaFromType Stdlib.ascii exUnderlying 4 outerDecl) outerDecl otherFields
        Schema.zero) = some (["object".toList], [], [])
      ∧ nestedKeys (buildSchemaFromDecl Stdlib.ascii exUnderlying 4 outerDecl Schema.zero)
          "Inner".toList = some [] := by
  decide

theorem serialized_of_first (lib : Stdlib) (fld : Var) (afld : AstField)
    (hf : afld.Names.head? = some fld.Name) (hk : (parseJsonTags lib afld).2 = false) :
    (parseJsonTags lib afld).1 = serializedName lib fld afld := by
  have hd : declaredName afld = fld.Name := by
    unfold declaredName
    cases hN : afld.Names with
    | nil => simp [hN] at hf
    | cons a r =>
      simp only [hN, List.head?_cons, Option.some.injEq] at hf
      simp [hf]
  rw [parseJsonTags_eq] at hk ⊢
  unfold serializedName
  by_cases h1 : jsonSegment lib afld = "-".toList
  · rw [if_pos h1] at hk
    cases hk
  · rw [if_neg h1]
    by_cases h2 : jsonSegment lib afld = []
    · rw [if_pos h2, if_pos h2]
      exact hd
    · rw [if_neg h2, if_neg h2]

/-- C8, amended. For a struct field that comes first in its field declaration, so that the
first name of its `*ast.Field` is the field's own name: `parseJsonTags` returns (that name,
true) exactly when the first comma-separated segment of the tag's json key is `-`, (segment,
false) when the segment is neither empty nor `-`, and (that name, false) when the segment is
empty, in particular when the field has no tag. On a fresh schema, every property that
`buildSchemaFromStruct` leaves comes from a field that is exported, not embedded, found in the
file of the declaration and not tagged `-`, and is filed under the serialized name of that
field when the field comes first in its field declaration; and an exported, not embedded field
without a tag that is found in the file and comes first in its field declaration is a
property under its own name. -/
theorem c8_json_tags_and_properties (lib : Stdlib) (U : Underlying) (fuel : Nat)
    (decl : declParser) (fields : List (Var × GoType)) (s : Schema) (field : AstField)
    (name : Str)
    (hs : buildSchemaFromStruct lib (buildSchemaFromType lib U fuel decl) decl fields Schema.zero
      = .ok s)
    (hfirst : field.Names.head? = some name) :
    ((parseJsonTags lib field).2 = true ↔ jsonSegment lib field = "-".toList)
      ∧ (jsonSegment lib field = "-".toList → parseJsonTags lib field = (name, true))
      ∧ (jsonSegment lib field ≠ [] → jsonSegment lib field ≠ "-".toList →
          parseJsonTags lib field = (jsonSegment lib field, false))
      ∧ (jsonSegment lib field = [] → parseJsonTags lib field = (name, false))
      ∧ (field.Tag = none → parseJsonTags lib field = (name, false))
      ∧ (∀ k ∈ mapKeys s.Properties, ∃ fld ft afld, (fld, ft) ∈ fields ∧
          fieldKept lib decl fld afld ∧ jsonSegment lib afld ≠ "-".toList ∧
          (afld.Names.head? = some fld.Name → k = serializedName lib fld afld))
      ∧ (∀ fld ft afld, (fld, ft) ∈ fields → fld.Embedded = false → fld.Exported = true →
          fieldAt decl.File fld.Pos = some afld → afld.Tag = none →
          afld.Names.head? = some fld.Name → fld.Name ∈ mapKeys s.Properties) := by
  have hflag : ∀ f : AstField,
      ((parseJsonTags lib f).2 = true ↔ jsonSegment lib f = "-".toList) := by
    intro f
    rw [parseJsonTags_eq]
    by_cases h1 : jsonSegment lib f = "-".toList
    · rw [if_pos h1]
      exact ⟨fun _ => h1, fun _ => rfl⟩
    · rw [if_neg h1]
      by_cases h2 : jsonSegment lib f = []
      · rw [if_pos h2]
        exact ⟨fun h => (by simp at h), fun h => absurd h h1⟩
      · rw [if_neg h2]
        exact ⟨fun h => (by simp at h), fun h => absurd h h1⟩
  have hnone : ∀ f : AstField, f.Tag = none → jsonSegment lib f = [] := by
    intro f hf
    simp [jsonSegment, hf]
  have hdecl : ∀ (f : AstField) (n : Str), f.Names.head? = some n → declaredName f = n := by
    intro f n hh
    unfold declaredName
    cases hN : f.Names with
    | nil => simp [hN] at hh
    | cons a r =>
      simp only [hN, List.head?_cons, Option.some.injEq] at hh
      simp [hh]
  have hkeys := structFields_keys lib (buildSchemaFromType lib U fuel decl) decl fields _ s hs
  refine ⟨hflag field, ?_, ?_, ?_, ?_, ?_, ?_⟩
  · intro h
    rw [parseJsonTags_eq, if_pos h, hdecl field name hfirst]
  · intro h1 h2
    rw [parseJsonTags_eq, if_neg h2, if_neg h1]
  · intro h
    rw [parseJsonTags_eq, if_neg (by rw [h]; decide), if_pos h, hdecl field name hfirst]
  · intro h
    have := hnone field h
    rw [parseJsonTags_eq, if_neg (by rw [this]; decide), if_pos this, hdecl field name hfirst]
  · intro k hk
    rcases (hkeys k).mp hk with h1 | ⟨fld, ft, afld, hm, hkept, he⟩
    · rw [Schema.properties_typed] at h1
      have hz : Schema.zero.Properties = [] := rfl
      rw [hz] at h1
      cases h1
    · refine ⟨fld, ft, afld, hm, hkept, ?_, fun hf => ?_⟩
      · intro hseg
        have := (hflag afld).mpr hseg
        rw [hkept.2.2.2] at this
        cases this
      · rw [he]
        exact serialized_of_first lib fld afld hf hkept.2.2.2
  · intro fld ft afld hm he hx hf ht hh
    have hseg := hnone afld ht
    have hp : parseJsonTags lib afld = (declaredName afld, false) := by
      rw [parseJsonTags_eq, if_neg (by rw [hseg]; decide), if_pos hseg]
    have hkept : fieldKept lib decl fld afld := ⟨he, hx, hf, by rw [hp]⟩
    have hin : declaredName afld ∈ mapKeys s.Properties :=
      (hkeys _).mpr (Or.inr ⟨fld, ft, afld, hm, hkept, by rw [hp]⟩)
    rw [← hdecl afld fld.Name hh]
    exact hin

/-- C8, witness: `type Item struct { Name string }` on a fresh schema. -/
theorem c8_json_tags_and_properties_witness :
    buildSchemaFromStruct Stdlib.ascii
        (buildSchemaFromType Stdlib.ascii exUnderlying 3 (itemDecl [])) (itemDecl [])
        [(⟨"Name".toList, false, true, 21⟩, .Basic "string".toList)] Schema.zero
      = .ok (.mk ["object".toList] [] [] []
          [("Name".toList, .mk ["string".toList] [] [] [] [] none)] none)
      ∧ parseJsonTags Stdlib.ascii { Names := ["Name".toList] } = ("Name".toList, false)
      ∧ parseJsonTags Stdlib.ascii
          { Names := ["ID".toList], Tag := some "\"json:\\\"id,omitempty\\\"\"".toList }
        = (jsonSegment Stdlib.ascii
            { Names := ["ID".toList], Tag := some "\"json:\\\"id,omitempty\\\"\"".toList },
          false)
      ∧ jsonSegment Stdlib.ascii
          { Names := ["ID".toList], Tag := some "\"json:\\\"id,omitempty\\\"\"".toList }
        = "id".toList
      ∧ "Name".toList ∈ mapKeys (Schema.mk ["object".toList] [] [] []
          [("Name".toList, .mk ["string".toList] [] [] [] [] none)] none).Properties :=
  ⟨rfl,
    (c8_json_tags_and_properties Stdlib.ascii exUnderlying 3 (itemDecl [])
      [(⟨"Name".toList, false, true, 21⟩, .Basic "string".toList)] _
      { Names := ["Name".toList] } "Name".toList rfl rfl).2.2.2.2.1 rfl,
    (c8_json_tags_and_properties Stdlib.ascii exUnderlying 3 (itemDecl [])
      [(⟨"Name".toList, false, true, 21⟩, .Basic "string".toList)] _
      { Names := ["ID".toList], Tag := some "\"json:\\\"id,omitempty\\\"\"".toList }
      "ID".toList rfl rfl).2.2.1 (by decide) (by decide),
    by decide,
    (c8_json_tags_and_properties Stdlib.ascii exUnderlying 3 (itemDecl [])
      [(⟨"Name".toList, false, true, 21⟩, .Basic "string".toList)] _
      { Names := ["Name".toList] } "Name".toList rfl rfl).2.2.2.2.2.2
        ⟨"Name".toList, false, true, 21⟩ (.Basic "string".toList) { Names := ["Name".toList] }
        (List.mem_cons_self _ _) rfl rfl rfl rfl rfl⟩

theorem mapGet_mapSet {κ α : Type} [DecidableEq κ] (m : GoMap κ α) (k : κ) (v : α) (k1 : κ) :
    mapGet (mapSet m k v) k1 = if k1 = k then some v else mapGet m k1 := by
  induction m with
  | nil =>
    simp only [mapSet, mapGet]
    by_cases h : k = k1
    · simp [h]
    · simp [h, Ne.symm h]
  | cons a r ih =>
    obtain ⟨ka, va⟩ := a
    simp only [mapSet]
    by_cases h : ka = k
    · simp only [h, if_true, mapGet]
      by_cases h1 : k = k1
      · simp [h1]
      · simp [h1, Ne.symm h1]
    · simp only [h, if_false, mapGet, ih]
      by_cases h1 : ka = k1
      · have : ¬ k1 = k := by rintro rfl; exact h h1
        simp [h1, this]
      · simp [h1]

theorem mem_keys_of_mapGet {κ α : Type} [DecidableEq κ] (m : GoMap κ α) (k : κ) (v : α)
    (h : mapGet m k = some v) : k ∈ mapKeys m := by
  induction m with
  | nil => simp [mapGet] at h
  | cons a r ih =>
    obtain ⟨ka, va⟩ := a
    simp only [mapGet] at h
    simp only [mapKeys, List.map_cons, List.mem_cons]
    by_cases h1 : ka = k
    · exact Or.inl h1.symm
    · simp only [h1, if_false] at h
      exact Or.inr (ih h)

theorem mapGet_isSome_of_mem_keys {κ α : Type} [DecidableEq κ] (m : GoMap κ α) (k : κ)
    (h : k ∈ mapKeys m) : ∃ v, mapGet m k = some v := by
  induction m with
  | nil => simp [mapKeys] at h
  | cons a r ih =>
    obtain ⟨ka, va⟩ := a
    simp only [mapGet]
    by_cases h1 : ka = k
    · exact ⟨va, by simp [h1]⟩
    · simp only [h1, if_false]
      simp only [mapKeys, List.map_cons, List.mem_cons] at h
      rcases h with h | h
      · exact absurd h.symm h1
      · exact ih h

theorem mem_of_mapGet {κ α : Type} [DecidableEq κ] (m : GoMap κ α) (k : κ) (v : α)
    (h : mapGet m k = some v) : (k, v) ∈ m := by
  induction m with
  | nil => simp [mapGet] at h
  | cons a r ih =>
    obtain ⟨ka, va⟩ := a
    simp only [mapGet] at h
    by_cases h1 : ka = k
    · simp only [h1, if_true, Option.some.injEq] at h
      subst h; subst h1
      exact List.mem_cons_self _ _
    · simp only [h1, if_false] at h
      exact List.mem_cons_of_mem _ (ih h)

theorem slot_setSlot (p : PathItem) (m m1 : Method) (op : Operation) :
    (p.setSlot m op).slot m1 = if m1 = m then some op else p.slot m1 := by
  cases m <;> cases m1 <;> rfl

theorem slot_empty (m : Method) : ({} : PathItem).slot m = none := by
  cases m <;> rfl

theorem slotOp_paths_set (d : Swagger) (path : Str) (pthObj : PathItem) (m : Method)
    (op : Operation) (hp : (mapGet d.Paths path).getD {} = pthObj ∨ mapGet d.Paths path = some pthObj)
    (path1 : Str) (m1 : Method) :
    slotOp { d with Paths := mapSet d.Paths path (pthObj.setSlot m op) } path1 m1
      = if path1 = path ∧ m1 = m then some op else slotOp d path1 m1 := by
  have hold : (mapGet d.Paths path).bind (fun p => p.slot m1) = pthObj.slot m1 := by
    rcases hp with hp | hp
    · cases hg : mapGet d.Paths path with
      | none =>
        rw [hg] at hp
        simp only [Option.getD_none] at hp
        subst hp
        rw [slot_empty]
        rfl
      | some q =>
        rw [hg] at hp
        simp only [Option.getD_some] at hp
        subst hp
        rfl
    · rw [hp]; rfl
  show (mapGet (mapSet d.Paths path (pthObj.setSlot m op)) path1).bind (fun p => p.slot m1) = _
  rw [mapGet_mapSet]
  by_cases h1 : path1 = path
  · subst h1
    rw [if_pos rfl]
    show (pthObj.setSlot m op).slot m1 = _
    rw [slot_setSlot]
    by_cases h2 : m1 = m
    · rw [if_pos h2, if_pos ⟨rfl, h2⟩]
    · rw [if_neg h2, if_neg (fun h => h2 h.2)]
      exact hold.symm
  · rw [if_neg h1, if_neg (fun h => h1 h.1)]
    rfl

theorem routerOperator_eq (lib : Stdlib) (d : Swagger) (path method : Str) :
    routerOperator lib d path method = (methodOf (ToUpper lib method)).bind (slotOp d path) := by
  unfold routerOperator slotOp
  cases mapGet d.Paths path with
  | none => cases methodOf (ToUpper lib method) <;> rfl
  | some p => cases methodOf (ToUpper lib method) <;> rfl

theorem slotOp_storeOperator (lib : Stdlib) (d : Swagger) (path method : Str) (m : Method)
    (op0 op : Operation) (hm : methodOf (ToUpper lib method) = some m)
    (h0 : slotOp d path m = some op0) (path1 : Str) (m1 : Method) :
    slotOp (storeOperator lib d path method op) path1 m1
      = if path1 = path ∧ m1 = m then some op else slotOp d path1 m1 := by
  unfold storeOperator
  cases hg : mapGet d.Paths path with
  | none => simp [slotOp, hg] at h0
  | some p =>
    simp only [hm]
    exact slotOp_paths_set d path p m op (Or.inr hg) path1 m1

theorem definitions_storeOperator (lib : Stdlib) (d : Swagger) (path method : Str)
    (op : Operation) : (storeOperator lib d path method op).Definitions = d.Definitions := by
  unfold storeOperator
  cases mapGet d.Paths path with
  | none => rfl
  | some p => cases methodOf (ToUpper lib method) <;> rfl

theorem replaceParam_some (ps : List Parameter) (p : Parameter) (ps1 : List Parameter)
    (h : replaceParam ps p = some ps1) :
    ps1.map paramKey = ps.map paramKey ∧ paramKey p ∈ ps.map paramKey
      ∧ (∀ q ∈ ps1, q = p ∨ q ∈ ps)
      ∧ ((ps.map paramKey).Nodup → ∀ q ∈ ps1, paramKey q = paramKey p → q = p) := by
  induction ps generalizing ps1 with
  | nil => simp [replaceParam] at h
  | cons a r ih =>
    simp only [replaceParam] at h
    split at h
    · rename_i hk
      simp only [Option.some.injEq] at h
      subst h
      have hkey : paramKey p = paramKey a := by
        simp only [paramKey, Prod.mk.injEq]
        exact ⟨hk.1.symm, hk.2.symm⟩
      refine ⟨by simp [hkey], by simp [hkey], ?_, ?_⟩
      · intro q hq
        rcases List.mem_cons.mp hq with h1 | h1
        · exact Or.inl h1
        · exact Or.inr (List.mem_cons_of_mem _ h1)
      · intro hnd q hq hqk
        rcases List.mem_cons.mp hq with h1 | h1
        · exact h1
        · exfalso
          simp only [List.map_cons, List.nodup_cons] at hnd
          apply hnd.1
          rw [← hkey, ← hqk]
          exact List.mem_map_of_mem paramKey h1
    · rename_i hk
      cases hr : replaceParam r p with
      | none => simp [hr] at h
      | some r1 =>
        simp only [hr, Option.map_some', Option.some.injEq] at h
        subst h
        obtain ⟨e1, e2, e3, e4⟩ := ih r1 hr
        refine ⟨by simp [e1], by simp [e2], ?_, ?_⟩
        · intro q hq
          rcases List.mem_cons.mp hq with h1 | h1
          · exact Or.inr (by rw [h1]; exact List.mem_cons_self _ _)
          · rcases e3 q h1 with h2 | h2
            · exact Or.inl h2
            · exact Or.inr (List.mem_cons_of_mem _ h2)
        · intro hnd q hq hqk
          simp only [List.map_cons, List.nodup_cons] at hnd
          rcases List.mem_cons.mp hq with h1 | h1
          · exfalso
            apply hk
            subst h1
            simp only [paramKey, Prod.mk.injEq] at hqk
            exact hqk
          · exact e4 hnd.2 q h1 hqk

theorem replaceParam_none (ps : List Parameter) (p : Parameter) (h : replaceParam ps p = none) :
    paramKey p ∉ ps.map paramKey := by
  induction ps with
  | nil => simp
  | cons a r ih =>
    simp only [replaceParam] at h
    split at h
    · cases h
    · rename_i hk
      cases hr : replaceParam r p with
      | some r1 => simp [hr] at h
      | none =>
        simp only [List.map_cons, List.mem_cons, not_or]
        refine ⟨?_, ih hr⟩
        intro he
        apply hk
        simp only [paramKey, Prod.mk.injEq] at he
        exact ⟨he.1.symm, he.2.symm⟩

theorem addParam_fields (op : Operation) (p : Parameter) :
    (op.AddParam p).Responses = op.Responses ∧ (op.AddParam p).ID = op.ID
      ∧ (op.AddParam p).Summary = op.Summary ∧ (op.AddParam p).Description = op.Description
      ∧ (op.AddParam p).Tags = op.Tags := by
  unfold Operation.AddParam
  cases replaceParam op.Parameters p <;> simp

theorem addParam_key_mem (op : Operation) (p : Parameter) :
    paramKey p ∈ paramKeys (op.AddParam p) := by
  unfold Operation.AddParam paramKeys
  cases h : replaceParam op.Parameters p with
  | none => simp
  | some ps =>
    obtain ⟨e1, e2, _, _⟩ := replaceParam_some _ _ _ h
    simp only
    rw [e1]
    exact e2

theorem addParam_unique (op : Operation) (p : Parameter) (hnd : (paramKeys op).Nodup) :
    ∀ q ∈ (op.AddParam p).Parameters, paramKey q = paramKey p → q = p := by
  unfold Operation.AddParam
  cases h : replaceParam op.Parameters p with
  | none =>
    intro q hq hk
    simp only [List.mem_append, List.mem_singleton] at hq
    rcases hq with h1 | h1
    · exfalso
      apply replaceParam_none _ _ h
      rw [← hk]
      exact List.mem_map_of_mem paramKey h1
    · exact h1
  | some ps =>
    exact (replaceParam_some _ _ _ h).2.2.2 hnd

theorem addParam_extend (op : Operation) (p : Parameter) :
    ParamsExtend (fun q => q = p) op (op.AddParam p) := by
  obtain ⟨f1, f2, _, _, _⟩ := addParam_fields op p
  refine ⟨f1, f2, ?_, ?_, ?_⟩
  · unfold Operation.AddParam paramKeys
    cases h : replaceParam op.Parameters p with
    | none => intro k hk; simp only [List.map_append, List.mem_append]; exact Or.inl hk
    | some ps =>
      intro k hk
      simp only
      rw [(replaceParam_some _ _ _ h).1]
      exact hk
  · unfold Operation.AddParam paramKeys
    cases h : replaceParam op.Parameters p with
    | none =>
      intro hnd
      have := replaceParam_none _ _ h
      simp only [List.map_append, List.map_cons, List.map_nil]
      rw [List.nodup_append]
      refine ⟨hnd, List.nodup_singleton _, ?_⟩
      intro a ha hb
      simp only [List.mem_singleton] at hb
      subst hb
      exact this ha
    | some ps =>
      intro hnd
      simp only
      rw [(replaceParam_some _ _ _ h).1]
      exact hnd
  · unfold Operation.AddParam
    cases h : replaceParam op.Parameters p with
    | none =>
      intro q hq
      simp only [List.mem_append, List.mem_singleton] at hq
      exact hq.symm.imp_left id |>.symm
    | some ps =>
      intro q hq
      exact ((replaceParam_some _ _ _ h).2.2.1 q hq).symm

theorem ParamsExtend.refl (added : Parameter → Prop) (op : Operation) : ParamsExtend added op op :=
  ⟨rfl, rfl, fun _ h => h, fun h => h, fun _ h => Or.inl h⟩

theorem ParamsExtend.trans {A B C : Parameter → Prop} {op op1 op2 : Operation}
    (h1 : ParamsExtend A op op1) (h2 : ParamsExtend B op1 op2)
    (hA : ∀ q, A q → C q) (hB : ∀ q, B q → C q) : ParamsExtend C op op2 := by
  obtain ⟨a1, a2, a3, a4, a5⟩ := h1
  obtain ⟨b1, b2, b3, b4, b5⟩ := h2
  refine ⟨b1.trans a1, b2.trans a2, fun k hk => b3 k (a3 k hk), fun h => b4 (a4 h), ?_⟩
  intro q hq
  rcases b5 q hq with h | h
  · rcases a5 q h with h3 | h3
    · exact Or.inl h3
    · exact Or.inr (hA q h3)
  · exact Or.inr (hB q h)

theorem pathSegment_eq (op : Operation) (p : Str) :
    pathSegment op p = match segmentName p with
      | some n => op.AddParam (pathParamOf n)
      | none => op := by
  unfold pathSegment segmentName pathParamOf
  split
  · rfl
  · split <;> rfl

theorem foldl_pathSegment (segs : List Str) :
    ∀ op, ParamsExtend (fun q => ∃ n ∈ segs.filterMap segmentName, q = pathParamOf n) op
        (segs.foldl pathSegment op)
      ∧ (∀ n ∈ segs.filterMap segmentName,
          (n, "path".toList) ∈ paramKeys (segs.foldl pathSegment op)) := by
  induction segs with
  | nil =>
    intro op
    exact ⟨ParamsExtend.refl _ _, by simp⟩
  | cons a r ih =>
    intro op
    obtain ⟨e1, e2⟩ := ih (pathSegment op a)
    simp only [List.foldl_cons]
    rw [pathSegment_eq] at e1 e2 ⊢
    cases hs : segmentName a with
    | none =>
      simp only [hs] at e1 e2 ⊢
      simp only [List.filterMap_cons, hs]
      exact ⟨e1, e2⟩
    | some n =>
      simp only [hs] at e1 e2 ⊢
      simp only [List.filterMap_cons, hs]
      constructor
      · refine ParamsExtend.trans (addParam_extend op (pathParamOf n)) e1 ?_ ?_
        · intro q hq
          exact ⟨n, List.mem_cons_self _ _, hq⟩
        · rintro q ⟨n1, hn1, hq⟩
          exact ⟨n1, List.mem_cons_of_mem _ hn1, hq⟩
      · intro n1 hn1
        rcases List.mem_cons.mp hn1 with h | h
        · subst h
          exact e1.2.2.1 _ (addParam_key_mem op (pathParamOf n1))
        · exact e2 n1 h

theorem pathParams_extend (op : Operation) (path : Str) :
    ParamsExtend (fun q => ∃ n ∈ pathNames path, q = pathParamOf n) op (pathParams op path)
      ∧ (∀ n ∈ pathNames path, (n, "path".toList) ∈ paramKeys (pathParams op path)) :=
  foldl_pathSegment (Split path '/') op

theorem ite_some_in {c : Prop} [Decidable c] {a : Parameter} {rest : Option Parameter}
    (ha : a.In = "query".toList) (hr : ∀ q, rest = some q → q.In = "query".toList) :
    ∀ q, (if c then some a else rest) = some q → q.In = "query".toList := by
  intro q h
  by_cases hc : c
  · rw [if_pos hc] at h
    cases h
    exact ha
  · rw [if_neg hc] at h
    exact hr q h

theorem ite_none_in {c : Prop} [Decidable c] {rest : Option Parameter}
    (hr : ∀ q, rest = some q → q.In = "query".toList) :
    ∀ q, (if c then none else rest) = some q → q.In = "query".toList := by
  intro q h
  by_cases hc : c
  · rw [if_pos hc] at h
    cases h
  · rw [if_neg hc] at h
    exact hr q h

theorem queryBasic_in (name field : Str) :
    ∀ q, queryBasic name field = some q → q.In = "query".toList := by
  unfold queryBasic
  repeat first
    | refine ite_some_in rfl ?_
    | refine ite_none_in ?_
  intro q h
  cases h

theorem queryFields_extend (lib : Stdlib) (req : declParser) (fields : List (Var × GoType)) :
    ∀ op, ParamsExtend (fun q => q.In = "query".toList) op (queryFields lib req fields op) := by
  induction fields with
  | nil => intro op; exact ParamsExtend.refl _ _
  | cons a r ih =>
    intro op
    obtain ⟨fld, ftype⟩ := a
    simp only [queryFields]
    split
    · exact ih op
    · split
      · exact ih op
      · split
        · exact ih op
        · split
          · exact ih op
          · split
            · rename_i q hq
              refine ParamsExtend.trans (addParam_extend op _) (ih _) ?_ (fun _ h => h)
              intro q1 hq1
              subst hq1
              cases ftype with
              | Basic name => exact queryBasic_in _ _ q hq
              | _ => cases hq
            · exact ih op

theorem buildReqOne_effect (lib : Stdlib) (U : Underlying) (fuel : Nat) (ctx : scanner)
    (d d1 : Swagger) (req : declParser) (h : buildReqOne lib U fuel ctx d req = .ok d1) :
    (mapGet ctx.routes req.ID = none ∧ d1 = d)
      ∨ (∃ route, mapGet ctx.routes req.ID = some route
          ∧ routerOperator lib d route.Path route.Method = none ∧ d1 = d)
      ∨ (∃ route m op op1, mapGet ctx.routes req.ID = some route
          ∧ methodOf (ToUpper lib route.Method) = some m
          ∧ SlotUpdate d d1 route.Path m op op1
          ∧ ParamsExtend (reqAdded req route) op op1
          ∧ (∀ n ∈ pathNames route.Path, (n, "path".toList) ∈ paramKeys op1)
          ∧ (route.Method = "GET".toList → d1.Definitions = d.Definitions)
          ∧ (route.Method ≠ "GET".toList →
              (∃ schema, d1.Definitions = mapSet d.Definitions req.Name schema)
              ∧ paramKey (bodyParamOf req.Name) ∈ paramKeys op1)) := by
  unfold buildReqOne at h
  cases hr : mapGet ctx.routes req.ID with
  | none =>
    simp only [hr, Except.ok.injEq] at h
    exact Or.inl ⟨rfl, h.symm⟩
  | some route =>
    simp only [hr] at h
    cases ho : routerOperator lib d route.Path route.Method with
    | none =>
      simp only [ho, Except.ok.injEq] at h
      exact Or.inr (Or.inl ⟨route, rfl, ho, h.symm⟩)
    | some op =>
      simp only [ho] at h
      right; right
      rw [routerOperator_eq] at ho
      cases hm : methodOf (ToUpper lib route.Method) with
      | none => simp [hm] at ho
      | some m =>
        rw [hm] at ho
        change slotOp d route.Path m = some op at ho
        obtain ⟨pe, pk⟩ := pathParams_extend op route.Path
        by_cases hg : route.Method = "GET".toList
        · rw [if_pos hg] at h
          simp only [Except.ok.injEq] at h
          subst h
          refine ⟨route, m, op, _, rfl, hm, ⟨ho, slotOp_storeOperator lib d _ _ m op _ hm ho⟩,
            ?_, ?_, fun _ => definitions_storeOperator _ _ _ _ _, fun hn => absurd hg hn⟩
          · cases hu : U req.Type_ with
            | Struct fields =>
              simp only
              refine ParamsExtend.trans pe (queryFields_extend lib req fields _) ?_ ?_
              · intro q hq; exact Or.inl hq
              · intro q hq; exact Or.inr (Or.inl ⟨hq, hg⟩)
            | _ =>
              simp only
              exact ParamsExtend.trans pe (ParamsExtend.refl (fun _ => False) _)
                (fun q hq => Or.inl hq) (fun q hq => hq.elim)
          · intro n hn
            cases hu : U req.Type_ with
            | Struct fields =>
              simp only
              exact (queryFields_extend lib req fields _).2.2.1 _ (pk n hn)
            | _ => exact pk n hn
        · rw [if_neg hg] at h
          cases hs : buildSchemaFromDecl lib U fuel req
              ((mapGet d.Definitions req.Name).getD Schema.zero) with
          | error f => simp [hs] at h
          | ok schema1 =>
            simp only [hs] at h
            cases hc : req.Comments with
            | none => simp [hc] at h
            | some list =>
              simp only [hc, Except.ok.injEq] at h
              subst h
              have hb := addParam_extend (pathParams op route.Path) (bodyParamOf req.Name)
              have hbody : ParamsExtend (reqAdded req route) op
                  ((pathParams op route.Path).AddParam (bodyParamOf req.Name)) :=
                ParamsExtend.trans pe hb (fun q hq => Or.inl hq)
                  (fun q hq => Or.inr (Or.inr ⟨hq, hg⟩))
              refine ⟨route, m, op, _, rfl, hm,
                ⟨ho, slotOp_storeOperator lib _ _ _ m op _ hm ho⟩, ?_, ?_,
                fun hn => absurd hn hg, fun _ => ⟨⟨schema1, ?_⟩, ?_⟩⟩
              · exact hbody
              · intro n hn
                exact hb.2.2.1 _ (pk n hn)
              · rw [definitions_storeOperator]
              · exact addParam_key_mem _ _

theorem buildAnsOne_effect (lib : Stdlib) (U : Underlying) (fuel : Nat) (ctx : scanner)
    (d d1 : Swagger) (ans : declParser) (h : buildAnsOne lib U fuel ctx d ans = .ok d1) :
    (mapGet ctx.routes ans.ID = none ∧ d1 = d)
      ∨ (∃ route, mapGet ctx.routes ans.ID = some route
          ∧ routerOperator lib d route.Path route.Method = none ∧ d1 = d)
      ∨ (∃ route m op schema list, mapGet ctx.routes ans.ID = some route
          ∧ methodOf (ToUpper lib route.Method) = some m
          ∧ SlotUpdate d d1 route.Path m op (op.RespondsWith ans.Code (ansResponse ans list))
          ∧ d1.Definitions = mapSet d.Definitions ans.Name schema
          ∧ ans.Comments = some list) := by
  unfold buildAnsOne at h
  cases hr : mapGet ctx.routes ans.ID with
  | none =>
    simp only [hr, Except.ok.injEq] at h
    exact Or.inl ⟨rfl, h.symm⟩
  | some route =>
    simp only [hr] at h
    cases ho : routerOperator lib d route.Path route.Method with
    | none =>
      simp only [ho, Except.ok.injEq] at h
      exact Or.inr (Or.inl ⟨route, rfl, ho, h.symm⟩)
    | some op =>
      simp only [ho] at h
      right; right
      rw [routerOperator_eq] at ho
      cases hm : methodOf (ToUpper lib route.Method) with
      | none => simp [hm] at ho
      | some m =>
        rw [hm] at ho
        change slotOp d route.Path m = some op at ho
        cases hs : buildSchemaFromDecl lib U fuel ans
            ((mapGet d.Definitions ans.Name).getD Schema.zero) with
        | error f => simp [hs] at h
        | ok schema1 =>
          simp only [hs] at h
          cases hc : ans.Comments with
          | none => simp [hc] at h
          | some list =>
            simp only [hc, Except.ok.injEq] at h
            subst h
            refine ⟨route, m, op, schema1, list, rfl, hm,
              ⟨ho, slotOp_storeOperator lib _ _ _ m op _ hm ho⟩, ?_, rfl⟩
            rw [definitions_storeOperator]

theorem forEach_inv {α σ : Type} (step : σ → α → Except Fault σ) (Inv : σ → Prop)
    (l : List α) (hstep : ∀ s a s1, a ∈ l → Inv s → step s a = .ok s1 → Inv s1) :
    ∀ s s1, Inv s → forEach step l s = .ok s1 → Inv s1 := by
  induction l with
  | nil =>
    intro s s1 hi h
    simp only [forEach, Except.ok.injEq] at h
    subst h
    exact hi
  | cons a r ih =>
    intro s s1 hi h
    simp only [forEach] at h
    cases hs : step s a with
    | error f => simp [hs] at h
    | ok s2 =>
      simp only [hs] at h
      exact ih (fun s a1 s1 ha => hstep s a1 s1 (List.mem_cons_of_mem _ ha)) s2 s1
        (hstep s a s2 (List.mem_cons_self _ _) hi hs) h

theorem forEach_post {α σ : Type} (step : σ → α → Except Fault σ) (Inv Post : σ → Prop)
    (l : List α) (a : α) (ha : a ∈ l)
    (hstep : ∀ s b s1, b ∈ l → Inv s → step s b = .ok s1 → Inv s1)
    (hpost : ∀ s s1, Inv s → step s a = .ok s1 → Post s1)
    (hstable : ∀ s b s1, b ∈ l → Inv s → Post s → step s b = .ok s1 → Post s1) :
    ∀ s s1, Inv s → forEach step l s = .ok s1 → Post s1 := by
  induction l with
  | nil => cases ha
  | cons b r ih =>
    intro s s1 hi h
    simp only [forEach] at h
    cases hs : step s b with
    | error f => simp [hs] at h
    | ok s2 =>
      simp only [hs] at h
      have hi2 : Inv s2 := hstep s b s2 (List.mem_cons_self _ _) hi hs
      rcases List.mem_cons.mp ha with h1 | h1
      · subst h1
        have hp2 : Post s2 := hpost s s2 hi hs
        have := forEach_inv step (fun s => Inv s ∧ Post s) r
          (fun s c s1 hc hip hst =>
            ⟨hstep s c s1 (List.mem_cons_of_mem _ hc) hip.1 hst,
              hstable s c s1 (List.mem_cons_of_mem _ hc) hip.1 hip.2 hst⟩)
          s2 s1 ⟨hi2, hp2⟩ h
        exact this.2
      · exact ih h1 (fun s c s1 hc => hstep s c s1 (List.mem_cons_of_mem _ hc))
          (fun s c s1 hc => hstable s c s1 (List.mem_cons_of_mem _ hc)) s2 s1 hi2 h

theorem routeLine_fields (op : Operation) (line : Str) :
    (routeLine op line).Parameters = op.Parameters ∧ (routeLine op line).Responses = op.Responses
      ∧ (routeLine op line).ID = op.ID := by
  unfold routeLine
  split
  · exact ⟨rfl, rfl, rfl⟩
  · split <;> exact ⟨rfl, rfl, rfl⟩

theorem foldl_routeLine_fields (lines : List Str) :
    ∀ op, (lines.foldl routeLine op).Parameters = op.Parameters
      ∧ (lines.foldl routeLine op).Responses = op.Responses
      ∧ (lines.foldl routeLine op).ID = op.ID := by
  induction lines with
  | nil => intro op; exact ⟨rfl, rfl, rfl⟩
  | cons a r ih =>
    intro op
    obtain ⟨e1, e2, e3⟩ := ih (routeLine op a)
    obtain ⟨f1, f2, f3⟩ := routeLine_fields op a
    exact ⟨e1.trans f1, e2.trans f2, e3.trans f3⟩

theorem slotOp_paths_same (d : Swagger) (path : Str) (path1 : Str) (m1 : Method) :
    slotOp { d with Paths := mapSet d.Paths path ((mapGet d.Paths path).getD {}) } path1 m1
      = slotOp d path1 m1 := by
  show (mapGet (mapSet d.Paths path ((mapGet d.Paths path).getD {})) path1).bind _ = _
  rw [mapGet_mapSet]
  by_cases h1 : path1 = path
  · subst h1
    rw [if_pos rfl]
    unfold slotOp
    cases hg : mapGet d.Paths path1 with
    | none =>
      show ({} : PathItem).slot m1 = none
      exact slot_empty m1
    | some q => rfl
  · rw [if_neg h1]
    rfl

theorem buildRouteOne_effect (lib : Stdlib) (d d1 : Swagger) (r : routeParser)
    (h : buildRouteOne lib d r = .ok d1) :
    d1.Definitions = d.Definitions ∧
      ((methodOf (ToUpper lib r.Method) = none ∧ ∀ path m, slotOp d1 path m = slotOp d path m)
        ∨ ∃ m op1, methodOf (ToUpper lib r.Method) = some m
          ∧ (∀ path m1, slotOp d1 path m1
              = if path = r.Path ∧ m1 = m then some op1 else slotOp d path m1)
          ∧ op1.ID = r.ID
          ∧ ((op1.Parameters = [] ∧ op1.Responses = {})
            ∨ ∃ old, slotOp d r.Path m = some old ∧ old.ID = r.ID
                ∧ op1.Parameters = old.Parameters ∧ op1.Responses = old.Responses)) := by
  unfold buildRouteOne at h
  cases hrem : r.Remaining with
  | none => simp [hrem] at h
  | some list =>
    simp only [hrem, Except.ok.injEq] at h
    subst h
    refine ⟨rfl, ?_⟩
    cases hm : methodOf (ToUpper lib r.Method) with
    | none =>
      left
      refine ⟨rfl, fun path m => ?_⟩
      exact slotOp_paths_same d r.Path path m
    | some m =>
      right
      obtain ⟨e1, e2, e3⟩ := foldl_routeLine_fields (groupLines list)
        (routeOperation r ((mapGet d.Paths r.Path).getD {}) (some m))
      refine ⟨m, _, rfl, fun path m1 =>
        slotOp_paths_set d r.Path ((mapGet d.Paths r.Path).getD {}) m _ (Or.inl rfl) path m1,
        ?_, ?_⟩
      · show (List.foldl routeLine _ _).ID = r.ID
        rw [e3]
        unfold routeOperation
        simp only
        split
        · split
          · rename_i hid; exact hid.symm
          · rfl
        · rfl
      · show ((List.foldl routeLine _ _).Parameters = [] ∧ (List.foldl routeLine _ _).Responses = {})
          ∨ ∃ old, slotOp d r.Path m = some old ∧ old.ID = r.ID
            ∧ (List.foldl routeLine _ _).Parameters = old.Parameters
            ∧ (List.foldl routeLine _ _).Responses = old.Responses
        rw [e1, e2]
        have hslot : ((mapGet d.Paths r.Path).getD {}).slot m = slotOp d r.Path m := by
          unfold slotOp
          cases hg : mapGet d.Paths r.Path with
          | none => exact slot_empty m
          | some q => rfl
        unfold routeOperation
        simp only [hslot]
        cases hold : slotOp d r.Path m with
        | none => left; exact ⟨rfl, rfl⟩
        | some old =>
          simp only
          by_cases hid : r.ID = old.ID
          · rw [if_pos hid]
            right
            exact ⟨old, rfl, hid.symm, rfl, rfl⟩
          · rw [if_neg hid]
            left; exact ⟨rfl, rfl⟩

theorem metaAssign_frame (lib : Stdlib) (d : Swagger) (kv : Str × Str) :
    (metaAssign lib d kv).Paths = d.Paths ∧ (metaAssign lib d kv).Definitions = d.Definitions := by
  unfold metaAssign setInfo
  simp only
  split
  · exact ⟨rfl, rfl⟩
  · split
    · exact ⟨rfl, rfl⟩
    · split
      · exact ⟨rfl, rfl⟩
      · split
        · exact ⟨rfl, rfl⟩
        · split
          · exact ⟨rfl, rfl⟩
          · split
            · exact ⟨rfl, rfl⟩
            · split <;> exact ⟨rfl, rfl⟩

theorem foldl_metaAssign_frame (lib : Stdlib) (l : List (Str × Str)) :
    ∀ d, (l.foldl (metaAssign lib) d).Paths = d.Paths
      ∧ (l.foldl (metaAssign lib) d).Definitions = d.Definitions := by
  induction l with
  | nil => intro d; exact ⟨rfl, rfl⟩
  | cons a r ih =>
    intro d
    obtain ⟨e1, e2⟩ := ih (metaAssign lib d a)
    obtain ⟨f1, f2⟩ := metaAssign_frame lib d a
    exact ⟨e1.trans f1, e2.trans f2⟩

theorem buildMeta_frame (lib : Stdlib) (ro : RangeOrder) (ctx : scanner) (d d1 : Swagger)
    (h : buildMeta lib ro ctx d = .ok d1) :
    d1.Paths = d.Paths ∧ d1.Definitions = d.Definitions := by
  unfold buildMeta at h
  cases hc : collectMetas ctx.metas with
  | error f => simp [hc] at h
  | ok metas =>
    simp only [hc, Except.ok.injEq] at h
    subst h
    exact foldl_metaAssign_frame lib _ _

theorem slotOp_of_paths_nil (d : Swagger) (h : d.Paths = []) (path : Str) (m : Method) :
    slotOp d path m = none := by
  unfold slotOp
  rw [h]
  rfl

theorem mem_order (ro : RangeOrder) {κ α : Type} (m : GoMap κ α) (kv : κ × α) :
    kv ∈ ro.order m ↔ kv ∈ m := (ro.perm m).mem_iff

theorem buildRoute_post (lib : Stdlib) (ro : RangeOrder) (ctx : scanner) (d d1 : Swagger)
    (h : buildRoute lib ro ctx d = .ok d1) :
    d1.Definitions = d.Definitions
      ∧ (∀ path m op1, slotOp d1 path m = some op1 →
          (op1.Parameters = [] ∧ op1.Responses = {})
          ∨ ∃ op, slotOp d path m = some op ∧ op1.Parameters = op.Parameters
              ∧ op1.Responses = op.Responses)
      ∧ (∀ kr ∈ ctx.routes, ∀ m, methodOf (ToUpper lib kr.2.Method) = some m →
          slotOp d1 kr.2.Path m ≠ none) := by
  unfold buildRoute at h
  have hstep : ∀ (s : Swagger) (a : Str × routeParser) (s1 : Swagger),
      a ∈ ro.order ctx.routes →
      (s.Definitions = d.Definitions
        ∧ ∀ path m op1, slotOp s path m = some op1 →
          (op1.Parameters = [] ∧ op1.Responses = {})
          ∨ ∃ op, slotOp d path m = some op ∧ op1.Parameters = op.Parameters
              ∧ op1.Responses = op.Responses) →
      buildRouteOne lib s a.2 = .ok s1 →
      (s1.Definitions = d.Definitions
        ∧ ∀ path m op1, slotOp s1 path m = some op1 →
          (op1.Parameters = [] ∧ op1.Responses = {})
          ∨ ∃ op, slotOp d path m = some op ∧ op1.Parameters = op.Parameters
              ∧ op1.Responses = op.Responses) := by
    intro s a s1 _ hi hs
    obtain ⟨e1, e2⟩ := buildRouteOne_effect lib s s1 a.2 hs
    refine ⟨e1.trans hi.1, ?_⟩
    intro path m op hop
    rcases e2 with ⟨_, hsame⟩ | ⟨m0, op1, _, hupd, _, hnew⟩
    · rw [hsame] at hop
      exact hi.2 path m op hop
    · rw [hupd] at hop
      by_cases hc : path = a.2.Path ∧ m = m0
      · rw [if_pos hc] at hop
        cases hop
        obtain ⟨rfl, rfl⟩ := hc
        rcases hnew with hn | ⟨old, ho, _, p1, p2⟩
        · exact Or.inl hn
        · rcases hi.2 _ _ old ho with ⟨q1, q2⟩ | ⟨o0, h0, q1, q2⟩
          · exact Or.inl ⟨p1.trans q1, p2.trans q2⟩
          · exact Or.inr ⟨o0, h0, p1.trans q1, p2.trans q2⟩
      · rw [if_neg hc] at hop
        exact hi.2 path m op hop
  have hinit : d.Definitions = d.Definitions
      ∧ ∀ path m op1, slotOp d path m = some op1 →
          (op1.Parameters = [] ∧ op1.Responses = {})
          ∨ ∃ op, slotOp d path m = some op ∧ op1.Parameters = op.Parameters
              ∧ op1.Responses = op.Responses :=
    ⟨rfl, fun path m op hop => Or.inr ⟨op, hop, rfl, rfl⟩⟩
  have hinv := forEach_inv (fun doc kv => buildRouteOne lib doc kv.2) _ (ro.order ctx.routes)
    hstep d d1 hinit h
  refine ⟨hinv.1, hinv.2, ?_⟩
  intro kr hkr m hm
  refine forEach_post (fun doc kv => buildRouteOne lib doc kv.2) _
    (fun s => slotOp s kr.2.Path m ≠ none) (ro.order ctx.routes) kr
    ((mem_order ro _ _).mpr hkr) hstep ?_ ?_ d d1 hinit h
  · intro s s1 _ hs
    obtain ⟨_, e2⟩ := buildRouteOne_effect lib s s1 kr.2 hs
    rcases e2 with ⟨hnone, _⟩ | ⟨m0, op1, hm0, hupd, _, _⟩
    · rw [hm] at hnone; cases hnone
    · rw [hm] at hm0
      cases hm0
      rw [hupd, if_pos ⟨rfl, rfl⟩]
      exact Option.some_ne_none _
  · intro s b s1 _ _ hpost hs
    obtain ⟨_, e2⟩ := buildRouteOne_effect lib s s1 b.2 hs
    rcases e2 with ⟨_, hsame⟩ | ⟨m0, op1, _, hupd, _, _⟩
    · rw [hsame]; exact hpost
    · rw [hupd]
      by_cases hc : kr.2.Path = b.2.Path ∧ m = m0
      · rw [if_pos hc]; exact Option.some_ne_none _
      · rw [if_neg hc]; exact hpost

theorem buildRoute_paramInv (lib : Stdlib) (ro : RangeOrder) (ctx : scanner) (d d1 : Swagger)
    (hP : ParamInv lib ctx d) (h : buildRoute lib ro ctx d = .ok d1) : ParamInv lib ctx d1 := by
  intro path m op1 ho1
  rcases (buildRoute_post lib ro ctx d d1 h).2.1 path m op1 ho1 with ⟨p1, _⟩ | ⟨op, ho, p1, _⟩
  · unfold paramKeys
    rw [p1]
    exact ⟨List.nodup_nil, fun q hq => by cases hq⟩
  · have := hP path m op ho
    unfold paramKeys at this ⊢
    rw [p1]
    exact this

theorem buildRoute_respEmpty (lib : Stdlib) (ro : RangeOrder) (ctx : scanner) (d d1 : Swagger)
    (hP : RespEmpty d) (h : buildRoute lib ro ctx d = .ok d1) : RespEmpty d1 := by
  intro path m op1 ho1
  rcases (buildRoute_post lib ro ctx d d1 h).2.1 path m op1 ho1 with ⟨_, p2⟩ | ⟨op, ho, _, p2⟩
  · exact p2
  · rw [p2]
    exact hP path m op ho

theorem routerOperator_of_slot (lib : Stdlib) (d : Swagger) (route : routeParser) (m : Method)
    (hm : methodOf (ToUpper lib route.Method) = some m) :
    routerOperator lib d route.Path route.Method = slotOp d route.Path m := by
  rw [routerOperator_eq, hm]
  rfl

theorem reqRound_paramInv (lib : Stdlib) (U : Underlying) (fuel : Nat) (ctx : scanner)
    (s s1 : Swagger) (kv : Str × declParser) (hkv : kv ∈ ctx.reqs) (hi : ParamInv lib ctx s)
    (h : buildReqOne lib U fuel ctx s kv.2 = .ok s1) : ParamInv lib ctx s1 := by
  rcases buildReqOne_effect lib U fuel ctx s s1 kv.2 h with ⟨_, rfl⟩ | ⟨_, _, _, rfl⟩ |
    ⟨route, m, op, op1, hr, hm, ⟨hop, hupd⟩, hext, _, _, _⟩
  · exact hi
  · exact hi
  · intro path m1 o ho
    rw [hupd] at ho
    by_cases hc : path = route.Path ∧ m1 = m
    · rw [if_pos hc] at ho
      cases ho
      obtain ⟨rfl, rfl⟩ := hc
      obtain ⟨hnd, hq⟩ := hi _ _ op hop
      refine ⟨hext.2.2.2.1 hnd, fun q hqm => ?_⟩
      rcases hext.2.2.2.2 q hqm with h1 | h1 | h1 | h1
      · exact hq q h1
      · exact Or.inl h1
      · exact Or.inr (Or.inl h1.1)
      · exact Or.inr (Or.inr ⟨kv, hkv, h1.1, route, hr, rfl, hm, h1.2⟩)
    · rw [if_neg hc] at ho
      exact hi path m1 o ho

theorem reqRound_respEmpty (lib : Stdlib) (U : Underlying) (fuel : Nat) (ctx : scanner)
    (s s1 : Swagger) (req : declParser) (hi : RespEmpty s)
    (h : buildReqOne lib U fuel ctx s req = .ok s1) : RespEmpty s1 := by
  rcases buildReqOne_effect lib U fuel ctx s s1 req h with ⟨_, rfl⟩ | ⟨_, _, _, rfl⟩ |
    ⟨route, m, op, op1, hr, hm, ⟨hop, hupd⟩, hext, _, _, _⟩
  · exact hi
  · exact hi
  · intro path m1 o ho
    rw [hupd] at ho
    by_cases hc : path = route.Path ∧ m1 = m
    · rw [if_pos hc] at ho
      cases ho
      rw [hext.1]
      exact hi _ _ op hop
    · rw [if_neg hc] at ho
      exact hi path m1 o ho

theorem reqRound_keys (lib : Stdlib) (U : Underlying) (fuel : Nat) (ctx : scanner)
    (s s1 : Swagger) (req : declParser) (h : buildReqOne lib U fuel ctx s req = .ok s1) :
    (∀ path m op, slotOp s path m = some op →
        ∃ op1, slotOp s1 path m = some op1 ∧ ∀ k ∈ paramKeys op, k ∈ paramKeys op1)
      ∧ (∀ k ∈ mapKeys s.Definitions, k ∈ mapKeys s1.Definitions) := by
  rcases buildReqOne_effect lib U fuel ctx s s1 req h with ⟨_, rfl⟩ | ⟨_, _, _, rfl⟩ |
    ⟨route, m, op, op1, hr, hm, ⟨hop, hupd⟩, hext, _, hd1, hd2⟩
  · exact ⟨fun _ _ op ho => ⟨op, ho, fun _ hk => hk⟩, fun _ hk => hk⟩
  · exact ⟨fun _ _ op ho => ⟨op, ho, fun _ hk => hk⟩, fun _ hk => hk⟩
  · constructor
    · intro path m1 o ho
      rw [hupd]
      by_cases hc : path = route.Path ∧ m1 = m
      · rw [if_pos hc]
        obtain ⟨rfl, rfl⟩ := hc
        rw [hop] at ho
        cases ho
        exact ⟨op1, rfl, hext.2.2.1⟩
      · rw [if_neg hc]
        exact ⟨o, ho, fun _ hk => hk⟩
    · intro k hk
      by_cases hg : route.Method = "GET".toList
      · rw [hd1 hg]; exact hk
      · obtain ⟨⟨schema, hs⟩, _⟩ := hd2 hg
        rw [hs, mem_keys_mapSet]
        exact Or.inr hk

theorem buildReq_post (lib : Stdlib) (ro : RangeOrder) (U : Underlying) (fuel : Nat)
    (ctx : scanner) (d d1 : Swagger) (hP : ParamInv lib ctx d)
    (h : buildReq lib ro U fuel ctx d = .ok d1) :
    ParamInv lib ctx d1 ∧ (RespEmpty d → RespEmpty d1)
      ∧ (∀ kv ∈ ctx.reqs, ∀ route m, mapGet ctx.routes kv.2.ID = some route →
          methodOf (ToUpper lib route.Method) = some m → slotOp d route.Path m ≠ none →
          ∃ op, slotOp d1 route.Path m = some op
            ∧ (∀ n ∈ pathNames route.Path, (n, "path".toList) ∈ paramKeys op)
            ∧ (route.Method ≠ "GET".toList →
                paramKey (bodyParamOf kv.2.Name) ∈ paramKeys op
                ∧ kv.2.Name ∈ mapKeys d1.Definitions)) := by
  unfold buildReq at h
  have hstep : ∀ (s : Swagger) (a : Str × declParser) (s1 : Swagger),
      a ∈ ro.order ctx.reqs →
      (ParamInv lib ctx s ∧ (RespEmpty d → RespEmpty s)
        ∧ ∀ path m, slotOp d path m ≠ none → slotOp s path m ≠ none) →
      buildReqOne lib U fuel ctx s a.2 = .ok s1 →
      (ParamInv lib ctx s1 ∧ (RespEmpty d → RespEmpty s1)
        ∧ ∀ path m, slotOp d path m ≠ none → slotOp s1 path m ≠ none) := by
    intro s a s1 ha hi hs
    refine ⟨reqRound_paramInv lib U fuel ctx s s1 a ((mem_order ro _ _).mp ha) hi.1 hs,
      fun hd => reqRound_respEmpty lib U fuel ctx s s1 a.2 (hi.2.1 hd) hs, ?_⟩
    intro path m hne
    have := hi.2.2 path m hne
    cases ho : slotOp s path m with
    | none => exact absurd ho this
    | some o =>
      obtain ⟨o1, ho1, _⟩ := (reqRound_keys lib U fuel ctx s s1 a.2 hs).1 path m o ho
      rw [ho1]
      exact Option.some_ne_none _
  have hinit : ParamInv lib ctx d ∧ (RespEmpty d → RespEmpty d)
      ∧ ∀ path m, slotOp d path m ≠ none → slotOp d path m ≠ none :=
    ⟨hP, fun hd => hd, fun _ _ hne => hne⟩
  have hinv := forEach_inv (fun doc kv => buildReqOne lib U fuel ctx doc kv.2) _
    (ro.order ctx.reqs) hstep d d1 hinit h
  refine ⟨hinv.1, hinv.2.1, ?_⟩
  intro kv hkv route m hr hm hne
  refine forEach_post (fun doc kv => buildReqOne lib U fuel ctx doc kv.2) _
    (fun s => ∃ op, slotOp s route.Path m = some op
            ∧ (∀ n ∈ pathNames route.Path, (n, "path".toList) ∈ paramKeys op)
            ∧ (route.Method ≠ "GET".toList →
                paramKey (bodyParamOf kv.2.Name) ∈ paramKeys op
                ∧ kv.2.Name ∈ mapKeys s.Definitions))
    (ro.order ctx.reqs) kv ((mem_order ro _ _).mpr hkv) hstep ?_ ?_ d d1 hinit h
  · intro s s1 hi hs
    have hslot := hi.2.2 _ _ hne
    rcases buildReqOne_effect lib U fuel ctx s s1 kv.2 hs with ⟨hn, _⟩ | ⟨r1, hr1, hnone, _⟩ |
      ⟨r1, m1, op, op1, hr1, hm1, ⟨hop, hupd⟩, hext, hpk, hd1, hd2⟩
    · rw [hr] at hn; cases hn
    · rw [hr] at hr1
      cases hr1
      rw [routerOperator_of_slot lib s route m hm] at hnone
      exact absurd hnone hslot
    · rw [hr] at hr1
      cases hr1
      rw [hm] at hm1
      cases hm1
      refine ⟨op1, by rw [hupd, if_pos ⟨rfl, rfl⟩], hpk, fun hg => ?_⟩
      obtain ⟨⟨schema, hsd⟩, hb⟩ := hd2 hg
      refine ⟨hb, ?_⟩
      rw [hsd, mem_keys_mapSet]
      exact Or.inl rfl
  · intro s b s1 _ _ hpost hs
    obtain ⟨op, hop, hk1, hk2⟩ := hpost
    obtain ⟨hkeys, hdefs⟩ := reqRound_keys lib U fuel ctx s s1 b.2 hs
    obtain ⟨op1, hop1, hmono⟩ := hkeys _ _ op hop
    refine ⟨op1, hop1, fun n hn => hmono _ (hk1 n hn), fun hg => ?_⟩
    exact ⟨hmono _ (hk2 hg).1, hdefs _ (hk2 hg).2⟩

theorem buildReq_slots (lib : Stdlib) (ro : RangeOrder) (U : Underlying) (fuel : Nat)
    (ctx : scanner) (d d1 : Swagger) (h : buildReq lib ro U fuel ctx d = .ok d1) :
    ∀ path m op, slotOp d path m = some op →
      ∃ op1, slotOp d1 path m = some op1 ∧ ∀ k ∈ paramKeys op, k ∈ paramKeys op1 := by
  unfold buildReq at h
  have := forEach_inv (fun doc kv => buildReqOne lib U fuel ctx doc kv.2)
    (fun s => ∀ path m op, slotOp d path m = some op →
      ∃ op1, slotOp s path m = some op1 ∧ ∀ k ∈ paramKeys op, k ∈ paramKeys op1)
    (ro.order ctx.reqs) ?_ d d1 (fun _ _ op ho => ⟨op, ho, fun _ hk => hk⟩) h
  · exact this
  · intro s a s1 _ hi hs path m op ho
    obtain ⟨o1, ho1, hk1⟩ := hi path m op ho
    obtain ⟨o2, ho2, hk2⟩ := (reqRound_keys lib U fuel ctx s s1 a.2 hs).1 path m o1 ho1
    exact ⟨o2, ho2, fun k hk => hk2 k (hk1 k hk)⟩

theorem respondsWith_frame (o : Operation) (c : Int) (r : Response) :
    (o.RespondsWith c r).Parameters = o.Parameters ∧ (o.RespondsWith c r).ID = o.ID := by
  unfold Operation.RespondsWith
  split <;> exact ⟨rfl, rfl⟩

theorem respondsWith_codes (o : Operation) (c : Int) (r : Response) (code : Int) :
    mapGet (o.RespondsWith c r).Responses.StatusCodeResponses code
      = if c ≠ 0 ∧ code = c then some r else mapGet o.Responses.StatusCodeResponses code := by
  unfold Operation.RespondsWith
  by_cases hc : c = 0
  · rw [if_pos hc, if_neg (fun h => h.1 hc)]
  · rw [if_neg hc]
    show mapGet (mapSet o.Responses.StatusCodeResponses c r) code = _
    rw [mapGet_mapSet]
    by_cases he : code = c
    · rw [if_pos he, if_pos ⟨hc, he⟩]
    · rw [if_neg he, if_neg (fun h => he h.2)]

theorem respondsWith_default (o : Operation) (c : Int) (r : Response) :
    (o.RespondsWith c r).Responses.Default = if c = 0 then some r else o.Responses.Default := by
  unfold Operation.RespondsWith
  by_cases hc : c = 0
  · rw [if_pos hc, if_pos hc]
  · rw [if_neg hc, if_neg hc]

theorem respondsWith_responseAt (o : Operation) (c : Int) (r : Response) (code : Int) :
    (o.RespondsWith c r).responseAt code = if code = c then some r else o.responseAt code := by
  unfold Operation.responseAt
  rw [respondsWith_codes, respondsWith_default]
  by_cases h0 : code = 0
  · rw [if_pos h0, if_pos h0]
    by_cases hc : c = 0
    · rw [if_pos hc, if_pos (h0.trans hc.symm)]
    · rw [if_neg hc, if_neg (fun h => hc (h.symm.trans h0))]
  · rw [if_neg h0, if_neg h0]
    by_cases he : code = c
    · rw [if_pos he, if_pos ⟨fun h => h0 (he.trans h), he⟩]
    · rw [if_neg he, if_neg (fun h => he h.2)]

theorem ansRound_slots (lib : Stdlib) (U : Underlying) (fuel : Nat) (ctx : scanner)
    (s s1 : Swagger) (ans : declParser) (h : buildAnsOne lib U fuel ctx s ans = .ok s1) :
    (∀ path m op, slotOp s path m = some op →
        ∃ op1, slotOp s1 path m = some op1 ∧ op1.Parameters = op.Parameters
          ∧ ∀ code, op.responseAt code ≠ none → op1.responseAt code ≠ none)
      ∧ (∀ path m op1, slotOp s1 path m = some op1 →
        ∃ op, slotOp s path m = some op ∧ op1.Parameters = op.Parameters)
      ∧ (∀ k ∈ mapKeys s.Definitions, k ∈ mapKeys s1.Definitions) := by
  rcases buildAnsOne_effect lib U fuel ctx s s1 ans h with ⟨_, rfl⟩ | ⟨_, _, _, rfl⟩ |
    ⟨route, m, op, schema, list, hr, hm, ⟨hop, hupd⟩, hd, _⟩
  · exact ⟨fun _ _ op ho => ⟨op, ho, rfl, fun _ hk => hk⟩, fun _ _ op ho => ⟨op, ho, rfl⟩,
      fun _ hk => hk⟩
  · exact ⟨fun _ _ op ho => ⟨op, ho, rfl, fun _ hk => hk⟩, fun _ _ op ho => ⟨op, ho, rfl⟩,
      fun _ hk => hk⟩
  · refine ⟨?_, ?_, ?_⟩
    · intro path m1 o ho
      rw [hupd]
      by_cases hc : path = route.Path ∧ m1 = m
      · rw [if_pos hc]
        obtain ⟨rfl, rfl⟩ := hc
        rw [hop] at ho
        cases ho
        refine ⟨_, rfl, (respondsWith_frame _ _ _).1, fun code hne => ?_⟩
        rw [respondsWith_responseAt]
        by_cases hcode : code = ans.Code
        · rw [if_pos hcode]; exact Option.some_ne_none _
        · rw [if_neg hcode]; exact hne
      · rw [if_neg hc]
        exact ⟨o, ho, rfl, fun _ hk => hk⟩
    · intro path m1 o1 ho1
      rw [hupd] at ho1
      by_cases hc : path = route.Path ∧ m1 = m
      · rw [if_pos hc] at ho1
        obtain ⟨rfl, rfl⟩ := hc
        cases ho1
        exact ⟨op, hop, (respondsWith_frame _ _ _).1⟩
      · rw [if_neg hc] at ho1
        exact ⟨o1, ho1, rfl⟩
    · intro k hk
      rw [hd, mem_keys_mapSet]
      exact Or.inr hk

theorem ansRound_paramInv (lib : Stdlib) (U : Underlying) (fuel : Nat) (ctx : scanner)
    (s s1 : Swagger) (ans : declParser) (hi : ParamInv lib ctx s)
    (h : buildAnsOne lib U fuel ctx s ans = .ok s1) : ParamInv lib ctx s1 := by
  intro path m op1 ho1
  obtain ⟨op, ho, hp⟩ := (ansRound_slots lib U fuel ctx s s1 ans h).2.1 path m op1 ho1
  have := hi path m op ho
  unfold paramKeys at this ⊢
  rw [hp]
  exact this

theorem ansRound_ansInv (lib : Stdlib) (U : Underlying) (fuel : Nat) (ctx : scanner)
    (s s1 : Swagger) (kv : Str × declParser) (hkv : kv ∈ ctx.anses) (hi : AnsInv lib ctx s)
    (h : buildAnsOne lib U fuel ctx s kv.2 = .ok s1) : AnsInv lib ctx s1 := by
  rcases buildAnsOne_effect lib U fuel ctx s s1 kv.2 h with ⟨_, rfl⟩ | ⟨_, _, _, rfl⟩ |
    ⟨route, m, op, schema, list, hr, hm, ⟨hop, hupd⟩, hd, _⟩
  · exact hi
  · exact hi
  · intro path m1 o ho code resp hresp
    rw [hupd] at ho
    by_cases hc : path = route.Path ∧ m1 = m
    · rw [if_pos hc] at ho
      obtain ⟨rfl, rfl⟩ := hc
      cases ho
      rw [respondsWith_codes] at hresp
      by_cases hcode : kv.2.Code ≠ 0 ∧ code = kv.2.Code
      · rw [if_pos hcode] at hresp
        cases hresp
        exact ⟨kv, hkv, list, hcode.2.symm, ⟨route, hr, rfl, hm⟩, rfl⟩
      · rw [if_neg hcode] at hresp
        exact hi _ _ op hop code resp hresp
    · rw [if_neg hc] at ho
      exact hi path m1 o ho code resp hresp

theorem ansRound_defaultInv (lib : Stdlib) (U : Underlying) (fuel : Nat) (ctx : scanner)
    (s s1 : Swagger) (kv : Str × declParser) (hkv : kv ∈ ctx.anses) (hi : DefaultInv lib ctx s)
    (h : buildAnsOne lib U fuel ctx s kv.2 = .ok s1) : DefaultInv lib ctx s1 := by
  rcases buildAnsOne_effect lib U fuel ctx s s1 kv.2 h with ⟨_, rfl⟩ | ⟨_, _, _, rfl⟩ |
    ⟨route, m, op, schema, list, hr, hm, ⟨hop, hupd⟩, hd, _⟩
  · exact hi
  · exact hi
  · intro path m1 o ho resp hresp
    rw [hupd] at ho
    by_cases hc : path = route.Path ∧ m1 = m
    · rw [if_pos hc] at ho
      obtain ⟨rfl, rfl⟩ := hc
      cases ho
      rw [respondsWith_default] at hresp
      by_cases hcode : kv.2.Code = 0
      · rw [if_pos hcode] at hresp
        cases hresp
        exact ⟨kv, hkv, list, hcode, ⟨route, hr, rfl, hm⟩, rfl⟩
      · rw [if_neg hcode] at hresp
        exact hi _ _ op hop resp hresp
    · rw [if_neg hc] at ho
      exact hi path m1 o ho resp hresp

theorem buildAns_defaultInv (lib : Stdlib) (ro : RangeOrder) (U : Underlying) (fuel : Nat)
    (ctx : scanner) (d d1 : Swagger) (hD : DefaultInv lib ctx d)
    (h : buildAns lib ro U fuel ctx d = .ok d1) : DefaultInv lib ctx d1 := by
  unfold buildAns at h
  exact forEach_inv _ (fun s => DefaultInv lib ctx s) _
    (fun s a s1 ha hs hstep =>
      ansRound_defaultInv lib U fuel ctx s s1 a ((mem_order ro _ a).mp ha) hs hstep)
    d d1 hD h

theorem buildAns_post (lib : Stdlib) (ro : RangeOrder) (U : Underlying) (fuel : Nat)
    (ctx : scanner) (d d1 : Swagger) (hP : ParamInv lib ctx d)
    (h : buildAns lib ro U fuel ctx d = .ok d1) :
    ParamInv lib ctx d1 ∧ (AnsInv lib ctx d → AnsInv lib ctx d1)
      ∧ (∀ path m op, slotOp d path m = some op →
          ∃ op1, slotOp d1 path m = some op1 ∧ op1.Parameters = op.Parameters)
      ∧ (∀ k ∈ mapKeys d.Definitions, k ∈ mapKeys d1.Definitions)
      ∧ (∀ kv ∈ ctx.anses, ∀ route m, mapGet ctx.routes kv.2.ID = some route →
          methodOf (ToUpper lib route.Method) = some m → slotOp d route.Path m ≠ none →
          ∃ op, slotOp d1 route.Path m = some op ∧ op.responseAt kv.2.Code ≠ none
            ∧ kv.2.Name ∈ mapKeys d1.Definitions) := by
  unfold buildAns at h
  have hstep : ∀ (s : Swagger) (a : Str × declParser) (s1 : Swagger),
      a ∈ ro.order ctx.anses →
      (ParamInv lib ctx s ∧ (AnsInv lib ctx d → AnsInv lib ctx s)
        ∧ (∀ path m op, slotOp d path m = some op →
            ∃ op1, slotOp s path m = some op1 ∧ op1.Parameters = op.Parameters)
        ∧ (∀ k ∈ mapKeys d.Definitions, k ∈ mapKeys s.Definitions)) →
      buildAnsOne lib U fuel ctx s a.2 = .ok s1 →
      (ParamInv lib ctx s1 ∧ (AnsInv lib ctx d → AnsInv lib ctx s1)
        ∧ (∀ path m op, slotOp d path m = some op →
            ∃ op1, slotOp s1 path m = some op1 ∧ op1.Parameters = op.Parameters)
        ∧ (∀ k ∈ mapKeys d.Definitions, k ∈ mapKeys s1.Definitions)) := by
    intro s a s1 ha hi hs
    obtain ⟨r1, _, r3⟩ := ansRound_slots lib U fuel ctx s s1 a.2 hs
    refine ⟨ansRound_paramInv lib U fuel ctx s s1 a.2 hi.1 hs,
      fun hd => ansRound_ansInv lib U fuel ctx s s1 a ((mem_order ro _ _).mp ha) (hi.2.1 hd) hs,
      ?_, ?_⟩
    · intro path m op ho
      obtain ⟨o1, ho1, hp1⟩ := hi.2.2.1 path m op ho
      obtain ⟨o2, ho2, hp2, _⟩ := r1 path m o1 ho1
      exact ⟨o2, ho2, hp2.trans hp1⟩
    · intro k hk
      exact r3 k (hi.2.2.2 k hk)
  have hinit : ParamInv lib ctx d ∧ (AnsInv lib ctx d → AnsInv lib ctx d)
        ∧ (∀ path m op, slotOp d path m = some op →
            ∃ op1, slotOp d path m = some op1 ∧ op1.Parameters = op.Parameters)
        ∧ (∀ k ∈ mapKeys d.Definitions, k ∈ mapKeys d.Definitions) :=
    ⟨hP, fun hd => hd, fun _ _ op ho => ⟨op, ho, rfl⟩, fun _ hk => hk⟩
  have hinv := forEach_inv (fun doc kv => buildAnsOne lib U fuel ctx doc kv.2) _
    (ro.order ctx.anses) hstep d d1 hinit h
  refine ⟨hinv.1, hinv.2.1, hinv.2.2.1, hinv.2.2.2, ?_⟩
  intro kv hkv route m hr hm hne
  refine forEach_post (fun doc kv => buildAnsOne lib U fuel ctx doc kv.2) _
    (fun s => ∃ op, slotOp s route.Path m = some op ∧ op.responseAt kv.2.Code ≠ none
            ∧ kv.2.Name ∈ mapKeys s.Definitions)
    (ro.order ctx.anses) kv ((mem_order ro _ _).mpr hkv) hstep ?_ ?_ d d1 hinit h
  · intro s s1 hi hs
    have hslot : slotOp s route.Path m ≠ none := by
      cases ho : slotOp d route.Path m with
      | none => exact absurd ho hne
      | some o =>
        obtain ⟨o1, ho1, _⟩ := hi.2.2.1 _ _ o ho
        rw [ho1]; exact Option.some_ne_none _
    rcases buildAnsOne_effect lib U fuel ctx s s1 kv.2 hs with ⟨hn, _⟩ | ⟨r1, hr1, hnone, _⟩ |
      ⟨r1, m1, op, schema, list, hr1, hm1, ⟨hop, hupd⟩, hd, _⟩
    · rw [hr] at hn; cases hn
    · rw [hr] at hr1
      cases hr1
      rw [routerOperator_of_slot lib s route m hm] at hnone
      exact absurd hnone hslot
    · rw [hr] at hr1
      cases hr1
      rw [hm] at hm1
      cases hm1
      refine ⟨_, by rw [hupd, if_pos ⟨rfl, rfl⟩], ?_, ?_⟩
      · rw [respondsWith_responseAt, if_pos rfl]
        exact Option.some_ne_none _
      · rw [hd, mem_keys_mapSet]
        exact Or.inl rfl
  · intro s b s1 _ _ hpost hs
    obtain ⟨op, hop, hk1, hk2⟩ := hpost
    obtain ⟨r1, _, r3⟩ := ansRound_slots lib U fuel ctx s s1 b.2 hs
    obtain ⟨op1, hop1, _, hmono⟩ := r1 _ _ op hop
    exact ⟨op1, hop1, hmono _ hk1, r3 _ hk2⟩

theorem slotOp_congr (d d1 : Swagger) (h : d1.Paths = d.Paths) (path : Str) (m : Method) :
    slotOp d1 path m = slotOp d path m := by
  unfold slotOp
  rw [h]

theorem paramInv_fresh (lib : Stdlib) (ctx : scanner) : ParamInv lib ctx freshDoc := by
  intro path m op ho
  rw [slotOp_of_paths_nil freshDoc rfl] at ho
  cases ho

theorem respEmpty_fresh : RespEmpty freshDoc := by
  intro path m op ho
  rw [slotOp_of_paths_nil freshDoc rfl] at ho
  cases ho

theorem build_post (lib : Stdlib) (ro : RangeOrder) (U : Underlying) (fuel : Nat)
    (ctx : scanner) (input : Option Swagger) (d : Swagger)
    (hin : ParamInv lib ctx (input.getD freshDoc))
    (h : build lib ro U fuel ctx input = .ok d) :
    ParamInv lib ctx d
      ∧ (RespEmpty (input.getD freshDoc) → AnsInv lib ctx d ∧ DefaultInv lib ctx d)
      ∧ (∀ kv ∈ ctx.reqs, ∀ route m, mapGet ctx.routes kv.2.ID = some route →
          methodOf (ToUpper lib route.Method) = some m →
          ∃ op, slotOp d route.Path m = some op
            ∧ (∀ n ∈ pathNames route.Path, (n, "path".toList) ∈ paramKeys op)
            ∧ (route.Method ≠ "GET".toList →
                paramKey (bodyParamOf kv.2.Name) ∈ paramKeys op
                ∧ kv.2.Name ∈ mapKeys d.Definitions))
      ∧ (∀ kv ∈ ctx.anses, ∀ route m, mapGet ctx.routes kv.2.ID = some route →
          methodOf (ToUpper lib route.Method) = some m →
          ∃ op, slotOp d route.Path m = some op ∧ op.responseAt kv.2.Code ≠ none
            ∧ kv.2.Name ∈ mapKeys d.Definitions) := by
  unfold build at h
  simp only at h
  cases h1 : buildMeta lib ro ctx (input.getD freshDoc) with
  | error f => simp [h1] at h
  | ok d1 =>
    simp only [h1] at h
    cases h2 : buildRoute lib ro ctx d1 with
    | error f => simp [h2] at h
    | ok d2 =>
      simp only [h2] at h
      cases h3 : buildReq lib ro U fuel ctx d2 with
      | error f => simp [h3] at h
      | ok d3 =>
        simp only [h3] at h
        obtain ⟨mp, _⟩ := buildMeta_frame lib ro ctx _ d1 h1
        have hP1 : ParamInv lib ctx d1 := by
          intro path m op ho
          rw [slotOp_congr _ d1 mp] at ho
          exact hin path m op ho
        have hP2 := buildRoute_paramInv lib ro ctx d1 d2 hP1 h2
        obtain ⟨_, _, hslots⟩ := buildRoute_post lib ro ctx d1 d2 h2
        obtain ⟨hP3, hR3, hreq⟩ := buildReq_post lib ro U fuel ctx d2 d3 hP2 h3
        obtain ⟨hP4, hA4, hpar, hdefs, hans⟩ := buildAns_post lib ro U fuel ctx d3 d hP3 h
        have hne2 : ∀ route m, (∃ k, mapGet ctx.routes k = some route) →
            methodOf (ToUpper lib route.Method) = some m → slotOp d2 route.Path m ≠ none := by
          rintro route m ⟨k, hk⟩ hm
          exact hslots (k, route) (mem_of_mapGet _ _ _ hk) m hm
        refine ⟨hP4, ?_, ?_, ?_⟩
        · intro hR
          have hR1 : RespEmpty d1 := by
            intro path m op ho
            rw [slotOp_congr _ d1 mp] at ho
            exact hR path m op ho
          have hR3' := hR3 (buildRoute_respEmpty lib ro ctx d1 d2 hR1 h2)
          constructor
          · apply hA4
            intro path m op ho code resp hresp
            rw [hR3' path m op ho] at hresp
            cases hresp
          · apply buildAns_defaultInv lib ro U fuel ctx d3 d _ h
            intro path m op ho resp hresp
            rw [hR3' path m op ho] at hresp
            cases hresp
        · intro kv hkv route m hr hm
          obtain ⟨op, hop, hk1, hk2⟩ := hreq kv hkv route m hr hm (hne2 route m ⟨_, hr⟩ hm)
          obtain ⟨op1, hop1, hp1⟩ := hpar _ _ op hop
          have hkeys : paramKeys op1 = paramKeys op := by
            unfold paramKeys; rw [hp1]
          refine ⟨op1, hop1, ?_, ?_⟩
          · rw [hkeys]; exact hk1
          · intro hg
            rw [hkeys]
            exact ⟨(hk2 hg).1, hdefs _ (hk2 hg).2⟩
        · intro kv hkv route m hr hm
          have hne3 : slotOp d3 route.Path m ≠ none := by
            have := hne2 route m ⟨_, hr⟩ hm
            cases ho : slotOp d2 route.Path m with
            | none => exact absurd ho this
            | some o =>
              obtain ⟨o1, ho1, _⟩ := (buildReq_slots lib ro U fuel ctx d2 d3 h3) _ _ o ho
              rw [ho1]; exact Option.some_ne_none _
          exact hans kv hkv route m hr hm hne3

theorem methodOf_name (s : Str) (m : Method) (h : methodOf s = some m) : s = m.name := by
  unfold methodOf at h
  by_cases h1 : s = "GET".toList
  · rw [if_pos h1] at h; cases h; exact h1
  rw [if_neg h1] at h
  by_cases h2 : s = "POST".toList
  · rw [if_pos h2] at h; cases h; exact h2
  rw [if_neg h2] at h
  by_cases h3 : s = "PUT".toList
  · rw [if_pos h3] at h; cases h; exact h3
  rw [if_neg h3] at h
  by_cases h4 : s = "PATCH".toList
  · rw [if_pos h4] at h; cases h; exact h4
  rw [if_neg h4] at h
  by_cases h5 : s = "HEAD".toList
  · rw [if_pos h5] at h; cases h; exact h5
  rw [if_neg h5] at h
  by_cases h6 : s = "DELETE".toList
  · rw [if_pos h6] at h; cases h; exact h6
  rw [if_neg h6] at h
  by_cases h7 : s = "OPTIONS".toList
  · rw [if_pos h7] at h; cases h; exact h7
  rw [if_neg h7] at h
  cases h

theorem methodOf_of_name (m : Method) : methodOf m.name = some m := by
  cases m <;> decide

theorem toUpper_fixed (lib : Stdlib) (s : Str)
    (h : ∀ c ∈ s, c.toNat < 128 ∧ c.toUpper = c) : ToUpper lib s = s := by
  unfold ToUpper
  induction s with
  | nil => rfl
  | cons a r ih =>
    obtain ⟨h1, h2⟩ := h a (List.mem_cons_self _ _)
    rw [List.map_cons, lib.upper_ascii a h1, h2,
      ih (fun c hc => h c (List.mem_cons_of_mem _ hc))]

theorem toUpper_name (lib : Stdlib) (m : Method) : ToUpper lib m.name = m.name := by
  apply toUpper_fixed
  cases m <;> decide

theorem methodOf_upper (lib : Stdlib) (s : Str) (m : Method) (h : methodOf s = some m) :
    methodOf (ToUpper lib s) = some m := by
  have := methodOf_name s m h
  rw [this, toUpper_name, methodOf_of_name]

theorem mem_paramKeys (op : Operation) (k : Str × Str) (h : k ∈ paramKeys op) :
    ∃ q ∈ op.Parameters, paramKey q = k := by
  unfold paramKeys at h
  obtain ⟨q, hq, hk⟩ := List.mem_map.mp h
  exact ⟨q, hq, hk⟩

theorem mem_paramsIn (op : Operation) (loc : Str) (q : Parameter) :
    q ∈ paramsIn op loc ↔ q ∈ op.Parameters ∧ q.In = loc := by
  unfold paramsIn
  simp [List.mem_filter]

theorem pathParamsExact_of_inv (lib : Stdlib) (ctx : scanner) (d : Swagger) (r : routeParser)
    (m : Method) (hm : methodOf (ToUpper lib r.Method) = some m) (hP : ParamInv lib ctx d)
    (hop : ∃ op, slotOp d r.Path m = some op
      ∧ ∀ n ∈ pathNames r.Path, (n, "path".toList) ∈ paramKeys op) :
    PathParamsExact lib d r := by
  obtain ⟨op, ho, hk⟩ := hop
  obtain ⟨hnd, hq⟩ := hP _ _ op ho
  have hpath : ∀ q ∈ paramsIn op "path".toList, ∃ n ∈ pathNames r.Path, q = pathParamOf n := by
    intro q hqm
    obtain ⟨hq1, hq2⟩ := (mem_paramsIn op _ q).mp hqm
    rcases hq q hq1 with h1 | h1 | ⟨kv, _, h1, _⟩
    · exact h1
    · rw [hq2] at h1
      exact absurd h1 (by decide)
    · rw [h1] at hq2
      have hb : ("body".toList : Str) = "path".toList := hq2
      exact absurd hb (by decide)
  refine ⟨op, by rw [routerOperator_of_slot lib d r m hm]; exact ho, ?_, ?_, ?_⟩
  · intro q hqm
    obtain ⟨n, hn, rfl⟩ := hpath q hqm
    exact ⟨rfl, rfl, rfl, hn⟩
  · intro n hn
    obtain ⟨q, hq1, hq2⟩ := mem_paramKeys op _ (hk n hn)
    simp only [paramKey, Prod.mk.injEq] at hq2
    exact ⟨q, (mem_paramsIn op _ q).mpr ⟨hq1, hq2.2⟩, hq2.1⟩
  · have hsub : (paramsIn op "path".toList).Sublist op.Parameters := List.filter_sublist _
    have hnd1 : ((paramsIn op "path".toList).map paramKey).Nodup :=
      List.Nodup.sublist (hsub.map paramKey) hnd
    have hmap : (paramsIn op "path".toList).map paramKey
        = ((paramsIn op "path".toList).map (fun q => q.Name)).map
            (fun n => (n, "path".toList)) := by
      rw [List.map_map]
      apply List.map_congr_left
      intro q hqm
      obtain ⟨_, hq2⟩ := (mem_paramsIn op _ q).mp hqm
      simp [paramKey, hq2]
    rw [hmap] at hnd1
    exact List.Nodup.of_map _ hnd1

/-- C1. For a route of the registry whose method is one of the seven supported ones and whose
ID has a bound request declaration, after build on a fresh document the path parameters of the
route's operation are exactly one required parameter of type string per distinct name taken
from the path segments `{name}` and `:name`, and nothing else; this is still so after a second
build over the result, which processes the route and applies the request step again. The paths
`/items/{id}` and `/items/:id` each carry the one name `id`. -/
theorem c1_path_parameters (lib : Stdlib) (ro : RangeOrder) (U : Underlying) (fuel : Nat)
    (ctx : scanner) (d : Swagger) (r : routeParser) (m : Method) (kv : Str × declParser)
    (hb : build lib ro U fuel ctx none = .ok d)
    (hr : mapGet ctx.routes r.ID = some r) (hm : methodOf r.Method = some m)
    (hkv : kv ∈ ctx.reqs) (hid : kv.2.ID = r.ID) :
    PathParamsExact lib d r
      ∧ (∀ ro1 fuel1 d1, build lib ro1 U fuel1 ctx (some d) = .ok d1 → PathParamsExact lib d1 r)
      ∧ pathNames "/items/{id}".toList = ["id".toList]
      ∧ pathNames "/items/:id".toList = ["id".toList] := by
  have hmu := methodOf_upper lib r.Method m hm
  have hr1 : mapGet ctx.routes kv.2.ID = some r := by rw [hid]; exact hr
  obtain ⟨hP, _, hreq, _⟩ := build_post lib ro U fuel ctx none d (paramInv_fresh lib ctx) hb
  refine ⟨?_, ?_, by decide, by decide⟩
  · obtain ⟨op, ho, hk, _⟩ := hreq kv hkv r m hr1 hmu
    exact pathParamsExact_of_inv lib ctx d r m hmu hP ⟨op, ho, hk⟩
  · intro ro1 fuel1 d1 hb1
    obtain ⟨hP1, _, hreq1, _⟩ := build_post lib ro1 U fuel1 ctx (some d) d1 hP hb1
    obtain ⟨op, ho, hk, _⟩ := hreq1 kv hkv r m hr1 hmu
    exact pathParamsExact_of_inv lib ctx d1 r m hmu hP1 ⟨op, ho, hk⟩

theorem getItemDoc_built :
    build Stdlib.ascii RangeOrder.stored exUnderlying 4 getItemScanner none = .ok getItemDoc := by
  rfl

/-- C1, witness: the route `getItem GET /items/{id}` with its request declaration. -/
theorem c1_path_parameters_witness :
    build Stdlib.ascii RangeOrder.stored exUnderlying 4 getItemScanner none = .ok getItemDoc
      ∧ PathParamsExact Stdlib.ascii getItemDoc getItemRoute
      ∧ (opAt Stdlib.ascii (.ok getItemDoc) "/items/{id}".toList "GET".toList).map
          (fun op => op.Parameters.map (fun p => (p.Name, p.In, p.Required, p.Type_)))
        = some [("id".toList, "path".toList, true, "string".toList),
            ("Verbose".toList, "query".toList, false, "boolean".toList)] :=
  ⟨getItemDoc_built,
    (c1_path_parameters Stdlib.ascii RangeOrder.stored exUnderlying 4 getItemScanner getItemDoc
      getItemRoute .GET ("getItem".toList, getItemReq) getItemDoc_built rfl rfl
      (List.mem_cons_self _ _) rfl).1,
    by decide⟩

theorem filter_eq_singleton {α κ : Type} (key : α → κ) (p : α → Bool) (l : List α) (q : α)
    (hnd : (l.map key).Nodup) (hq : q ∈ l) (hp : p q = true)
    (hk : ∀ x ∈ l, p x = true → key x = key q) : l.filter p = [q] := by
  induction l with
  | nil => cases hq
  | cons a r ih =>
    simp only [List.map_cons, List.nodup_cons] at hnd
    rcases List.mem_cons.mp hq with h1 | h1
    · subst h1
      rw [List.filter_cons_of_pos hp]
      congr 1
      rw [List.filter_eq_nil_iff]
      intro x hx hpx
      apply hnd.1
      rw [← hk x (List.mem_cons_of_mem _ hx) hpx]
      exact List.mem_map_of_mem key hx
    · have hpa : ¬ p a = true := by
        intro hpa
        apply hnd.1
        rw [hk a (List.mem_cons_self _ _) hpa]
        exact List.mem_map_of_mem key h1
      rw [List.filter_cons_of_neg hpa]
      exact ih hnd.2 h1 (fun x hx => hk x (List.mem_cons_of_mem _ hx))

/-- C2, counterexample. The routes `createItem` and `addItem` both are `POST /items`, each with
a request declaration of its own. One operation serves both: it has one body parameter, and
that references `addItem`, so for the route `createItem` with the declaration named
`createItem` the body parameter does not reference `#/definitions/createItem`. -/
theorem c2_shared_slot_body_reference :
    sharedSlotScanner.reqs.map (fun kv => (kv.2.ID, kv.2.Name))
        = [("createItem".toList, "createItem".toList), ("addItem".toList, "addItem".toList)]
      ∧ (opAt Stdlib.ascii
          (build Stdlib.ascii RangeOrder.stored exUnderlying 8 sharedSlotScanner none)
          createItemRoute.Path createItemRoute.Method).map
          (fun op => (op.ID, (paramsIn op "body".toList).map Parameter.ref))
        = some ("addItem".toList, ["#/definitions/addItem".toList]) := by
  decide

/-- C2, amended. After build on a fresh document: when the methods of the routes are in upper
case, no operation in a GET slot has a body parameter; and for every route with a supported
method other than GET and a bound request declaration with schema name Name, Definitions has
an entry Name and the operation has exactly one body parameter, named `Body`, whose schema
references the name of a request declaration bound to a route with this path and method,
which is Name when every such declaration has the name Name. -/
theorem c2_body_parameter (lib : Stdlib) (ro : RangeOrder) (U : Underlying) (fuel : Nat)
    (ctx : scanner) (d : Swagger) (hb : build lib ro U fuel ctx none = .ok d) :
    (MethodsNormalized lib ctx →
        ∀ path op, slotOp d path .GET = some op → paramsIn op "body".toList = [])
      ∧ (∀ r m kv, mapGet ctx.routes r.ID = some r → methodOf r.Method = some m → m ≠ .GET →
          kv ∈ ctx.reqs → kv.2.ID = r.ID →
          kv.2.Name ∈ mapKeys d.Definitions
            ∧ ∃ op q, routerOperator lib d r.Path r.Method = some op
              ∧ paramsIn op "body".toList = [q] ∧ q.Name = "Body".toList
              ∧ (∃ kv1 ∈ ctx.reqs, Targets lib ctx kv1.2 r.Path m
                  ∧ q.ref = "#/definitions/".toList ++ kv1.2.Name)
              ∧ ((∀ kv1 ∈ ctx.reqs, Targets lib ctx kv1.2 r.Path m → kv1.2.Name = kv.2.Name) →
                  q.ref = "#/definitions/".toList ++ kv.2.Name)) := by
  obtain ⟨hP, _, hreq, _⟩ := build_post lib ro U fuel ctx none d (paramInv_fresh lib ctx) hb
  constructor
  · intro hnorm path op ho
    unfold paramsIn
    rw [List.filter_eq_nil_iff]
    intro q hq hin
    have hin1 : q.In = "body".toList := by simpa using hin
    rcases (hP path .GET op ho).2 q hq with ⟨n, _, h1⟩ | h1 | ⟨kv, _, _, route, hr, _, hmg, hng⟩
    · rw [h1] at hin1
      have hb1 : ("path".toList : Str) = "body".toList := hin1
      exact absurd hb1 (by decide)
    · rw [hin1] at h1
      exact absurd h1 (by decide)
    · have hmem := mem_of_mapGet _ _ _ hr
      have := hnorm _ hmem
      simp only at this
      rw [this] at hmg
      exact hng (methodOf_name _ _ hmg)
  · intro r m kv hr hm hmne hkv hid
    have hmu := methodOf_upper lib r.Method m hm
    have hr1 : mapGet ctx.routes kv.2.ID = some r := by rw [hid]; exact hr
    have hng : r.Method ≠ "GET".toList := by
      intro hg
      rw [hg] at hm
      have : some Method.GET = some m := hm
      cases this
      exact hmne rfl
    obtain ⟨op, ho, _, hbody⟩ := hreq kv hkv r m hr1 hmu
    obtain ⟨hkey, hdef⟩ := hbody hng
    refine ⟨hdef, ?_⟩
    obtain ⟨q, hq1, hq2⟩ := mem_paramKeys op _ hkey
    obtain ⟨hnd, hall⟩ := hP _ _ op ho
    have hsrc : ∀ x ∈ op.Parameters, x.In = "body".toList → BodySource lib ctx x r.Path m := by
      intro x hx hin
      rcases hall x hx with ⟨n, _, h1⟩ | h1 | h1
      · rw [h1] at hin
        have hb1 : ("path".toList : Str) = "body".toList := hin
        exact absurd hb1 (by decide)
      · rw [hin] at h1
        exact absurd h1 (by decide)
      · exact h1
    have hqin : q.In = "body".toList := by
      simp only [paramKey, Prod.mk.injEq] at hq2
      exact hq2.2
    have hfilter : paramsIn op "body".toList = [q] := by
      unfold paramsIn
      apply filter_eq_singleton paramKey _ _ q hnd hq1 (by simpa using hqin)
      intro x hx hpx
      obtain ⟨kv1, _, hx1, _⟩ := hsrc x hx (by simpa using hpx)
      rw [hq2, hx1]
      rfl
    obtain ⟨kv1, hkv1, hq3, route, hr2, hp2, hm2, _⟩ := hsrc q hq1 hqin
    refine ⟨op, q, by rw [routerOperator_of_slot lib d r m hmu]; exact ho, hfilter, ?_, ?_, ?_⟩
    · rw [hq3]; rfl
    · exact ⟨kv1, hkv1, ⟨route, hr2, hp2, hm2⟩, by rw [hq3]; rfl⟩
    · intro huniq
      rw [← huniq kv1 hkv1 ⟨route, hr2, hp2, hm2⟩, hq3]
      rfl

/-- C2, witness: the registry of `createItem` and `listItems` with the request declaration of
`createItem`; the operation of `POST /items` has the one body parameter `Body`. -/
theorem c2_body_parameter_witness :
    build Stdlib.ascii RangeOrder.stored exUnderlying 8 c3Scanner none
        = .ok (docOf (build Stdlib.ascii RangeOrder.stored exUnderlying 8 c3Scanner none))
      ∧ "createItem".toList ∈ mapKeys
          (docOf (build Stdlib.ascii RangeOrder.stored exUnderlying 8 c3Scanner none)).Definitions :=
  ⟨rfl, ((c2_body_parameter Stdlib.ascii RangeOrder.stored exUnderlying 8 c3Scanner
      (docOf (build Stdlib.ascii RangeOrder.stored exUnderlying 8 c3Scanner none)) rfl).2
      createItemRoute .POST
      ("createItem".toList, (HasReqAnno Stdlib.ascii
        (itemDecl ["// swag:req createItem".toList, "// The item to create.".toList])).2)
      rfl rfl (by decide) (List.mem_cons_self _ _) rfl).1⟩

/-- C9, counterexample. (1) The declarations `swag:ans listItems 200` and
`swag:ans listItems 0200` have different code texts and give the two definitions
`listItems-200` and `listItems-0200`, but both codes are the number 200: the operation has the
single response entry 200, which references `listItems-0200`. (2) When `createItem` and
`addItem` share `POST /items`, the entry 200 of the one operation references `addItem-200`,
not the definition `createItem-200` of the declaration `swag:ans createItem 200`. (3) The
declarations `swag:ans listItems 0` and `swag:ans listItems 200` have different codes, but the
operation has no entry keyed by the number 0: the response of the first is the default
response. -/
theorem c9_codes_and_slots_collide :
    mapKeys (definitionsOf
        (build Stdlib.ascii RangeOrder.stored exUnderlying 8 sameNumberScanner none))
        = ["listItems-200".toList, "listItems-0200".toList]
      ∧ (opAt Stdlib.ascii
          (build Stdlib.ascii RangeOrder.stored exUnderlying 8 sameNumberScanner none)
          "/list".toList "PUT".toList).map
          (fun op => op.Responses.StatusCodeResponses.map (fun cr => (cr.1, cr.2.ref)))
        = some [(200, "#/definitions/listItems-0200".toList)]
      ∧ (opAt Stdlib.ascii
          (build Stdlib.ascii RangeOrder.stored exUnderlying 8 sharedSlotAnsScanner none)
          createItemRoute.Path createItemRoute.Method).map
          (fun op => op.Responses.StatusCodeResponses.map (fun cr => (cr.1, cr.2.ref)))
        = some [(200, "#/definitions/addItem-200".toList),
            (404, "#/definitions/createItem-404".toList)]
      ∧ (opAt Stdlib.ascii
          (build Stdlib.ascii RangeOrder.stored exUnderlying 8 zeroCodeScanner none)
          "/list".toList "PUT".toList).map
          (fun op => (op.Responses.StatusCodeResponses.map (fun cr => (cr.1, cr.2.ref)),
            op.Responses.Default.map Response.ref))
        = some ([(200, "#/definitions/listItems-200".toList)],
            some "#/definitions/listItems-0".toList) := by
  decide

theorem hasAnsAnno_record (lib : Stdlib) (raw : declParser) (h0 : raw.HasAns = false)
    (h : (HasAnsAnno lib raw).1 = true) :
    ∃ id c, (HasAnsAnno lib raw).2.ID = id ∧ (HasAnsAnno lib raw).2.Name = id ++ ['-'] ++ c
      ∧ (HasAnsAnno lib raw).2.Code = Atoi c := by
  unfold HasAnsAnno at h ⊢
  simp only [h0, Bool.false_eq_true, if_false] at h ⊢
  cases hc : raw.Comments with
  | none => simp [hc] at h
  | some list =>
    simp only [hc] at h ⊢
    split
    · rename_i m1 m2 _ _
      exact ⟨m1, m2, rfl, rfl, rfl⟩
    · rename_i hno
      split at h
      · rename_i m1 m2 r heq
        exact absurd heq (hno m1 m2 r)
      · cases h

theorem responseAt_source (lib : Stdlib) (ctx : scanner) (d : Swagger)
    (hA : AnsInv lib ctx d ∧ DefaultInv lib ctx d) (path : Str) (m : Method) (op : Operation)
    (ho : slotOp d path m = some op) (code : Int) (resp : Response)
    (hresp : op.responseAt code = some resp) :
    ∃ kv ∈ ctx.anses, ∃ list, kv.2.Code = code ∧ Targets lib ctx kv.2 path m
      ∧ resp = ansResponse kv.2 list := by
  unfold Operation.responseAt at hresp
  by_cases h0 : code = 0
  · rw [if_pos h0] at hresp
    obtain ⟨kv, hkv, list, hc, ht, hr⟩ := hA.2 path m op ho resp hresp
    exact ⟨kv, hkv, list, hc.trans h0.symm, ht, hr⟩
  · rw [if_neg h0] at hresp
    exact hA.1 path m op ho code resp hresp

/-- C9, amended. For a route with a supported method and two response declarations of the
registry bound to its ID with code texts c1 and c2, named ID-c1 and ID-c2 and coded by the
numbers of c1 and c2 as `HasAnsAnno` records them: when the two numbers differ, and every
response declaration bound to a route with this path and method that has one of the two
numbers has the name of the respective declaration, then after build on a fresh document
Definitions has the two distinct entries ID-c1 and ID-c2 and the operation has a response
for each of the two distinct numbers, each referencing its own definition: the entry of
`StatusCodeResponses` under the number, and the default response when the number is 0. -/
theorem c9_two_responses (lib : Stdlib) (ro : RangeOrder) (U : Underlying) (fuel : Nat)
    (ctx : scanner) (d : Swagger) (r : routeParser) (m : Method) (kv1 kv2 : Str × declParser)
    (c1 c2 : Str) (hb : build lib ro U fuel ctx none = .ok d)
    (hr : mapGet ctx.routes r.ID = some r) (hm : methodOf r.Method = some m)
    (h1 : kv1 ∈ ctx.anses) (h2 : kv2 ∈ ctx.anses)
    (hid1 : kv1.2.ID = r.ID) (hid2 : kv2.2.ID = r.ID)
    (hn1 : kv1.2.Name = r.ID ++ ['-'] ++ c1) (hn2 : kv2.2.Name = r.ID ++ ['-'] ++ c2)
    (hc1 : kv1.2.Code = Atoi c1) (hc2 : kv2.2.Code = Atoi c2)
    (hdiff : Atoi c1 ≠ Atoi c2)
    (huniq : ∀ kv ∈ ctx.anses, Targets lib ctx kv.2 r.Path m →
      (kv.2.Code = Atoi c1 → kv.2.Name = kv1.2.Name)
        ∧ (kv.2.Code = Atoi c2 → kv.2.Name = kv2.2.Name)) :
    r.ID ++ ['-'] ++ c1 ≠ r.ID ++ ['-'] ++ c2
      ∧ r.ID ++ ['-'] ++ c1 ∈ mapKeys d.Definitions
      ∧ r.ID ++ ['-'] ++ c2 ∈ mapKeys d.Definitions
      ∧ ∃ op resp1 resp2, routerOperator lib d r.Path r.Method = some op
        ∧ op.responseAt (Atoi c1) = some resp1
        ∧ op.responseAt (Atoi c2) = some resp2
        ∧ (Atoi c1 ≠ 0 → mapGet op.Responses.StatusCodeResponses (Atoi c1) = some resp1)
        ∧ (Atoi c2 ≠ 0 → mapGet op.Responses.StatusCodeResponses (Atoi c2) = some resp2)
        ∧ (Atoi c1 = 0 → op.Responses.Default = some resp1)
        ∧ (Atoi c2 = 0 → op.Responses.Default = some resp2)
        ∧ resp1.ref = "#/definitions/".toList ++ (r.ID ++ ['-'] ++ c1)
        ∧ resp2.ref = "#/definitions/".toList ++ (r.ID ++ ['-'] ++ c2) := by
  have hmu := methodOf_upper lib r.Method m hm
  obtain ⟨_, hA, _, hans⟩ := build_post lib ro U fuel ctx none d (paramInv_fresh lib ctx) hb
  have hA := hA respEmpty_fresh
  obtain ⟨op, ho, hs1, hd1⟩ := hans kv1 h1 r m (by rw [hid1]; exact hr) hmu
  obtain ⟨op2, ho2, hs2, hd2⟩ := hans kv2 h2 r m (by rw [hid2]; exact hr) hmu
  rw [ho] at ho2
  cases ho2
  rw [hc1] at hs1
  rw [hc2] at hs2
  rw [hn1] at hd1
  rw [hn2] at hd2
  refine ⟨?_, hd1, hd2, ?_⟩
  · intro he
    apply hdiff
    have := List.append_cancel_left he
    rw [this]
  · cases hr1 : op.responseAt (Atoi c1) with
    | none => exact absurd hr1 hs1
    | some resp1 =>
      cases hr2 : op.responseAt (Atoi c2) with
      | none => exact absurd hr2 hs2
      | some resp2 =>
        refine ⟨op, resp1, resp2, by rw [routerOperator_of_slot lib d r m hmu]; exact ho,
          hr1, hr2, ?_, ?_, ?_, ?_, ?_, ?_⟩
        · intro hz
          unfold Operation.responseAt at hr1
          rw [if_neg hz] at hr1
          exact hr1
        · intro hz
          unfold Operation.responseAt at hr2
          rw [if_neg hz] at hr2
          exact hr2
        · intro hz
          unfold Operation.responseAt at hr1
          rw [if_pos hz] at hr1
          exact hr1
        · intro hz
          unfold Operation.responseAt at hr2
          rw [if_pos hz] at hr2
          exact hr2
        · obtain ⟨kv, hkv, list, hcode, htar, hresp⟩ :=
            responseAt_source lib ctx d hA _ _ op ho _ _ hr1
          rw [hresp, ← hn1, ← (huniq kv hkv htar).1 hcode]
          rfl
        · obtain ⟨kv, hkv, list, hcode, htar, hresp⟩ :=
            responseAt_source lib ctx d hA _ _ op ho _ _ hr2
          rw [hresp, ← hn2, ← (huniq kv hkv htar).2 hcode]
          rfl

theorem twoCodes_anses :
    twoCodesScanner.anses
      = [("listItems-200".toList, ans200Decl), ("listItems-404".toList, ans404Decl)] := by
  rfl

/-- C9, witness: the route `listItems` with the declarations `swag:ans listItems 200` and
`swag:ans listItems 404`. -/
theorem c9_two_responses_witness :
    build Stdlib.ascii RangeOrder.stored exUnderlying 8 twoCodesScanner none = .ok twoCodesDoc
      ∧ Atoi "200".toList ≠ Atoi "404".toList
      ∧ "listItems-200".toList ∈ mapKeys twoCodesDoc.Definitions
      ∧ "listItems-404".toList ∈ mapKeys twoCodesDoc.Definitions
      ∧ (opAt Stdlib.ascii (.ok twoCodesDoc) "/list".toList "PUT".toList).map
          (fun op => op.Responses.StatusCodeResponses.map (fun cr => (cr.1, cr.2.ref)))
        = some [(200, "#/definitions/listItems-200".toList),
            (404, "#/definitions/listItems-404".toList)] := by
  have huniq : ∀ kv ∈ twoCodesScanner.anses,
      Targets Stdlib.ascii twoCodesScanner kv.2 listItemsRoute.Path .PUT →
      (kv.2.Code = Atoi "200".toList → kv.2.Name = ans200Decl.Name)
        ∧ (kv.2.Code = Atoi "404".toList → kv.2.Name = ans404Decl.Name) := by
    intro kv hkv _
    rw [twoCodes_anses] at hkv
    simp only [List.mem_cons, List.mem_singleton, List.not_mem_nil, or_false] at hkv
    rcases hkv with rfl | rfl
    · exact ⟨fun _ => rfl, fun hc => absurd hc (by decide)⟩
    · exact ⟨fun hc => absurd hc (by decide), fun _ => rfl⟩
  have h := c9_two_responses Stdlib.ascii RangeOrder.stored exUnderlying 8 twoCodesScanner
    twoCodesDoc listItemsRoute .PUT ("listItems-200".toList, ans200Decl)
    ("listItems-404".toList, ans404Decl) "200".toList "404".toList rfl rfl rfl
    (by rw [twoCodes_anses]; exact List.mem_cons_self _ _)
    (by rw [twoCodes_anses]; exact List.mem_cons_of_mem _ (List.mem_cons_self _ _))
    rfl rfl rfl rfl rfl rfl (by decide) huniq
  exact ⟨rfl, by decide, h.2.1, h.2.2.1, by decide⟩

theorem mapGet_finish (metas : GoMap Str Str) (key value : Str) (k : Str) :
    mapGet (MetaState.finish { metas := metas, key := key, value := value }) k
      = if key ≠ [] ∧ k = key then some value else mapGet metas k := by
  unfold MetaState.finish
  by_cases h : key = []
  · simp [h]
  · simp only [ne_eq, h, not_false_eq_true, if_true, true_and]
    exact mapGet_mapSet metas key value k

theorem events_fold (es : List (Option Str)) :
    ∀ (st : MetaState) (k : Str),
      mapGet (es.foldl metaEvent st).finish k
        = match lastValue (specMetaScan (eventLines es)).2 k with
          | some w => some w
          | none => mapGet (MetaState.finish { st with
              value := st.value ++ (specMetaScan (eventLines es)).1 }) k := by
  induction es with
  | nil =>
    intro st k
    simp [eventLines, specMetaScan, lastValue]
  | cons e rest ih =>
    intro st k
    rw [List.foldl_cons, ih]
    cases e with
    | none =>
      have hl : eventLines (none :: rest) = eventLines rest := by
        simp [eventLines]
      rw [hl]
      cases lastValue (specMetaScan (eventLines rest)).2 k with
      | some w => rfl
      | none =>
        simp only [metaEvent]
        by_cases hk : st.key = []
        · simp [hk]
        · simp only [ne_eq, hk, not_false_eq_true, if_true]
          rw [mapGet_finish, mapGet_finish, mapGet_mapSet]
          by_cases hkk : k = st.key
          · simp [hk, hkk]
          · simp [hkk]
    | some line =>
      have hl : eventLines (some line :: rest) = TrimLeft line '/' :: eventLines rest := by
        simp [eventLines]
      rw [hl]
      simp only [metaEvent, metaLine, specMetaScan]
      cases hi : Index (TrimLeft line '/') ':' with
      | none =>
        simp only
        cases lastValue (specMetaScan (eventLines rest)).2 k with
        | some w => rfl
        | none =>
          simp only
          by_cases hne : TrimLeft line '/' = []
          · simp [hne]
          · simp [hne, List.append_assoc]
      | some pos =>
        simp only [lastValue]
        cases lastValue (specMetaScan (eventLines rest)).2 k with
        | some w => rfl
        | none =>
          simp only [List.append_nil]
          rw [mapGet_finish]
          have hf : (if st.key ≠ [] then mapSet st.metas st.key st.value else st.metas)
              = MetaState.finish st := rfl
          rw [hf]
          by_cases hc : TrimSpace (List.take pos (TrimLeft line '/')) = k ∧ k ≠ []
          · obtain ⟨h1, h2⟩ := hc
            subst h1
            simp [h2]
          · rw [if_neg hc]
            have : ¬ (TrimSpace (List.take pos (TrimLeft line '/')) ≠ [] ∧
                k = TrimSpace (List.take pos (TrimLeft line '/'))) := by
              rintro ⟨h1, h2⟩
              exact hc ⟨h2.symm, h2 ▸ h1⟩
            rw [if_neg this]

theorem metaAssign_cases (lib : Stdlib) (d : Swagger) (kv : Str × Str) :
    ∀ k v r, k = ToLower lib (TrimSpace kv.1) → v = kv.2 → r = metaAssign lib d kv →
      (k = "title".toList ∧ r = setInfo d (fun i => { i with Title := v })) ∨
      (k = "version".toList ∧ r = setInfo d (fun i => { i with Version := v })) ∨
      (k = "schemes".toList ∧ r = { d with Schemes := metaList v }) ∨
      (k = "host".toList ∧ r = { d with Host := v }) ∨
      (k = "basepath".toList ∧ r = { d with BasePath := v }) ∨
      (k = "consumes".toList ∧ r = { d with Consumes := metaList v }) ∨
      (k = "produces".toList ∧ r = { d with Produces := metaList v }) ∨
      ((k ≠ "title".toList ∧ k ≠ "version".toList ∧ k ≠ "schemes".toList ∧ k ≠ "host".toList ∧ k ≠ "basepath".toList ∧ k ≠ "consumes".toList ∧ k ≠ "produces".toList) ∧ r = d) := by
  intro k v r hk hv hr
  subst hv
  unfold metaAssign at hr
  simp only [← hk] at hr
  by_cases h0 : k = "title".toList
  · rw [if_pos h0] at hr
    exact Or.inl ⟨h0, hr⟩
  rw [if_neg h0] at hr
  by_cases h1 : k = "version".toList
  · rw [if_pos h1] at hr
    exact Or.inr (Or.inl ⟨h1, hr⟩)
  rw [if_neg h1] at hr
  by_cases h2 : k = "schemes".toList
  · rw [if_pos h2] at hr
    exact Or.inr (Or.inr (Or.inl ⟨h2, hr⟩))
  rw [if_neg h2] at hr
  by_cases h3 : k = "host".toList
  · rw [if_pos h3] at hr
    exact Or.inr (Or.inr (Or.inr (Or.inl ⟨h3, hr⟩)))
  rw [if_neg h3] at hr
  by_cases h4 : k = "basepath".toList
  · rw [if_pos h4] at hr
    exact Or.inr (Or.inr (Or.inr (Or.inr (Or.inl ⟨h4, hr⟩))))
  rw [if_neg h4] at hr
  by_cases h5 : k = "consumes".toList
  · rw [if_pos h5] at hr
    exact Or.inr (Or.inr (Or.inr (Or.inr (Or.inr (Or.inl ⟨h5, hr⟩)))))
  rw [if_neg h5] at hr
  by_cases h6 : k = "produces".toList
  · rw [if_pos h6] at hr
    exact Or.inr (Or.inr (Or.inr (Or.inr (Or.inr (Or.inr (Or.inl ⟨h6, hr⟩))))))
  rw [if_neg h6] at hr
  exact Or.inr (Or.inr (Or.inr (Or.inr (Or.inr (Or.inr (Or.inr (⟨⟨h0, h1, h2, h3, h4, h5, h6⟩, hr⟩)))))))

theorem metaText_metaAssign (lib : Stdlib) (d : Swagger) (kv : Str × Str) (K : Str)
    (hK : K = "title".toList ∨ K = "version".toList ∨ K = "host".toList ∨ K = "basepath".toList) :
    metaText (metaAssign lib d kv) K
      = if ToLower lib (TrimSpace kv.1) = K then kv.2 else metaText d K := by
  rcases metaAssign_cases lib d kv _ _ _ rfl rfl rfl with
    ⟨hk, hr⟩ | ⟨hk, hr⟩ | ⟨hk, hr⟩ | ⟨hk, hr⟩ | ⟨hk, hr⟩ | ⟨hk, hr⟩ | ⟨hk, hr⟩ | ⟨hk, hr⟩
  · rw [hr, hk]
    rcases hK with rfl | rfl | rfl | rfl
    · rw [if_pos rfl]; rfl
    · rw [if_neg (by decide)]; rfl
    · rw [if_neg (by decide)]; rfl
    · rw [if_neg (by decide)]; rfl
  · rw [hr, hk]
    rcases hK with rfl | rfl | rfl | rfl
    · rw [if_neg (by decide)]; rfl
    · rw [if_pos rfl]; rfl
    · rw [if_neg (by decide)]; rfl
    · rw [if_neg (by decide)]; rfl
  · rw [hr, hk]
    rcases hK with rfl | rfl | rfl | rfl
    · rw [if_neg (by decide)]; rfl
    · rw [if_neg (by decide)]; rfl
    · rw [if_neg (by decide)]; rfl
    · rw [if_neg (by decide)]; rfl
  · rw [hr, hk]
    rcases hK with rfl | rfl | rfl | rfl
    · rw [if_neg (by decide)]; rfl
    · rw [if_neg (by decide)]; rfl
    · rw [if_pos rfl]; rfl
    · rw [if_neg (by decide)]; rfl
  · rw [hr, hk]
    rcases hK with rfl | rfl | rfl | rfl
    · rw [if_neg (by decide)]; rfl
    · rw [if_neg (by decide)]; rfl
    · rw [if_neg (by decide)]; rfl
    · rw [if_pos rfl]; rfl
  · rw [hr, hk]
    rcases hK with rfl | rfl | rfl | rfl
    · rw [if_neg (by decide)]; rfl
    · rw [if_neg (by decide)]; rfl
    · rw [if_neg (by decide)]; rfl
    · rw [if_neg (by decide)]; rfl
  · rw [hr, hk]
    rcases hK with rfl | rfl | rfl | rfl
    · rw [if_neg (by decide)]; rfl
    · rw [if_neg (by decide)]; rfl
    · rw [if_neg (by decide)]; rfl
    · rw [if_neg (by decide)]; rfl
  · rw [hr]
    rcases hK with rfl | rfl | rfl | rfl
    · rw [if_neg hk.1]
    · rw [if_neg hk.2.1]
    · rw [if_neg hk.2.2.2.1]
    · rw [if_neg hk.2.2.2.2.1]

theorem metaStrings_metaAssign (lib : Stdlib) (d : Swagger) (kv : Str × Str) (K : Str)
    (hK : K = "schemes".toList ∨ K = "consumes".toList ∨ K = "produces".toList) :
    metaStrings (metaAssign lib d kv) K
      = if ToLower lib (TrimSpace kv.1) = K then metaList kv.2 else metaStrings d K := by
  rcases metaAssign_cases lib d kv _ _ _ rfl rfl rfl with
    ⟨hk, hr⟩ | ⟨hk, hr⟩ | ⟨hk, hr⟩ | ⟨hk, hr⟩ | ⟨hk, hr⟩ | ⟨hk, hr⟩ | ⟨hk, hr⟩ | ⟨hk, hr⟩
  · rw [hr, hk]
    rcases hK with rfl | rfl | rfl
    · rw [if_neg (by decide)]; rfl
    · rw [if_neg (by decide)]; rfl
    · rw [if_neg (by decide)]; rfl
  · rw [hr, hk]
    rcases hK with rfl | rfl | rfl
    · rw [if_neg (by decide)]; rfl
    · rw [if_neg (by decide)]; rfl
    · rw [if_neg (by decide)]; rfl
  · rw [hr, hk]
    rcases hK with rfl | rfl | rfl
    · rw [if_pos rfl]; rfl
    · rw [if_neg (by decide)]; rfl
    · rw [if_neg (by decide)]; rfl
  · rw [hr, hk]
    rcases hK with rfl | rfl | rfl
    · rw [if_neg (by decide)]; rfl
    · rw [if_neg (by decide)]; rfl
    · rw [if_neg (by decide)]; rfl
  · rw [hr, hk]
    rcases hK with rfl | rfl | rfl
    · rw [if_neg (by decide)]; rfl
    · rw [if_neg (by decide)]; rfl
    · rw [if_neg (by decide)]; rfl
  · rw [hr, hk]
    rcases hK with rfl | rfl | rfl
    · rw [if_neg (by decide)]; rfl
    · rw [if_pos rfl]; rfl
    · rw [if_neg (by decide)]; rfl
  · rw [hr, hk]
    rcases hK with rfl | rfl | rfl
    · rw [if_neg (by decide)]; rfl
    · rw [if_neg (by decide)]; rfl
    · rw [if_pos rfl]; rfl
  · rw [hr]
    rcases hK with rfl | rfl | rfl
    · rw [if_neg hk.2.2.1]
    · rw [if_neg hk.2.2.2.2.2.1]
    · rw [if_neg hk.2.2.2.2.2.2]

theorem metaComment_eq (st : MetaState) (text : Str) :
    metaComment st text = ((Split text '\n').map some ++ [none]).foldl metaEvent st := by
  unfold metaComment
  rw [List.foldl_append, List.foldl_map]
  rfl

theorem foldl_metaComment_eq (list : List Str) :
    ∀ st, list.foldl metaComment st = (groupEvents list).foldl metaEvent st := by
  induction list with
  | nil => intro st; rfl
  | cons a r ih =>
    intro st
    unfold groupEvents
    rw [List.flatMap_cons, List.foldl_append, List.foldl_cons, metaComment_eq, ih]
    rfl

theorem eventLines_groupEvents (list : List Str) :
    eventLines (groupEvents list) = (groupLines list).map (fun l => TrimLeft l '/') := by
  unfold eventLines
  congr 1
  unfold groupEvents groupLines
  induction list with
  | nil => rfl
  | cons a r ih =>
    rw [List.flatMap_cons, List.flatMap_cons, List.filterMap_append, ih]
    congr 1
    rw [List.filterMap_append]
    simp

theorem flushed_metaComment (st : MetaState) (text : Str) (k : Str) :
    mapGet (metaComment st text).finish k = mapGet (metaComment st text).metas k := by
  unfold metaComment
  simp only []
  generalize (Split text '\n').foldl metaLine st = st1
  by_cases hk : st1.key = []
  · simp [hk, MetaState.finish]
  · simp only [ne_eq, hk, not_false_eq_true, if_true, MetaState.finish]
    rw [mapGet_mapSet, mapGet_mapSet]
    by_cases hkk : k = st1.key <;> simp [hkk]

theorem flushed_foldl (list : List Str) :
    ∀ st : MetaState, (∀ k, mapGet st.finish k = mapGet st.metas k) →
      ∀ k, mapGet (list.foldl metaComment st).finish k
        = mapGet (list.foldl metaComment st).metas k := by
  induction list with
  | nil => intro st h; exact h
  | cons a r ih =>
    intro st _
    exact ih (metaComment st a) (flushed_metaComment st a)

theorem lastValue_append (p1 p2 : List (Str × Str)) (k : Str) :
    lastValue (p1 ++ p2) k
      = match lastValue p2 k with
        | some w => some w
        | none => lastValue p1 k := by
  induction p1 with
  | nil =>
    simp only [List.nil_append, lastValue]
    cases lastValue p2 k <;> rfl
  | cons a r ih =>
    obtain ⟨k1, v⟩ := a
    show lastValue ((k1, v) :: (r ++ p2)) k = _
    simp only [lastValue]
    rw [ih]
    cases lastValue p2 k with
    | some w => rfl
    | none => rfl

theorem metaGroup_lookup (metas M : GoMap Str Str) (m : meteParser)
    (h : metaGroup metas m = .ok M) (k : Str) :
    mapGet M k = match lastValue (specMetaPairs (m.Comments.getD [])) k with
      | some w => some w
      | none => mapGet metas k := by
  unfold metaGroup at h
  cases hc : m.Comments with
  | none => simp [hc] at h
  | some list =>
    simp only [hc, Except.ok.injEq] at h
    subst h
    rw [← flushed_foldl list { metas := metas } (fun k => by simp [MetaState.finish]) k,
      foldl_metaComment_eq, events_fold, eventLines_groupEvents]
    simp only [Option.getD_some, specMetaPairs]
    cases lastValue (specMetaScan (List.map (fun l => TrimLeft l '/') (groupLines list))).2 k with
    | some w => rfl
    | none => simp [MetaState.finish]

theorem collectMetas_lookup (metas : List meteParser) :
    ∀ (base M : GoMap Str Str), forEach metaGroup metas base = .ok M → ∀ k,
      mapGet M k = match lastValue
          (metas.flatMap (fun m => specMetaPairs (m.Comments.getD []))) k with
        | some w => some w
        | none => mapGet base k := by
  induction metas with
  | nil =>
    intro base M h k
    simp only [forEach, Except.ok.injEq] at h
    subst h
    rfl
  | cons a r ih =>
    intro base M h k
    simp only [forEach] at h
    cases hg : metaGroup base a with
    | error f => simp [hg] at h
    | ok M1 =>
      simp only [hg] at h
      rw [ih M1 M h k, List.flatMap_cons, lastValue_append, metaGroup_lookup base M1 a hg k]
      cases lastValue (r.flatMap (fun m => specMetaPairs (m.Comments.getD []))) k <;> rfl

theorem nodup_mapSet {κ α : Type} [DecidableEq κ] (m : GoMap κ α) (k : κ) (v : α)
    (h : (mapKeys m).Nodup) : (mapKeys (mapSet m k v)).Nodup := by
  induction m with
  | nil => simp [mapSet, mapKeys]
  | cons a r ih =>
    obtain ⟨ka, va⟩ := a
    simp only [mapKeys, List.map_cons, List.nodup_cons] at h
    simp only [mapSet]
    split
    · rename_i hk
      subst hk
      simp only [mapKeys, List.map_cons, List.nodup_cons]
      exact h
    · rename_i hk
      simp only [mapKeys, List.map_cons, List.nodup_cons]
      refine ⟨?_, ih h.2⟩
      intro hm
      rcases (mem_keys_mapSet r k v ka).mp hm with h1 | h1
      · exact hk h1
      · exact h.1 h1

theorem nodup_metaEvent (st : MetaState) (e : Option Str) (h : (mapKeys st.metas).Nodup) :
    (mapKeys (metaEvent st e).metas).Nodup := by
  cases e with
  | none =>
    unfold metaEvent
    simp only []
    split
    · exact nodup_mapSet _ _ _ h
    · exact h
  | some line =>
    unfold metaEvent metaLine
    simp only []
    split
    · simp only []
      split
      · exact nodup_mapSet _ _ _ h
      · exact h
    · split <;> exact h

theorem nodup_foldl_metaEvent (es : List (Option Str)) :
    ∀ st : MetaState, (mapKeys st.metas).Nodup →
      (mapKeys (es.foldl metaEvent st).metas).Nodup := by
  induction es with
  | nil => intro st h; exact h
  | cons e r ih => intro st h; exact ih _ (nodup_metaEvent st e h)

theorem nodup_collect (metas : List meteParser) :
    ∀ (base M : GoMap Str Str), (mapKeys base).Nodup → forEach metaGroup metas base = .ok M →
      (mapKeys M).Nodup := by
  intro base M hb h
  refine forEach_inv metaGroup (fun m => (mapKeys m).Nodup) metas ?_ base M hb h
  intro s a s1 _ hs hg
  unfold metaGroup at hg
  cases hc : a.Comments with
  | none => simp [hc] at hg
  | some list =>
    simp only [hc, Except.ok.injEq] at hg
    subst hg
    rw [foldl_metaComment_eq]
    exact nodup_foldl_metaEvent _ _ hs

theorem mapGet_of_mem_nodup {κ α : Type} [DecidableEq κ] (m : GoMap κ α) (k : κ) (v : α)
    (hnd : (mapKeys m).Nodup) (h : (k, v) ∈ m) : mapGet m k = some v := by
  induction m with
  | nil => cases h
  | cons a r ih =>
    obtain ⟨ka, va⟩ := a
    simp only [mapKeys, List.map_cons, List.nodup_cons] at hnd
    simp only [mapGet]
    rcases List.mem_cons.mp h with h1 | h1
    · simp only [Prod.mk.injEq] at h1
      simp [h1.1, h1.2]
    · have : ka ≠ k := by
        rintro rfl
        exact hnd.1 (List.mem_map_of_mem Prod.fst h1)
      simp only [this, if_false]
      exact ih hnd.2 h1

theorem foldl_metaAssign_text (lib : Stdlib) (K v : Str)
    (hK : K = "title".toList ∨ K = "version".toList ∨ K = "host".toList
      ∨ K = "basepath".toList) (l : List (Str × Str)) :
    ∀ d0, (∀ kv ∈ l, metaKey lib kv.1 = K → kv.2 = v) →
      metaText (l.foldl (metaAssign lib) d0) K
        = if ∃ kv ∈ l, metaKey lib kv.1 = K then v else metaText d0 K := by
  induction l with
  | nil => intro d0 _; simp
  | cons a r ih =>
    intro d0 h
    rw [List.foldl_cons, ih _ (fun kv hkv => h kv (List.mem_cons_of_mem _ hkv)),
      metaText_metaAssign lib d0 a K hK]
    by_cases h1 : ∃ kv ∈ r, metaKey lib kv.1 = K
    · obtain ⟨kv, hkv, hk⟩ := h1
      rw [if_pos ⟨kv, hkv, hk⟩, if_pos ⟨kv, List.mem_cons_of_mem _ hkv, hk⟩]
    · rw [if_neg h1]
      by_cases h2 : ToLower lib (TrimSpace a.1) = K
      · rw [if_pos h2, if_pos ⟨a, List.mem_cons_self _ _, h2⟩]
        exact h a (List.mem_cons_self _ _) h2
      · rw [if_neg h2, if_neg]
        rintro ⟨kv, hkv, hk⟩
        rcases List.mem_cons.mp hkv with h3 | h3
        · subst h3; exact h2 hk
        · exact h1 ⟨kv, h3, hk⟩

theorem foldl_metaAssign_strings (lib : Stdlib) (K v : Str)
    (hK : K = "schemes".toList ∨ K = "consumes".toList ∨ K = "produces".toList)
    (l : List (Str × Str)) :
    ∀ d0, (∀ kv ∈ l, metaKey lib kv.1 = K → kv.2 = v) →
      metaStrings (l.foldl (metaAssign lib) d0) K
        = if ∃ kv ∈ l, metaKey lib kv.1 = K then metaList v else metaStrings d0 K := by
  induction l with
  | nil => intro d0 _; simp
  | cons a r ih =>
    intro d0 h
    rw [List.foldl_cons, ih _ (fun kv hkv => h kv (List.mem_cons_of_mem _ hkv)),
      metaStrings_metaAssign lib d0 a K hK]
    by_cases h1 : ∃ kv ∈ r, metaKey lib kv.1 = K
    · obtain ⟨kv, hkv, hk⟩ := h1
      rw [if_pos ⟨kv, hkv, hk⟩, if_pos ⟨kv, List.mem_cons_of_mem _ hkv, hk⟩]
    · rw [if_neg h1]
      by_cases h2 : ToLower lib (TrimSpace a.1) = K
      · rw [if_pos h2, if_pos ⟨a, List.mem_cons_self _ _, h2⟩,
          h a (List.mem_cons_self _ _) h2]
      · rw [if_neg h2, if_neg]
        rintro ⟨kv, hkv, hk⟩
        rcases List.mem_cons.mp hkv with h3 | h3
        · subst h3; exact h2 hk
        · exact h1 ⟨kv, h3, hk⟩

theorem buildMeta_field (lib : Stdlib) (ro : RangeOrder) (ctx : scanner) (input d : Swagger)
    (K k v : Str) (hb : buildMeta lib ro ctx input = .ok d)
    (hk : lastValue (specAllPairs ctx.metas) k = some v) (hlow : metaKey lib k = K)
    (huniq : ∀ k1 v1, lastValue (specAllPairs ctx.metas) k1 = some v1 →
      metaKey lib k1 = K → v1 = v) :
    ((K = "title".toList ∨ K = "version".toList ∨ K = "host".toList ∨ K = "basepath".toList) →
        metaText d K = v)
      ∧ ((K = "schemes".toList ∨ K = "consumes".toList ∨ K = "produces".toList) →
        metaStrings d K = (Split v ',').map TrimSpace) := by
  unfold buildMeta at hb
  cases hc : collectMetas ctx.metas with
  | error f => simp [hc] at hb
  | ok M =>
    simp only [hc, Except.ok.injEq] at hb
    subst hb
    have hnd : (mapKeys M).Nodup := nodup_collect ctx.metas [] M List.nodup_nil hc
    have hlook : ∀ k1, mapGet M k1 = lastValue (specAllPairs ctx.metas) k1 := by
      intro k1
      rw [collectMetas_lookup ctx.metas [] M hc k1]
      unfold specAllPairs
      cases lastValue (ctx.metas.flatMap (fun m => specMetaPairs (m.Comments.getD []))) k1 <;> rfl
    have hall : ∀ kv ∈ ro.order M, metaKey lib kv.1 = K → kv.2 = v := by
      intro kv hkv hkk
      have hm : kv ∈ M := (mem_order ro M kv).mp hkv
      have := mapGet_of_mem_nodup M kv.1 kv.2 hnd hm
      rw [hlook] at this
      exact huniq kv.1 kv.2 this hkk
    have hex : ∃ kv ∈ ro.order M, metaKey lib kv.1 = K := by
      have h1 : mapGet M k = some v := by rw [hlook]; exact hk
      exact ⟨(k, v), (mem_order ro M _).mpr (mem_of_mapGet M k v h1), hlow⟩
    constructor
    · intro hK
      rw [foldl_metaAssign_text lib K v hK _ _ hall, if_pos hex]
    · intro hK
      rw [foldl_metaAssign_strings lib K v hK _ _ hall, if_pos hex]
      rfl

theorem toLower_fixed (lib : Stdlib) (s : Str)
    (h : ∀ c ∈ s, c.toNat < 128 ∧ c.toLower = c) : ToLower lib s = s := by
  unfold ToLower
  induction s with
  | nil => rfl
  | cons a r ih =>
    obtain ⟨h1, h2⟩ := h a (List.mem_cons_self _ _)
    rw [List.map_cons, lib.lower_ascii a h1, h2,
      ih (fun c hc => h c (List.mem_cons_of_mem _ hc))]

theorem lastValue_mem (pairs : List (Str × Str)) (k v : Str) (h : lastValue pairs k = some v) :
    (k, v) ∈ pairs := by
  induction pairs with
  | nil => cases h
  | cons a r ih =>
    obtain ⟨k1, v1⟩ := a
    simp only [lastValue] at h
    cases hr : lastValue r k with
    | some w =>
      rw [hr] at h
      simp only [Option.some.injEq] at h
      subst h
      exact List.mem_cons_of_mem _ (ih hr)
    | none =>
      rw [hr] at h
      simp only [] at h
      split at h
      · rename_i hc
        simp only [Option.some.injEq] at h
        subst h
        rw [hc.1]
        exact List.mem_cons_self _ _
      · cases h

theorem foo_keys (lib : Stdlib) (k1 v1 : Str)
    (h : lastValue (specAllPairs fooScanner.metas) k1 = some v1) :
    (k1 = "title".toList ∧ v1 = "Foo".toList ∧ metaKey lib k1 = "title".toList)
      ∨ (k1 = "version".toList ∧ v1 = "1.0".toList ∧ metaKey lib k1 = "version".toList)
      ∨ (k1 = "schemes".toList ∧ v1 = "http, https".toList
          ∧ metaKey lib k1 = "schemes".toList) := by
  have hm := lastValue_mem _ _ _ h
  have hp : specAllPairs fooScanner.metas
      = [("title".toList, "Foo".toList), ("version".toList, "1.0".toList),
        ("schemes".toList, "http, https".toList)] := by decide
  rw [hp] at hm
  have hfix : ∀ s : Str, TrimSpace s = s → (∀ c ∈ s, c.toNat < 128 ∧ c.toLower = c) →
      metaKey lib s = s := by
    intro s h1 h2
    unfold metaKey
    rw [h1]
    exact toLower_fixed lib s h2
  simp only [List.mem_cons, Prod.mk.injEq, List.mem_singleton, List.not_mem_nil,
    or_false] at hm
  rcases hm with ⟨rfl, rfl⟩ | ⟨rfl, rfl⟩ | ⟨rfl, rfl⟩
  · exact Or.inl ⟨rfl, rfl, hfix _ (by decide) (by decide)⟩
  · exact Or.inr (Or.inl ⟨rfl, rfl, hfix _ (by decide) (by decide)⟩)
  · exact Or.inr (Or.inr ⟨rfl, rfl, hfix _ (by decide) (by decide)⟩)

/-- C10, the claim fails as worded. In the package doc comment `// HOST: a.example.com` /
`// host: b.example.com` both keys read as `host`, and the value of the key `host` is
`b.example.com`; a range over the intermediate map that visits `host` first leaves
Host = `a.example.com`. -/
theorem c10_spellings_of_a_key_compete :
    specAllPairs [{ Comments := some twoHostsMeta }]
        = [("HOST".toList, "a.example.com".toList), ("host".toList, "b.example.com".toList)]
      ∧ lastValue (specAllPairs [{ Comments := some twoHostsMeta }]) "host".toList
        = some "b.example.com".toList
      ∧ metaKey Stdlib.ascii "HOST".toList = "host".toList
      ∧ metaKey Stdlib.ascii "host".toList = "host".toList
      ∧ (docOf (buildMeta Stdlib.ascii RangeOrder.reversed
          { metas := [{ Comments := some twoHostsMeta }] } freshDoc)).Host
        = "a.example.com".toList := by
  decide

/-- C10, amended. Read a meta block as the specification says: a line with a colon is a pair of the
trimmed key before the first colon and the trimmed value after it, and a following non-empty
line without a colon is appended to the value after a newline. When the block has a key that
reads, trimmed and in lower case, as one of the recognized keys K, with last value v, and every
key of the block that reads as K has the last value v, then for every range order `buildMeta`
leaves v in Info.Title, Info.Version, Host or BasePath when K is title, version, host or
basepath, and the comma-split, trimmed elements of v in Schemes, Consumes or Produces when K
is schemes, consumes or produces. In particular the block `title: Foo` / `version: 1.0` /
`schemes: http, https` gives Title `Foo`, Version `1.0` and Schemes `http`, `https`. -/
theorem c10_meta_fields (lib : Stdlib) (ro : RangeOrder) (ctx : scanner) (input d : Swagger)
    (K k v : Str) (hb : buildMeta lib ro ctx input = .ok d)
    (hk : lastValue (specAllPairs ctx.metas) k = some v) (hlow : metaKey lib k = K)
    (huniq : ∀ k1 v1, lastValue (specAllPairs ctx.metas) k1 = some v1 →
      metaKey lib k1 = K → v1 = v) :
    (K = "title".toList → (d.Info.getD {}).Title = v)
      ∧ (K = "version".toList → (d.Info.getD {}).Version = v)
      ∧ (K = "host".toList → d.Host = v)
      ∧ (K = "basepath".toList → d.BasePath = v)
      ∧ (K = "schemes".toList → d.Schemes = (Split v ',').map TrimSpace)
      ∧ (K = "consumes".toList → d.Consumes = (Split v ',').map TrimSpace)
      ∧ (K = "produces".toList → d.Produces = (Split v ',').map TrimSpace)
      ∧ (∀ ro1 d1, buildMeta lib ro1 fooScanner freshDoc = .ok d1 →
          (d1.Info.getD {}).Title = "Foo".toList ∧ (d1.Info.getD {}).Version = "1.0".toList
            ∧ d1.Schemes = ["http".toList, "https".toList]) := by
  obtain ⟨ht, hs⟩ := buildMeta_field lib ro ctx input d K k v hb hk hlow huniq
  refine ⟨?_, ?_, ?_, ?_, ?_, ?_, ?_, ?_⟩
  · intro h; subst h; exact ht (Or.inl rfl)
  · intro h; subst h; exact ht (Or.inr (Or.inl rfl))
  · intro h; subst h; exact ht (Or.inr (Or.inr (Or.inl rfl)))
  · intro h; subst h; exact ht (Or.inr (Or.inr (Or.inr rfl)))
  · intro h; subst h; exact hs (Or.inl rfl)
  · intro h; subst h; exact hs (Or.inr (Or.inl rfl))
  · intro h; subst h; exact hs (Or.inr (Or.inr rfl))
  · intro ro1 d1 hb1
    have hfix : ∀ s : Str, TrimSpace s = s → (∀ c ∈ s, c.toNat < 128 ∧ c.toLower = c) →
        metaKey lib s = s := by
      intro s h1 h2
      unfold metaKey
      rw [h1]
      exact toLower_fixed lib s h2
    refine ⟨?_, ?_, ?_⟩
    · refine (buildMeta_field lib ro1 fooScanner freshDoc d1 "title".toList "title".toList
        "Foo".toList hb1 (by decide) (hfix _ (by decide) (by decide)) ?_).1 (Or.inl rfl)
      intro k1 v1 h1 h2
      rcases foo_keys lib k1 v1 h1 with ⟨_, hv, hm⟩ | ⟨_, _, hm⟩ | ⟨_, _, hm⟩
      · exact hv
      · rw [hm] at h2; exact absurd h2 (by decide)
      · rw [hm] at h2; exact absurd h2 (by decide)
    · refine (buildMeta_field lib ro1 fooScanner freshDoc d1 "version".toList "version".toList
        "1.0".toList hb1 (by decide) (hfix _ (by decide) (by decide)) ?_).1
        (Or.inr (Or.inl rfl))
      intro k1 v1 h1 h2
      rcases foo_keys lib k1 v1 h1 with ⟨_, _, hm⟩ | ⟨_, hv, hm⟩ | ⟨_, _, hm⟩
      · rw [hm] at h2; exact absurd h2 (by decide)
      · exact hv
      · rw [hm] at h2; exact absurd h2 (by decide)
    · have := (buildMeta_field lib ro1 fooScanner freshDoc d1 "schemes".toList
        "schemes".toList "http, https".toList hb1 (by decide)
        (hfix _ (by decide) (by decide)) ?_).2 (Or.inl rfl)
      · rw [show d1.Schemes = metaStrings d1 "schemes".toList from rfl, this]
        decide
      · intro k1 v1 h1 h2
        rcases foo_keys lib k1 v1 h1 with ⟨_, _, hm⟩ | ⟨_, _, hm⟩ | ⟨_, hv, hm⟩
        · rw [hm] at h2; exact absurd h2 (by decide)
        · rw [hm] at h2; exact absurd h2 (by decide)
        · exact hv

theorem fooDoc_built :
    buildMeta Stdlib.ascii RangeOrder.stored fooScanner freshDoc = .ok fooDoc := by
  rfl

/-- C10, witness: the block `title: Foo` / `version: 1.0` / `schemes: http, https`, read for
the key `schemes`. -/
theorem c10_meta_fields_witness :
    buildMeta Stdlib.ascii RangeOrder.stored fooScanner freshDoc = .ok fooDoc
      ∧ lastValue (specAllPairs fooScanner.metas) "schemes".toList = some "http, https".toList
      ∧ fooDoc.Schemes = ["http".toList, "https".toList] := by
  have h := c10_meta_fields Stdlib.ascii RangeOrder.stored fooScanner freshDoc fooDoc
    "schemes".toList "schemes".toList "http, https".toList fooDoc_built (by decide) (by decide)
    (by
      intro k1 v1 h1 h2
      rcases foo_keys Stdlib.ascii k1 v1 h1 with ⟨_, _, hm⟩ | ⟨_, _, hm⟩ | ⟨_, hv, hm⟩
      · rw [hm] at h2; exact absurd h2 (by decide)
      · rw [hm] at h2; exact absurd h2 (by decide)
      · exact hv)
  exact ⟨fooDoc_built, by decide, (h.2.2.2.2.1 rfl).trans (by decide)⟩

/-- C11, the code at the failing input. For the meta comment `// Title: A` / `// title: B` the
intermediate map has the two keys `Title` and `title`. A range that visits them as stored
leaves Info.Title = `B`, the last occurrence in the text; a range that visits `title` first
leaves Info.Title = `A`. -/
theorem c11_title_depends_on_range_order :
    (collectMetas [{ Comments := some twoTitlesMeta }])
        = .ok [("Title".toList, "A".toList), ("title".toList, "B".toList)]
      ∧ metaText (docOf (buildMeta Stdlib.ascii RangeOrder.stored
          { metas := [{ Comments := some twoTitlesMeta }] } freshDoc)) "title".toList
        = "B".toList
      ∧ metaText (docOf (buildMeta Stdlib.ascii RangeOrder.reversed
          { metas := [{ Comments := some twoTitlesMeta }] } freshDoc)) "title".toList
        = "A".toList :=
  ⟨rfl, by decide, by decide⟩

/-- C12, the code at the failing input. For the route `getItem` with the description lines
`Gets an item.` and `More.`, one build gives Summary `Gets an item.` and Description `More.`;
a second build from the same registry into the first result keeps the Summary and appends
both lines to the Description. -/
theorem c12_description_grows_on_second_build :
    summaryOf (build Stdlib.ascii RangeOrder.stored exUnderlying 4 describedScanner none)
        = some ("Gets an item.".toList, "More.".toList)
      ∧ summaryOf (build Stdlib.ascii RangeOrder.stored exUnderlying 4 describedScanner
          (some (docOf (build Stdlib.ascii RangeOrder.stored exUnderlying 4 describedScanner
            none))))
        = some ("Gets an item.".toList, "More.\nGets an item.\nMore.".toList) := by
  decide

theorem buildRouteOne_slot (lib : Stdlib) (d d1 : Swagger) (r : routeParser) (m : Method)
    (hm : methodOf (ToUpper lib r.Method) = some m) (h : buildRouteOne lib d r = .ok d1) :
    ∃ op1, (∀ path m1, slotOp d1 path m1
        = if path = r.Path ∧ m1 = m then some op1 else slotOp d path m1)
      ∧ op1.ID = r.ID ∧ op1.Tags = r.Tags
      ∧ (∀ old, slotOp d r.Path m = some old → old.ID = r.ID →
          op1.Parameters = old.Parameters ∧ op1.Responses = old.Responses)
      ∧ ((slotOp d r.Path m = none ∨ ∃ old, slotOp d r.Path m = some old ∧ old.ID ≠ r.ID) →
          op1.Parameters = [] ∧ op1.Responses = {}) := by
  unfold buildRouteOne at h
  cases hrem : r.Remaining with
  | none => simp [hrem] at h
  | some list =>
    simp only [hrem, Except.ok.injEq, hm] at h
    subst h
    obtain ⟨e1, e2, e3⟩ := foldl_routeLine_fields (groupLines list)
      (routeOperation r ((mapGet d.Paths r.Path).getD {}) (some m))
    have hslot : ((mapGet d.Paths r.Path).getD {}).slot m = slotOp d r.Path m := by
      unfold slotOp
      cases hg : mapGet d.Paths r.Path with
      | none => exact slot_empty m
      | some q => rfl
    refine ⟨_, fun path m1 =>
      slotOp_paths_set d r.Path ((mapGet d.Paths r.Path).getD {}) m _ (Or.inl rfl) path m1,
      ?_, rfl, ?_, ?_⟩
    · show (List.foldl routeLine _ _).ID = r.ID
      rw [e3]
      unfold routeOperation
      simp only
      split
      · split
        · rename_i hid; exact hid.symm
        · rfl
      · rfl
    · intro old ho hid
      show (List.foldl routeLine _ _).Parameters = old.Parameters
        ∧ (List.foldl routeLine _ _).Responses = old.Responses
      rw [e1, e2]
      unfold routeOperation
      simp only [hslot, ho]
      rw [if_pos hid.symm]
      exact ⟨rfl, rfl⟩
    · intro hcase
      show (List.foldl routeLine _ _).Parameters = [] ∧ (List.foldl routeLine _ _).Responses = {}
      rw [e1, e2]
      unfold routeOperation
      simp only [hslot]
      rcases hcase with hn | ⟨old, ho, hid⟩
      · rw [hn]; exact ⟨rfl, rfl⟩
      · rw [ho]
        simp only
        rw [if_neg (fun h => hid h.symm)]
        exact ⟨rfl, rfl⟩

/-- C13. One round of `buildRoute` for a route record with a supported method, on any
document, when it returns: if the slot of the path and method holds an operation with the
record's ID, the slot afterwards holds an operation with that ID and the same parameters and
responses; if the slot is empty or holds an operation with another ID, the slot afterwards
holds an operation with the record's ID and no parameters or responses; the operation in every
other slot, of this path and of every other path, is the one it was. -/
theorem c13_route_slot_frame (lib : Stdlib) (d d1 : Swagger) (r : routeParser) (m : Method)
    (hm : methodOf r.Method = some m) (h : buildRouteOne lib d r = .ok d1) :
    (∀ old, slotOp d r.Path m = some old → old.ID = r.ID →
        ∃ op1, slotOp d1 r.Path m = some op1 ∧ op1.ID = old.ID
          ∧ op1.Parameters = old.Parameters ∧ op1.Responses = old.Responses)
      ∧ ((slotOp d r.Path m = none ∨ ∃ old, slotOp d r.Path m = some old ∧ old.ID ≠ r.ID) →
        ∃ op1, slotOp d1 r.Path m = some op1 ∧ op1.ID = r.ID
          ∧ op1.Parameters = [] ∧ op1.Responses = {})
      ∧ (∀ path m1, ¬ (path = r.Path ∧ m1 = m) → slotOp d1 path m1 = slotOp d path m1) := by
  obtain ⟨op1, hupd, hid, _, hsame, hnew⟩ :=
    buildRouteOne_slot lib d d1 r m (methodOf_upper lib r.Method m hm) h
  have hs : slotOp d1 r.Path m = some op1 := by rw [hupd, if_pos ⟨rfl, rfl⟩]
  refine ⟨?_, ?_, ?_⟩
  · intro old ho hoid
    exact ⟨op1, hs, hid.trans hoid.symm, hsame old ho hoid⟩
  · intro hcase
    exact ⟨op1, hs, hid, hnew hcase⟩
  · intro path m1 hne
    rw [hupd, if_neg hne]

/-- C13, witness: the route `getItem` on the fresh document, whose slot is empty. -/
theorem c13_route_slot_frame_witness :
    buildRouteOne Stdlib.ascii freshDoc getItemRoute
        = .ok (docOf (buildRouteOne Stdlib.ascii freshDoc getItemRoute))
      ∧ ∃ op1, slotOp (docOf (buildRouteOne Stdlib.ascii freshDoc getItemRoute))
          getItemRoute.Path .GET = some op1 ∧ op1.ID = getItemRoute.ID
          ∧ op1.Parameters = [] ∧ op1.Responses = {} :=
  ⟨rfl, (c13_route_slot_frame Stdlib.ascii freshDoc
    (docOf (buildRouteOne Stdlib.ascii freshDoc getItemRoute)) getItemRoute .GET rfl rfl).2.1
    (Or.inl rfl)⟩

theorem schemaBasic_none (name : Str) (h : name ∉ specScalarTable.map (fun e => e.1)) :
    schemaBasic name = none := by
  have hne : ∀ s : Str, s ∈ specScalarTable.map (fun e => e.1) → name ≠ s := by
    intro s hs he
    exact h (he ▸ hs)
  unfold schemaBasic
  rw [if_neg (hne _ (by decide)), if_neg (hne _ (by decide))]
  by_cases hc : name = "complex128".toList ∨ name = "complex64".toList
  · rw [if_pos hc]
  rw [if_neg hc]
  rw [if_neg (hne _ (by decide))]
  rw [if_neg (hne _ (by decide))]
  rw [if_neg (hne _ (by decide))]
  rw [if_neg (hne _ (by decide))]
  rw [if_neg (hne _ (by decide))]
  rw [if_neg (hne _ (by decide))]
  rw [if_neg (hne _ (by decide))]
  rw [if_neg (hne _ (by decide))]
  rw [if_neg (hne _ (by decide))]
  rw [if_neg (hne _ (by decide))]
  rw [if_neg (hne _ (by decide))]
  rw [if_neg (hne _ (by decide))]
  rw [if_neg (hne _ (by decide))]
  rw [if_neg (hne _ (by decide))]
  rw [if_neg (hne _ (by decide))]
  rw [if_neg (hne _ (by decide))]

/-- C16, the code at the failing input. The Go type `error` is a named type over an interface,
never a basic type, so the case `error` of the switch on basic types is never reached: on
`error` `buildSchemaFromType` leaves the schema as it was, and the property `Err` of
`type Failure struct { Message string; Err error }` has no type, while `Message` has the type
string. Every other row of the table holds: on a basic type the function returns without a
fault, sets the type and format of the table (bool: boolean; int8 to int64 and uint8 to
uint64: integer with the same name; int: int64; rune: int32; byte: uint8; uint and uintptr:
uint64; float32: float; float64: double; string: string), and for every name outside the
table, complex64 and complex128 among them, leaves the schema as it was, so the fresh schema
stays without a type. -/
theorem c16_error_is_left_untyped (lib : Stdlib) (U : Underlying) (fuel : Nat)
    (decl : declParser) (schema : Schema) :
    ("error".toList, "string".toList, []) ∈ specScalarTable
      ∧ (U errorObj = .Other →
          buildSchemaFromType lib U (fuel + 1) decl (.Named errorObj) schema = .ok schema)
      ∧ propertyShape (buildSchemaFromDecl Stdlib.ascii exUnderlying 4 failureDecl Schema.zero)
          "Err".toList = some ([], [])
      ∧ propertyShape (buildSchemaFromDecl Stdlib.ascii exUnderlying 4 failureDecl Schema.zero)
          "Message".toList = some (["string".toList], [])
      ∧ (∀ e ∈ specScalarTable, e.1 ≠ "error".toList →
        buildSchemaFromType lib U (fuel + 1) decl (.Basic e.1) schema
          = .ok (schema.Typed e.2.1 e.2.2)
        ∧ (schema.Typed e.2.1 e.2.2).Type_ = [e.2.1] ∧ (schema.Typed e.2.1 e.2.2).Format = e.2.2)
      ∧ (∀ name, name ∉ specScalarTable.map (fun e => e.1) →
        buildSchemaFromType lib U (fuel + 1) decl (.Basic name) schema = .ok schema)
      ∧ "complex64".toList ∉ specScalarTable.map (fun e => e.1)
      ∧ "complex128".toList ∉ specScalarTable.map (fun e => e.1)
      ∧ Schema.zero.Type_ = [] ∧ Schema.zero.Format = [] := by
  have htab : ∀ e ∈ specScalarTable, schemaBasic e.1 = some (e.2.1, e.2.2) := by decide
  refine ⟨by decide, ?_, by decide, by decide, ?_, ?_, by decide, by decide, rfl, rfl⟩
  · intro hU
    simp only [buildSchemaFromType, hU]
  · intro e he _
    refine ⟨?_, ?_, ?_⟩
    · simp only [buildSchemaFromType, htab e he]
    · cases schema; rfl
    · cases schema; rfl
  · intro name hn
    simp only [buildSchemaFromType, schemaBasic_none name hn]

theorem forEach_id {α σ : Type} (step : σ → α → Except Fault σ) (l : List α) (s : σ)
    (h : ∀ a ∈ l, step s a = .ok s) : forEach step l s = .ok s := by
  induction l with
  | nil => rfl
  | cons a r ih =>
    simp only [forEach, h a (List.mem_cons_self _ _)]
    exact ih (fun b hb => h b (List.mem_cons_of_mem _ hb))

/-- C18. A round of `buildReq` or of `buildAns` for a declaration whose route ID has no route
record in the registry returns the document it was given, without a fault; and when no
request and no response declaration of the registry has a route record, `buildReq` and
`buildAns` return the document they were given. -/
theorem c18_orphans_are_skipped (lib : Stdlib) (ro : RangeOrder) (U : Underlying) (fuel : Nat)
    (ctx : scanner) (input : Swagger) (decl : declParser)
    (h : mapGet ctx.routes decl.ID = none) :
    buildReqOne lib U fuel ctx input decl = .ok input
      ∧ buildAnsOne lib U fuel ctx input decl = .ok input
      ∧ ((∀ kv ∈ ctx.reqs, mapGet ctx.routes kv.2.ID = none) →
          buildReq lib ro U fuel ctx input = .ok input)
      ∧ ((∀ kv ∈ ctx.anses, mapGet ctx.routes kv.2.ID = none) →
          buildAns lib ro U fuel ctx input = .ok input) := by
  have hreq : ∀ dcl : declParser, mapGet ctx.routes dcl.ID = none →
      buildReqOne lib U fuel ctx input dcl = .ok input := by
    intro dcl hd
    unfold buildReqOne
    rw [hd]
  have hans : ∀ dcl : declParser, mapGet ctx.routes dcl.ID = none →
      buildAnsOne lib U fuel ctx input dcl = .ok input := by
    intro dcl hd
    unfold buildAnsOne
    rw [hd]
  refine ⟨hreq decl h, hans decl h, ?_, ?_⟩
  · intro hall
    unfold buildReq
    exact forEach_id _ _ _ (fun kv hkv => hreq kv.2 (hall kv ((mem_order ro _ kv).mp hkv)))
  · intro hall
    unfold buildAns
    exact forEach_id _ _ _ (fun kv hkv => hans kv.2 (hall kv ((mem_order ro _ kv).mp hkv)))

/-- C18, witness: the declaration documented `// swag:req nowhere` against the registry of the
routes `createItem` and `listItems`. -/
theorem c18_orphans_are_skipped_witness :
    mapGet twoRoutes.routes orphanDecl.ID = none
      ∧ ∃ d, buildReqOne Stdlib.ascii exUnderlying 4 twoRoutes freshDoc orphanDecl = .ok d
        ∧ d.Paths = [] ∧ d.Definitions = [] :=
  ⟨rfl, freshDoc, (c18_orphans_are_skipped Stdlib.ascii RangeOrder.stored exUnderlying 4
    twoRoutes freshDoc orphanDecl rfl).1, rfl, rfl⟩

theorem ite_map_some {c : Prop} [Decidable c] {g : Str × Str → Parameter} {a : Parameter}
    {b : Str × Str} {r1 : Option Parameter} {r2 : Option (Str × Str)}
    (ha : a = g b) (h : r1 = Option.map g r2) :
    (if c then some a else r1) = Option.map g (if c then some b else r2) := by
  by_cases hc : c
  · rw [if_pos hc, if_pos hc, ha]; rfl
  · rw [if_neg hc, if_neg hc, h]

theorem ite_map_none {c : Prop} [Decidable c] {g : Str × Str → Parameter}
    {r1 : Option Parameter} {r2 : Option (Str × Str)} (h : r1 = Option.map g r2) :
    (if c then none else r1) = Option.map g (if c then none else r2) := by
  by_cases hc : c
  · rw [if_pos hc, if_pos hc]; rfl
  · rw [if_neg hc, if_neg hc, h]

theorem queryBasic_eq (name field : Str) :
    queryBasic name field
      = (schemaBasic field).map (fun tf => (QueryParam name).Typed tf.1 tf.2) := by
  unfold queryBasic schemaBasic
  repeat first
    | refine ite_map_some rfl ?_
    | refine ite_map_none ?_
  rfl

theorem queryFields_from (lib : Stdlib) (req : declParser) (all : List (Var × GoType))
    (fields : List (Var × GoType)) (hsub : ∀ x ∈ fields, x ∈ all) :
    ∀ op, (∀ q ∈ op.Parameters, q.In = "query".toList → QueryFrom lib req all q) →
      ∀ q ∈ (queryFields lib req fields op).Parameters, q.In = "query".toList →
        QueryFrom lib req all q := by
  induction fields with
  | nil => intro op h; exact h
  | cons a r ih =>
    intro op h
    obtain ⟨fld, ftype⟩ := a
    have ihr := ih (fun x hx => hsub x (List.mem_cons_of_mem _ hx))
    simp only [queryFields]
    split
    · exact ihr op h
    · split
      · exact ihr op h
      · split
        · exact ihr op h
        · rename_i he hx _ afld hf
          split
          · exact ihr op h
          · rename_i hi
            split
            · rename_i q0 hq0
              apply ihr
              intro q hq hin
              rcases (addParam_extend op (q0.WithDescription afld.CommentText)).2.2.2.2 q hq
                with h1 | h1
              · exact h q h1 hin
              · cases ftype with
                | Basic name =>
                  simp only [queryBasic_eq] at hq0
                  cases hs : schemaBasic name with
                  | none => simp [hs] at hq0
                  | some tf =>
                    simp only [hs, Option.map_some', Option.some.injEq] at hq0
                    refine ⟨fld, name, afld, tf.1, tf.2,
                      hsub _ (List.mem_cons_self _ _),
                      ⟨by simpa using he, by simpa using hx, hf, by simpa using hi⟩, hs, ?_⟩
                    rw [h1, ← hq0]
                    rfl
                | _ => cases hq0
            · exact ihr op h

theorem queryFields_has (lib : Stdlib) (req : declParser) (fields : List (Var × GoType))
    (fld : Var) (name : Str) (afld : AstField) (t f : Str)
    (hm : (fld, GoType.Basic name) ∈ fields) (hk : fieldKept lib req fld afld)
    (hs : schemaBasic name = some (t, f)) :
    ∀ op, ((parseJsonTags lib afld).1, "query".toList)
      ∈ paramKeys (queryFields lib req fields op) := by
  induction fields with
  | nil => cases hm
  | cons a r ih =>
    intro op
    rcases List.mem_cons.mp hm with h1 | h1
    · subst h1
      obtain ⟨he, hx, hf, hi⟩ := hk
      simp only [queryFields, he, hx, hf, hi, queryBasic_eq, hs, Option.map_some',
        Bool.false_eq_true, if_false, Bool.not_true]
      exact (queryFields_extend lib req r _).2.2.1 _ (addParam_key_mem op _)
    · obtain ⟨fld1, ftype1⟩ := a
      simp only [queryFields]
      split
      · exact ih h1 op
      · split
        · exact ih h1 op
        · split
          · exact ih h1 op
          · split
            · exact ih h1 op
            · split
              · exact ih h1 _
              · exact ih h1 op

/-- C17, counterexample. For `type Query Other` bound to the GET route `getItem`, the struct
behind `Query` is the one of `Other`, declared in a second file. Its field `X` is exported, not
embedded, untagged and of the supported kind `int`, but its `*ast.Field` is not found in the
file of the declaration: the operation gets no query parameter. Nor does it for the field
`Err error` of `type ErrQuery struct { Err error }`, found in the file: the type `error` is a
named type, not a basic one. -/
theorem c17_field_of_other_file_has_no_parameter :
    otherFields.map (fun vt => (vt.1.Name, vt.1.Embedded, vt.1.Exported))
        = [("X".toList, false, true)]
      ∧ schemaBasic "int".toList = some ("integer".toList, "int64".toList)
      ∧ (opAt Stdlib.ascii
          (build Stdlib.ascii RangeOrder.stored exUnderlying 4 queryOtherScanner none)
          "/items/{id}".toList "GET".toList).map
          (fun op => op.Parameters.map (fun p => (p.Name, p.In)))
        = some [("id".toList, "path".toList)]
      ∧ fieldAt errQueryDecl.File 71 = some { Names := ["Err".toList] }
      ∧ (opAt Stdlib.ascii
          (build Stdlib.ascii RangeOrder.stored exUnderlying 4 errQueryScanner none)
          "/items/{id}".toList "GET".toList).map
          (fun op => op.Parameters.map (fun p => (p.Name, p.In)))
        = some [("id".toList, "path".toList)] := by
  decide

/-- C17, amended. In a round of `buildReq` for a GET route and a request declaration whose
named type has a struct underneath, none of whose fields has a basic type named `error` (the
Go type `error` is a named type), on an operation without query parameters: every query
parameter afterwards comes from a field that is exported, not embedded, found in the file of
the declaration, not ignored by its json tag and of a basic type of the scalar table; it has
the type and format that `buildSchemaFromType` gives that basic type and the comment of the
field as its description, and its name is the field's serialized name when the field comes
first in its field declaration. Every such field that comes first in its field declaration
has a query parameter under its serialized name. A field of any other type, a named type such
as `error` among them, is the source of no parameter. The two switches agree on every basic
type. -/
theorem c17_query_parameters (lib : Stdlib) (U : Underlying) (fuel : Nat) (ctx : scanner)
    (input : Swagger) (req : declParser) (route : routeParser) (op : Operation)
    (fields : List (Var × GoType))
    (hr : mapGet ctx.routes req.ID = some route) (hg : route.Method = "GET".toList)
    (ho : routerOperator lib input route.Path route.Method = some op)
    (hq : paramsIn op "query".toList = []) (hU : U req.Type_ = .Struct fields)
    (hbasic : ∀ fld name, (fld, GoType.Basic name) ∈ fields → name ≠ "error".toList) :
    ∃ d1 op1, buildReqOne lib U fuel ctx input req = .ok d1
      ∧ routerOperator lib d1 route.Path route.Method = some op1
      ∧ (∀ q ∈ paramsIn op1 "query".toList, ∃ fld name afld t f,
          (fld, GoType.Basic name) ∈ fields ∧ fieldKept lib req fld afld
            ∧ name ≠ "error".toList ∧ (name, t, f) ∈ specScalarTable
            ∧ schemaBasic name = some (t, f)
            ∧ q.Type_ = t ∧ q.Format = f ∧ q.Description = afld.CommentText
            ∧ (afld.Names.head? = some fld.Name → q.Name = serializedName lib fld afld))
      ∧ (∀ fld name afld t f, (fld, GoType.Basic name) ∈ fields → fieldKept lib req fld afld →
          schemaBasic name = some (t, f) → afld.Names.head? = some fld.Name →
          ∃ q ∈ paramsIn op1 "query".toList, q.Name = serializedName lib fld afld)
      ∧ (∀ n name, queryBasic n name
          = (schemaBasic name).map (fun tf => (QueryParam n).Typed tf.1 tf.2)) := by
  have hm : methodOf (ToUpper lib route.Method) = some .GET := by
    rw [hg]
    exact methodOf_upper lib _ .GET rfl
  have hslot : slotOp input route.Path .GET = some op := by
    rw [← routerOperator_of_slot lib input route .GET hm]
    exact ho
  have hbuild : buildReqOne lib U fuel ctx input req
      = .ok (storeOperator lib input route.Path route.Method
          (queryFields lib req fields (pathParams op route.Path))) := by
    unfold buildReqOne
    simp only [hr, ho, hU]
    rw [if_pos hg]
  refine ⟨_, queryFields lib req fields (pathParams op route.Path), hbuild, ?_, ?_, ?_,
    fun n name => queryBasic_eq n name⟩
  · rw [routerOperator_of_slot lib _ route .GET hm,
      slotOp_storeOperator lib input _ _ .GET op _ hm hslot, if_pos ⟨rfl, rfl⟩]
  · intro q hqm
    obtain ⟨hq1, hq2⟩ := (mem_paramsIn _ _ q).mp hqm
    have hnoq : ∀ q ∈ (pathParams op route.Path).Parameters, q.In = "query".toList →
        QueryFrom lib req fields q := by
      intro q1 hq3 hin
      exfalso
      rcases (pathParams_extend op route.Path).1.2.2.2.2 q1 hq3 with h1 | ⟨n, _, h1⟩
      · have : q1 ∈ paramsIn op "query".toList := (mem_paramsIn _ _ q1).mpr ⟨h1, hin⟩
        rw [hq] at this
        cases this
      · rw [h1] at hin
        have hb : ("path".toList : Str) = "query".toList := hin
        exact absurd hb (by decide)
    obtain ⟨fld, name, afld, t, f, h1, h2, h3, h4⟩ :=
      queryFields_from lib req fields fields (fun _ hx => hx) _ hnoq q hq1 hq2
    have htab : (name, t, f) ∈ specScalarTable := by
      by_contra hc
      have hn : name ∉ specScalarTable.map (fun e => e.1) := by
        intro hmem
        obtain ⟨e, he, hen⟩ := List.mem_map.mp hmem
        have hrow : ∀ e ∈ specScalarTable, schemaBasic e.1 = some (e.2.1, e.2.2) := by decide
        have := hrow e he
        rw [hen, h3] at this
        simp only [Option.some.injEq, Prod.mk.injEq] at this
        apply hc
        rw [← hen, this.1, this.2]
        exact he
      rw [schemaBasic_none name hn] at h3
      cases h3
    refine ⟨fld, name, afld, t, f, h1, h2, hbasic fld name h1, htab, h3, by rw [h4]; rfl,
      by rw [h4]; rfl, by rw [h4]; rfl, fun hf => ?_⟩
    rw [h4, ← serialized_of_first lib fld afld hf h2.2.2.2]
    rfl
  · intro fld name afld t f h1 h2 h3 hf
    obtain ⟨q, hq1, hq2⟩ := mem_paramKeys _ _
      (queryFields_has lib req fields fld name afld t f h1 h2 h3 (pathParams op route.Path))
    simp only [paramKey, Prod.mk.injEq] at hq2
    exact ⟨q, (mem_paramsIn _ _ q).mpr ⟨hq1, hq2.2⟩,
      hq2.1.trans (serialized_of_first lib fld afld hf h2.2.2.2)⟩

/-- C17, witness: the round for `type ItemQuery struct { Verbose bool }` and the route
`getItem GET /items/{id}`, after the route step. -/
theorem c17_query_parameters_witness :
    routerOperator Stdlib.ascii getItemRouted getItemRoute.Path getItemRoute.Method
        = some getItemRoutedOp
      ∧ ∃ d1 op1, buildReqOne Stdlib.ascii exUnderlying 4 getItemScanner getItemRouted
            getItemReq = .ok d1
        ∧ routerOperator Stdlib.ascii d1 getItemRoute.Path getItemRoute.Method = some op1
        ∧ ∃ q ∈ paramsIn op1 "query".toList, q.Name = "Verbose".toList := by
  have h := c17_query_parameters Stdlib.ascii exUnderlying 4 getItemScanner getItemRouted
    getItemReq getItemRoute getItemRoutedOp
    [(⟨"Verbose".toList, false, true, 51⟩, .Basic "bool".toList)] rfl rfl rfl rfl rfl
    (by
      intro fld name hm he
      simp only [List.mem_singleton, Prod.mk.injEq, GoType.Basic.injEq] at hm
      have hb : ("bool".toList : Str) = "error".toList := hm.2.symm.trans he
      exact absurd hb (by decide))
  obtain ⟨d1, op1, h1, h2, _, h4, _⟩ := h
  exact ⟨rfl, d1, op1, h1, h2,
    h4 ⟨"Verbose".toList, false, true, 51⟩ "bool".toList { Names := ["Verbose".toList] }
      "boolean".toList [] (List.mem_cons_self _ _) ⟨rfl, rfl, rfl, rfl⟩ rfl rfl⟩

/-- C20, the code at the failing input. For the comment block that is the one line
`// swag:route getItem GET /items/{id} items`, `parseRoute` returns a record with Method `GET`
and a nil `Remaining`; the scan registers that record under `getItem`, and `buildRoute` faults
on it with a nil dereference, as does build, from the fresh document. -/
theorem c20_directive_alone_faults :
    parseRoute Stdlib.ascii ["// swag:route getItem GET /items/{id} items".toList]
        = { ID := "getItem".toList, Method := "GET".toList, Path := "/items/{id}".toList,
            Tags := ["items".toList], Remaining := none }
      ∧ directiveOnlyScanner.routes
        = [("getItem".toList,
            parseRoute Stdlib.ascii ["// swag:route getItem GET /items/{id} items".toList])]
      ∧ buildRoute Stdlib.ascii RangeOrder.stored directiveOnlyScanner freshDoc
        = .error .nilDeref
      ∧ build Stdlib.ascii RangeOrder.stored exUnderlying 8 directiveOnlyScanner none
        = .error .nilDeref := by
  refine ⟨by decide, by decide, rfl, rfl⟩

theorem passes_refl (gs : List Nat) (st : MatchState) : Passes gs st st :=
  ⟨Nat.le_refl _, fun _ _ => rfl⟩

theorem passes_trans {gs1 gs2 gs : List Nat} {a b c : MatchState}
    (h1 : Passes gs1 a b) (h2 : Passes gs2 b c)
    (s1 : ∀ i, i ∈ gs1 → i ∈ gs) (s2 : ∀ i, i ∈ gs2 → i ∈ gs) : Passes gs a c :=
  ⟨Nat.le_trans h2.1 h1.1, fun i hi => by
    rw [h2.2 i (fun h => hi (s2 i h)), h1.2 i (fun h => hi (s1 i h))]⟩

theorem repeatGreedy_some
    (body : MatchState → (MatchState → Option MatchState) → Option MatchState) (gs : List Nat)
    (hb : ∀ st k res, body st k = some res → ∃ st1, k st1 = some res ∧ Passes gs st st1) :
    ∀ (n : Nat) (st : MatchState) (k : MatchState → Option MatchState) (res : MatchState),
      repeatGreedy body n st k = some res → ∃ st1, k st1 = some res ∧ Passes gs st st1 := by
  intro n
  induction n with
  | zero =>
    intro st k res h
    exact ⟨st, h, passes_refl _ _⟩
  | succ n ih =>
    intro st k res h
    unfold repeatGreedy at h
    cases hbody : body st (fun st1 =>
        if st1.rest.length < st.rest.length then repeatGreedy body n st1 k else none) with
    | some r =>
      rw [hbody] at h
      have hr : r = res := by simpa using h
      subst hr
      obtain ⟨st1, hk, hp⟩ := hb st _ r hbody
      by_cases hc : st1.rest.length < st.rest.length
      · rw [if_pos hc] at hk
        obtain ⟨st2, hk2, hp2⟩ := ih st1 k r hk
        exact ⟨st2, hk2, passes_trans hp hp2 (fun _ h => h) (fun _ h => h)⟩
      · rw [if_neg hc] at hk
        cases hk
    | none =>
      rw [hbody] at h
      exact ⟨st, h, passes_refl _ _⟩

theorem run_some (r : Regex) :
    ∀ (st : MatchState) (k : MatchState → Option MatchState) (res : MatchState),
      r.run st k = some res → ∃ st1, k st1 = some res ∧ Passes r.groups st st1 := by
  induction r with
  | cls p =>
    intro st k res h
    simp only [Regex.run] at h
    split at h
    · cases h
    · rename_i c r hrest
      by_cases hp : p c = true
      · rw [if_pos hp] at h
        exact ⟨_, h, by simp [hrest], fun _ _ => rfl⟩
      · rw [if_neg hp] at h
        cases h
  | eps =>
    intro st k res h
    exact ⟨st, h, passes_refl _ _⟩
  | seq a b iha ihb =>
    intro st k res h
    simp only [Regex.run] at h
    obtain ⟨st1, h1, p1⟩ := iha st _ res h
    obtain ⟨st2, h2, p2⟩ := ihb st1 k res h1
    exact ⟨st2, h2, passes_trans p1 p2 (fun i hi => List.mem_append_left _ hi)
      (fun i hi => List.mem_append_right _ hi)⟩
  | star r ih =>
    intro st k res h
    simp only [Regex.run] at h
    exact repeatGreedy_some r.run r.groups ih _ st k res h
  | plus r ih =>
    intro st k res h
    simp only [Regex.run] at h
    obtain ⟨st1, h1, p1⟩ := ih st _ res h
    obtain ⟨st2, h2, p2⟩ := repeatGreedy_some r.run r.groups ih _ st1 k res h1
    exact ⟨st2, h2, passes_trans p1 p2 (fun _ h => h) (fun _ h => h)⟩
  | opt r ih =>
    intro st k res h
    simp only [Regex.run] at h
    cases hr : r.run st k with
    | some r1 =>
      rw [hr] at h
      have : r1 = res := by simpa using h
      subst this
      exact ih st k r1 hr
    | none =>
      rw [hr] at h
      exact ⟨st, h, passes_refl _ _⟩
  | group i r ih =>
    intro st k res h
    simp only [Regex.run] at h
    obtain ⟨st1, h1, p1⟩ := ih st _ res h
    refine ⟨_, h1, p1.1, ?_⟩
    intro j hj
    have hji : j ≠ i := fun e => hj (by rw [e]; exact List.mem_cons_self _ _)
    have hjr : j ∉ r.groups := fun e => hj (List.mem_cons_of_mem _ e)
    show mapGet (mapSet st1.caps i _) j = _
    rw [mapGet_mapSet, if_neg hji]
    exact p1.2 j hjr
  | bol =>
    intro st k res h
    simp only [Regex.run] at h
    by_cases hp : st.pos = 0
    · rw [if_pos hp] at h; exact ⟨st, h, passes_refl _ _⟩
    · rw [if_neg hp] at h; cases h
  | eol =>
    intro st k res h
    simp only [Regex.run] at h
    by_cases hp : st.rest = []
    · rw [if_pos hp] at h; exact ⟨st, h, passes_refl _ _⟩
    · rw [if_neg hp] at h; cases h

theorem findFrom_some (re : Regex) (s : Str) :
    ∀ (pos : Nat) (res : MatchState), re.findFrom pos s = some res →
      ∃ st, re.run st some = some res := by
  induction s with
  | nil =>
    intro pos res h
    exact ⟨_, h⟩
  | cons c r ih =>
    intro pos res h
    simp only [Regex.findFrom] at h
    cases hr : re.run { pos := pos, rest := c :: r } some with
    | some r1 =>
      rw [hr] at h
      have : r1 = res := by simpa using h
      subst this
      exact ⟨_, hr⟩
    | none =>
      rw [hr] at h
      exact ih _ _ h

theorem run_seq_some (a b : Regex) (st : MatchState) (k : MatchState → Option MatchState)
    (res : MatchState) (h : (Regex.seq a b).run st k = some res) :
    ∃ st1, b.run st1 k = some res ∧ Passes a.groups st st1 :=
  run_some a st (fun st1 => b.run st1 k) res h

theorem plus_cls_some (p : Char → Bool) (st : MatchState)
    (k : MatchState → Option MatchState) (res : MatchState)
    (h : (Regex.plus (.cls p)).run st k = some res) :
    ∃ st1, k st1 = some res ∧ st1.rest.length < st.rest.length := by
  have h1 : (Regex.cls p).run st
      (fun st1 => repeatGreedy (Regex.cls p).run st1.rest.length st1 k) = some res := h
  simp only [Regex.run] at h1
  split at h1
  · cases h1
  rename_i c r hrest
  by_cases hp : p c = true
  swap
  · rw [if_neg hp] at h1; cases h1
  rw [if_pos hp] at h1
  obtain ⟨st5, h5, p5⟩ :=
    repeatGreedy_some (Regex.cls p).run [] (run_some (.cls p)) _ _ _ res h1
  refine ⟨st5, h5, ?_⟩
  have hl : st5.rest.length ≤ r.length := p5.1
  rw [hrest, List.length_cons]
  omega

theorem rxRoute_method (lib : Stdlib) (st res : MatchState)
    (h : (rxRoute lib).run st some = some res) :
    ∃ t, mapGet res.caps 2 = some t ∧ t ≠ [] := by
  unfold rxRoute at h
  obtain ⟨st1, h1, _⟩ := run_seq_some _ _ st _ res h
  obtain ⟨st2, h2, _⟩ := run_seq_some _ _ st1 _ res h1
  obtain ⟨st3, h3, _⟩ := run_seq_some _ _ st2 _ res h2
  obtain ⟨st4, h4, _⟩ := run_seq_some _ _ st3 _ res h3
  have h4a : (Regex.plus (.cls lib.L)).run st4 (fun s1 =>
      (rxRouteTail lib).run { s1 with caps :=
        (mapSet s1.caps 2 (st4.rest.take (st4.rest.length - s1.rest.length))) } some)
      = some res := h4
  obtain ⟨st5, h5, hlt⟩ := plus_cls_some _ _ _ res h4a
  obtain ⟨st6, h6, p6⟩ := run_some (rxRouteTail lib) _ _ res h5
  have e6 : st6 = res := by simpa using h6
  subst e6
  refine ⟨st4.rest.take (st4.rest.length - st5.rest.length), ?_, ?_⟩
  · have hg : (rxRouteTail lib).groups = [3, 4] := rfl
    rw [p6.2 2 (by rw [hg]; decide)]
    show mapGet (mapSet st5.caps 2 _) 2 = _
    rw [mapGet_mapSet, if_pos rfl]
  · intro he
    have := congrArg List.length he
    simp only [List.length_take, List.length_nil] at this
    omega

theorem find4_some (re : Regex) (s : Str) (caps : List Str)
    (h : re.FindStringSubmatch 4 s = some caps) : ∃ a b c d, caps = [a, b, c, d] := by
  unfold Regex.FindStringSubmatch at h
  cases hf : re.findFrom 0 s with
  | none => rw [hf] at h; cases h
  | some st =>
    rw [hf] at h
    simp only [Option.map_some', Option.some.injEq] at h
    exact ⟨_, _, _, _, h.symm⟩

theorem rxRoute_find (lib : Stdlib) (s : Str) (caps : List Str)
    (h : (rxRoute lib).FindStringSubmatch 4 s = some caps) :
    ∃ a b c d, caps = [a, b, c, d] ∧ b ≠ [] := by
  unfold Regex.FindStringSubmatch at h
  cases hf : (rxRoute lib).findFrom 0 s with
  | none => rw [hf] at h; cases h
  | some st =>
    rw [hf] at h
    simp only [Option.map_some', Option.some.injEq] at h
    obtain ⟨st0, hrun⟩ := findFrom_some _ _ _ _ hf
    obtain ⟨t, ht, hne⟩ := rxRoute_method lib st0 st hrun
    refine ⟨_, _, _, _, h.symm, ?_⟩
    show (mapGet st.caps (1 + 1)).getD [] ≠ []
    rw [ht]
    exact hne

theorem parseRouteLine_match (lib : Stdlib) (st : RouteState) (line id method path tags : Str)
    (h : (rxRoute lib).FindStringSubmatch 4 line = some [id, method, path, tags]) :
    parseRouteLine lib st line
      = { route := { st.route with
            ID := id, Method := ToUpper lib method, Path := path,
            Tags := if tags = [] then [] else rxSpaceSplit lib tags },
          justMatched := true } := by
  unfold parseRouteLine
  rw [h]
  by_cases ht : tags = []
  · subst ht; rfl
  · have hl : ¬ tags.length = 0 := fun e => ht (List.length_eq_zero.mp e)
    simp only [ht, hl, if_false]

theorem parseRouteLine_idle (lib : Stdlib) (st : RouteState) (line : Str)
    (h : (rxRoute lib).FindStringSubmatch 4 line = none) (hm : st.route.Method = []) :
    parseRouteLine lib st line = st := by
  unfold parseRouteLine
  rw [h]
  simp only [hm, ne_eq, not_true_eq_false, if_false]

theorem parseRouteLine_drop (lib : Stdlib) (st : RouteState) (line : Str)
    (h : (rxRoute lib).FindStringSubmatch 4 line = none) (hm : st.route.Method ≠ [])
    (hj : st.justMatched = true)
    (hb : TrimSpace ((rxStripComments lib).ReplaceAllString line) = []) :
    parseRouteLine lib st line
      = { st with route := { st.route with Remaining := some (st.route.Remaining.getD []) } } := by
  unfold parseRouteLine
  rw [h]
  obtain ⟨⟨id, m, p, t, rem⟩, jm⟩ := st
  simp only at hm hj
  subst hj
  cases rem <;> simp [hm, hb]

theorem parseRouteLine_keep (lib : Stdlib) (st : RouteState) (line : Str)
    (h : (rxRoute lib).FindStringSubmatch 4 line = none) (hm : st.route.Method ≠ [])
    (hk : st.justMatched = false
      ∨ TrimSpace ((rxStripComments lib).ReplaceAllString line) ≠ []) :
    parseRouteLine lib st line
      = { route := { st.route with Remaining := some (st.route.Remaining.getD [] ++ [line]) },
          justMatched := false } := by
  unfold parseRouteLine
  rw [h]
  obtain ⟨⟨id, m, p, t, rem⟩, jm⟩ := st
  simp only at hm hk
  cases rem <;> simp [hm, hk]

theorem foldl_idle (lib : Stdlib) (pre : List Str)
    (hpre : ∀ l ∈ pre, (rxRoute lib).FindStringSubmatch 4 l = none) :
    ∀ st : RouteState, st.route.Method = [] → pre.foldl (parseRouteLine lib) st = st := by
  induction pre with
  | nil => intro st _; rfl
  | cons a r ih =>
    intro st hm
    rw [List.foldl_cons, parseRouteLine_idle lib st a (hpre a (List.mem_cons_self _ _)) hm]
    exact ih (fun l hl => hpre l (List.mem_cons_of_mem _ hl)) st hm

theorem foldl_drop (lib : Stdlib) (blanks : List Str)
    (hb : ∀ l ∈ blanks, (rxRoute lib).FindStringSubmatch 4 l = none
      ∧ TrimSpace ((rxStripComments lib).ReplaceAllString l) = []) :
    ∀ st : RouteState, st.route.Method ≠ [] → st.justMatched = true →
      blanks.foldl (parseRouteLine lib) st
        = { st with route := { st.route with
              Remaining := if blanks = [] then st.route.Remaining
                else some (st.route.Remaining.getD []) } } := by
  induction blanks with
  | nil => intro st _ _; rfl
  | cons a r ih =>
    intro st hm hj
    obtain ⟨h1, h2⟩ := hb a (List.mem_cons_self _ _)
    rw [List.foldl_cons, parseRouteLine_drop lib st a h1 hm hj h2,
      ih (fun l hl => hb l (List.mem_cons_of_mem _ hl))
        { st with route := { st.route with Remaining := some (st.route.Remaining.getD []) } }
        hm hj]
    by_cases hr : r = []
    · simp [hr]
    · simp [hr]

theorem foldl_keep (lib : Stdlib) (rest : List Str)
    (hr : ∀ l ∈ rest, (rxRoute lib).FindStringSubmatch 4 l = none) :
    ∀ (st : RouteState) (acc : List Str), st.route.Method ≠ [] → st.justMatched = false →
      st.route.Remaining = some acc →
      rest.foldl (parseRouteLine lib) st
        = { st with route := { st.route with Remaining := some (acc ++ rest) } } := by
  induction rest with
  | nil =>
    intro st acc _ _ hrem
    obtain ⟨⟨id, m, p, t, rem⟩, jm⟩ := st
    simp only at hrem
    simp [hrem]
  | cons a r ih =>
    intro st acc hm hj hrem
    rw [List.foldl_cons, parseRouteLine_keep lib st a (hr a (List.mem_cons_self _ _)) hm
      (Or.inl hj),
      ih (fun l hl => hr l (List.mem_cons_of_mem _ hl))
        { route := { st.route with Remaining := some (st.route.Remaining.getD [] ++ [a]) },
          justMatched := false }
        (acc ++ [a]) hm rfl (by simp [hrem])]
    obtain ⟨⟨id, m, p, t, rem⟩, jm⟩ := st
    simp only at hj
    simp [hj]

theorem toUpper_ne_nil (lib : Stdlib) (s : Str) (h : s ≠ []) : ToUpper lib s ≠ [] := by
  unfold ToUpper
  cases s with
  | nil => exact absurd rfl h
  | cons a r => simp

/-- C15, the claim fails as worded. In the block of the directive
`// swag:route getItem GET /items/{id} items` followed by `//`, `// Returns an item.`, `//` and
`// More.`, both lines `//` match no directive and are empty after stripping; the one right
after the directive is dropped, and the one after the first description line is kept. -/
theorem c15_blank_after_match_is_dropped :
    (rxRoute Stdlib.ascii).FindStringSubmatch 4 "//".toList = none
      ∧ TrimSpace ((rxStripComments Stdlib.ascii).ReplaceAllString "//".toList) = []
      ∧ (parseRoute Stdlib.ascii
          ["// swag:route getItem GET /items/{id} items".toList, "//".toList,
            "// Returns an item.".toList, "//".toList, "// More.".toList]).Remaining
        = some ["// Returns an item.".toList, "//".toList, "// More.".toList] := by
  decide

/-- C15, amended. In a comment block whose lines are `pre`, a line `d` that matches the route
grammar, the lines `blanks` and the lines `post`, where no line but `d` matches, every line of
`blanks` is empty after stripping and the first line of `post`, if there is one, is not: the
lines of `blanks`, which come right after the match, are dropped, and every line of `post` is
kept, blank or not. `Remaining` is nil when nothing follows `d`. -/
theorem c15_blank_lines_after_match (lib : Stdlib) (block pre blanks post : List Str) (d : Str)
    (caps : List Str)
    (hlines : groupLines block = pre ++ d :: (blanks ++ post))
    (hpre : ∀ l ∈ pre, (rxRoute lib).FindStringSubmatch 4 l = none)
    (hd : (rxRoute lib).FindStringSubmatch 4 d = some caps)
    (hblanks : ∀ l ∈ blanks, (rxRoute lib).FindStringSubmatch 4 l = none
      ∧ TrimSpace ((rxStripComments lib).ReplaceAllString l) = [])
    (hpost : ∀ l ∈ post, (rxRoute lib).FindStringSubmatch 4 l = none)
    (hfirst : ∀ l, post.head? = some l →
      TrimSpace ((rxStripComments lib).ReplaceAllString l) ≠ []) :
    (parseRoute lib block).Remaining
      = if blanks = [] ∧ post = [] then none else some post := by
  obtain ⟨id, method, path, tags, hc, hne⟩ := rxRoute_find lib d caps hd
  subst hc
  unfold parseRoute
  rw [hlines, List.foldl_append, List.foldl_cons, List.foldl_append,
    foldl_idle lib pre hpre {} rfl, parseRouteLine_match lib {} d id method path tags hd,
    foldl_drop lib blanks hblanks _ (toUpper_ne_nil lib method hne) rfl]
  cases post with
  | nil =>
    by_cases hb : blanks = []
    · simp [hb]
    · simp [hb]
  | cons l rest =>
    rw [List.foldl_cons, parseRouteLine_keep lib _ l (hpost l (List.mem_cons_self _ _))
      (toUpper_ne_nil lib method hne) (Or.inr (hfirst l rfl)),
      foldl_keep lib rest (fun x hx => hpost x (List.mem_cons_of_mem _ hx)) _ [l]
        (toUpper_ne_nil lib method hne) rfl
        (by by_cases hb : blanks = [] <;> simp [hb])]
    simp

theorem c15_blank_lines_after_match_witness :
    (parseRoute Stdlib.ascii
        ["// getItem returns an item.".toList,
          "// swag:route getItem GET /items/{id} items".toList, "//".toList, "//".toList,
          "// It is looked up by id.".toList, "//".toList]).Remaining
      = some ["// It is looked up by id.".toList, "//".toList] :=
  (c15_blank_lines_after_match Stdlib.ascii
    ["// getItem returns an item.".toList,
      "// swag:route getItem GET /items/{id} items".toList, "//".toList, "//".toList,
      "// It is looked up by id.".toList, "//".toList]
    ["// getItem returns an item.".toList] ["//".toList, "//".toList]
    ["// It is looked up by id.".toList, "//".toList]
    "// swag:route getItem GET /items/{id} items".toList
    ["getItem".toList, "GET".toList, "/items/{id}".toList, "items".toList]
    (by decide) (by decide) (by decide) (by decide) (by decide) (by decide)).trans
    (by decide)

theorem order_nil (ro : RangeOrder) {κ α : Type} : ro.order ([] : GoMap κ α) = [] :=
  List.Perm.eq_nil (ro.perm [])

theorem order_singleton (ro : RangeOrder) {κ α : Type} (x : κ × α) : ro.order [x] = [x] :=
  List.perm_singleton.mp (ro.perm [x])

theorem parseRouteLine_nomatch (lib : Stdlib) (st : RouteState) (line : Str)
    (h : (rxRoute lib).FindStringSubmatch 4 line = none) :
    (parseRouteLine lib st line).route.ID = st.route.ID
      ∧ (parseRouteLine lib st line).route.Method = st.route.Method
      ∧ (parseRouteLine lib st line).route.Path = st.route.Path
      ∧ (parseRouteLine lib st line).route.Tags = st.route.Tags
      ∧ (st.route.Method ≠ [] → (parseRouteLine lib st line).route.Remaining ≠ none)
      ∧ (st.route.Remaining ≠ none → (parseRouteLine lib st line).route.Remaining ≠ none) := by
  by_cases hm : st.route.Method = []
  · rw [parseRouteLine_idle lib st line h hm]
    exact ⟨rfl, rfl, rfl, rfl, fun c => absurd hm c, fun c => c⟩
  · by_cases hk : st.justMatched = false
        ∨ TrimSpace ((rxStripComments lib).ReplaceAllString line) ≠ []
    · rw [parseRouteLine_keep lib st line h hm hk]
      exact ⟨rfl, rfl, rfl, rfl, fun _ => by simp, fun _ => by simp⟩
    · have hj : st.justMatched = true := by
        cases hjm : st.justMatched with
        | true => rfl
        | false => exact absurd (Or.inl hjm) hk
      have hb : TrimSpace ((rxStripComments lib).ReplaceAllString line) = [] := by
        by_contra c
        exact hk (Or.inr c)
      rw [parseRouteLine_drop lib st line h hm hj hb]
      exact ⟨rfl, rfl, rfl, rfl, fun _ => by simp, fun _ => by simp⟩

theorem foldl_nomatch (lib : Stdlib) (post : List Str)
    (hpost : ∀ l ∈ post, (rxRoute lib).FindStringSubmatch 4 l = none) :
    ∀ st : RouteState,
      (post.foldl (parseRouteLine lib) st).route.ID = st.route.ID
      ∧ (post.foldl (parseRouteLine lib) st).route.Method = st.route.Method
      ∧ (post.foldl (parseRouteLine lib) st).route.Path = st.route.Path
      ∧ (post.foldl (parseRouteLine lib) st).route.Tags = st.route.Tags
      ∧ (st.route.Method ≠ [] → post ≠ [] →
          (post.foldl (parseRouteLine lib) st).route.Remaining ≠ none)
      ∧ (st.route.Remaining ≠ none →
          (post.foldl (parseRouteLine lib) st).route.Remaining ≠ none) := by
  induction post with
  | nil => intro st; exact ⟨rfl, rfl, rfl, rfl, fun _ c => absurd rfl c, fun c => c⟩
  | cons a r ih =>
    intro st
    obtain ⟨e1, e2, e3, e4, e5, e6⟩ :=
      parseRouteLine_nomatch lib st a (hpost a (List.mem_cons_self _ _))
    obtain ⟨f1, f2, f3, f4, _, f6⟩ :=
      ih (fun l hl => hpost l (List.mem_cons_of_mem _ hl)) (parseRouteLine lib st a)
    rw [List.foldl_cons]
    exact ⟨f1.trans e1, f2.trans e2, f3.trans e3, f4.trans e4, fun hm _ => f6 (e5 hm),
      fun hr => f6 (e6 hr)⟩

theorem parseRoute_fields (lib : Stdlib) (block pre post : List Str)
    (d id method path tags : Str)
    (hlines : groupLines block = pre ++ d :: post)
    (hpre : ∀ l ∈ pre, (rxRoute lib).FindStringSubmatch 4 l = none)
    (hd : (rxRoute lib).FindStringSubmatch 4 d = some [id, method, path, tags])
    (hpost : ∀ l ∈ post, (rxRoute lib).FindStringSubmatch 4 l = none) :
    (parseRoute lib block).ID = id
      ∧ (parseRoute lib block).Method = ToUpper lib method
      ∧ (parseRoute lib block).Path = path
      ∧ (parseRoute lib block).Tags = (if tags = [] then [] else rxSpaceSplit lib tags)
      ∧ (post ≠ [] → (parseRoute lib block).Remaining ≠ none) := by
  obtain ⟨_, _, _, _, hc, hne⟩ := rxRoute_find lib d _ hd
  simp only [List.cons.injEq, and_true] at hc
  obtain ⟨_, hb, _, _⟩ := hc
  subst hb
  unfold parseRoute
  rw [hlines, List.foldl_append, List.foldl_cons, foldl_idle lib pre hpre {} rfl,
    parseRouteLine_match lib {} d id method path tags hd]
  obtain ⟨f1, f2, f3, f4, f5, _⟩ := foldl_nomatch lib post hpost
    { route := { ({} : routeParser) with
        ID := id, Method := ToUpper lib method, Path := path,
        Tags := if tags = [] then [] else rxSpaceSplit lib tags },
      justMatched := true }
  exact ⟨f1, f2, f3, f4, fun hp => f5 (toUpper_ne_nil lib method hne) hp⟩

theorem build_one_route (lib : Stdlib) (ro : RangeOrder) (U : Underlying) (fuel : Nat)
    (r : routeParser) (m : Method) (hm : methodOf r.Method = some m)
    (hr : r.Remaining ≠ none) :
    ∃ doc op, build lib ro U fuel { routes := [(r.ID, r)] } none = .ok doc
      ∧ slotOp doc r.Path m = some op ∧ op.ID = r.ID ∧ op.Tags = r.Tags := by
  cases hrem : r.Remaining with
  | none => exact absurd hrem hr
  | some list =>
    have hone : ∃ d1, buildRouteOne lib { freshDoc with Info := some {} } r = .ok d1 := by
      unfold buildRouteOne
      rw [hrem]
      exact ⟨_, rfl⟩
    obtain ⟨d1, hd1⟩ := hone
    obtain ⟨op1, hslot, hid, htags, _⟩ :=
      buildRouteOne_slot lib _ d1 r m (methodOf_upper lib _ m hm) hd1
    refine ⟨d1, op1, ?_, ?_, hid, htags⟩
    · unfold build buildMeta collectMetas buildRoute buildReq buildAns
      simp only [forEach, order_nil, order_singleton, List.foldl_nil, Option.getD_none]
      have e : (freshDoc.Info.getD {}) = ({} : Info) := rfl
      rw [e, hd1]
    · rw [hslot, if_pos ⟨rfl, rfl⟩]

theorem method_name_ne_nil (m : Method) : m.name ≠ [] := by
  cases m <;> decide

/-- C14, the claim fails as worded. The line `// swag:route traceItem TRACE /items items`
matches the route grammar with the method `TRACE`, and `parseRoute` returns the record of it;
build, from a fresh document, returns a document whose one path `/items` has no operation
under any method. -/
theorem c14_unsupported_method_has_no_operation :
    (rxRoute Stdlib.ascii).FindStringSubmatch 4 "// swag:route traceItem TRACE /items items".toList
        = some ["traceItem".toList, "TRACE".toList, "/items".toList, "items".toList]
      ∧ (parseRoute Stdlib.ascii traceBlock).Method = "TRACE".toList
      ∧ build Stdlib.ascii RangeOrder.stored exUnderlying 8
          (registerRoute Stdlib.ascii {} traceBlock) none = .ok traceDoc
      ∧ mapKeys traceDoc.Paths = ["/items".toList]
      ∧ ∀ m, slotOp traceDoc "/items".toList m = none := by
  refine ⟨by decide, by decide, rfl, by decide, ?_⟩
  intro m
  cases m <;> rfl

/-- C14, amended. In a comment block in which exactly one line `d` matches the route grammar,
with the captures ID, METHOD, PATH and TAGS, `parseRoute` returns a record with that ID, with
METHOD upper-cased, with PATH, and with TAGS split on runs of spaces, no tags when TAGS is
empty. When METHOD upper-cased is one of GET, POST, PUT, PATCH, HEAD, DELETE and OPTIONS, and
a line follows `d` in the block, build on a fresh document returns a document with an
operation at PATH under that method whose ID and Tags are the record's. -/
theorem c14_route_record_and_operation (lib : Stdlib) (ro : RangeOrder) (U : Underlying)
    (fuel : Nat) (block pre post : List Str) (d id method path tags : Str)
    (hlines : groupLines block = pre ++ d :: post)
    (hpre : ∀ l ∈ pre, (rxRoute lib).FindStringSubmatch 4 l = none)
    (hd : (rxRoute lib).FindStringSubmatch 4 d = some [id, method, path, tags])
    (hpost : ∀ l ∈ post, (rxRoute lib).FindStringSubmatch 4 l = none) :
    (parseRoute lib block).ID = id
      ∧ (parseRoute lib block).Method = ToUpper lib method
      ∧ (parseRoute lib block).Path = path
      ∧ (parseRoute lib block).Tags = (if tags = [] then [] else rxSpaceSplit lib tags)
      ∧ ∀ m, methodOf (ToUpper lib method) = some m → post ≠ [] →
          ∃ doc op, build lib ro U fuel (registerRoute lib {} block) none = .ok doc
            ∧ slotOp doc path m = some op ∧ op.ID = id
            ∧ op.Tags = (parseRoute lib block).Tags := by
  obtain ⟨e1, e2, e3, e4, e5⟩ :=
    parseRoute_fields lib block pre post d id method path tags hlines hpre hd hpost
  refine ⟨e1, e2, e3, e4, ?_⟩
  intro m hm hp
  have hM : methodOf (parseRoute lib block).Method = some m := by rw [e2]; exact hm
  have hne : (parseRoute lib block).Method ≠ [] := by
    rw [methodOf_name _ m hM]
    exact method_name_ne_nil m
  obtain ⟨doc, op, h1, h2, h3, h4⟩ :=
    build_one_route lib ro U fuel (parseRoute lib block) m hM (e5 hp)
  refine ⟨doc, op, ?_, ?_, h3.trans e1, h4⟩
  · unfold registerRoute
    simp only [hne, ne_eq, not_false_eq_true, if_true]
    exact h1
  · rw [← e3]; exact h2

theorem c14_route_record_and_operation_witness :
    (parseRoute Stdlib.ascii getItemBlock).ID = "getItem".toList
      ∧ (parseRoute Stdlib.ascii getItemBlock).Method = "GET".toList
      ∧ (parseRoute Stdlib.ascii getItemBlock).Path = "/items/{id}".toList
      ∧ (parseRoute Stdlib.ascii getItemBlock).Tags = ["items".toList]
      ∧ ∃ doc op, build Stdlib.ascii RangeOrder.stored exUnderlying 8
            (registerRoute Stdlib.ascii {} getItemBlock) none = .ok doc
          ∧ slotOp doc "/items/{id}".toList .GET = some op ∧ op.ID = "getItem".toList
          ∧ op.Tags = ["items".toList] := by
  obtain ⟨h1, h2, h3, h4, h5⟩ :=
    c14_route_record_and_operation Stdlib.ascii RangeOrder.stored exUnderlying 8 getItemBlock
      [] ["// Gets an item.".toList] "// swag:route getItem GET /items/{id} items".toList
      "getItem".toList "GET".toList "/items/{id}".toList "items".toList
      (by decide) (by decide) (by decide) (by decide)
  obtain ⟨doc, op, g1, g2, g3, g4⟩ := h5 .GET (by decide) (by decide)
  exact ⟨h1, h2, h3, h4, doc, op, g1, g2, g3, g4.trans h4⟩

theorem foldl_pkgs {α : Type} (f : scanner → α → scanner)
    (h : ∀ s a, (f s a).pkgs = s.pkgs) (l : List α) :
    ∀ s, (l.foldl f s).pkgs = s.pkgs := by
  induction l with
  | nil => intro s; rfl
  | cons a r ih => intro s; rw [List.foldl_cons, ih, h]

theorem registerDecl_pkgs (lib : Stdlib) (s : scanner) (decl : declParser) :
    (registerDecl lib s decl).pkgs = s.pkgs := by
  unfold registerDecl
  simp only
  split <;> split <;> rfl

theorem registerRoute_pkgs (lib : Stdlib) (s : scanner) (cmts : List Str) :
    (registerRoute lib s cmts).pkgs = s.pkgs := by
  unfold registerRoute
  simp only
  split <;> rfl

theorem processDecl_pkgs (lib : Stdlib) (file : File) (s : scanner) (dt : Decl) :
    (processDecl lib file s dt).pkgs = s.pkgs := by
  cases dt with
  | BadDecl => rfl
  | FuncDecl => rfl
  | GenDecl doc specs => exact foldl_pkgs _ (registerDecl_pkgs lib) _ s

theorem processFile_pkgs (lib : Stdlib) (s : scanner) (file : File) :
    (processFile lib s file).pkgs = s.pkgs := by
  unfold processFile
  simp only
  have h1 : (if (detectNodes lib file).metaNode = true then
      { s with metas := s.metas ++ [{ Comments := file.Doc }] } else s).pkgs = s.pkgs := by
    split <;> rfl
  have h2 : ∀ s1 : scanner, (if (detectNodes lib file).routeNode = true then
      file.Comments.foldl (registerRoute lib) s1 else s1).pkgs = s1.pkgs := by
    intro s1
    split
    · exact foldl_pkgs _ (registerRoute_pkgs lib) _ s1
    · rfl
  split
  · rw [foldl_pkgs _ (processDecl_pkgs lib file), h2, h1]
  · rw [h2, h1]

theorem processPackage_pkgs (lib : Stdlib) (s : scanner) (pkg : Package) :
    (processPackage lib s pkg).pkgs = s.pkgs :=
  foldl_pkgs _ (processFile_pkgs lib) _ s

theorem grows_refl (prog : Program) (st : ScanState) : Grows prog st st :=
  ⟨[], (List.append_nil _).symm, fun _ h => absurd h (List.not_mem_nil _)⟩

theorem grows_trans {prog : Program} {a b c : ScanState} (h1 : Grows prog a b)
    (h2 : Grows prog b c) : Grows prog a c := by
  obtain ⟨x, hx, hxi⟩ := h1
  obtain ⟨y, hy, hyi⟩ := h2
  refine ⟨x ++ y, by rw [hy, hx, List.append_assoc], ?_⟩
  intro p hp kv hkv
  rcases List.mem_append.mp hp with h | h
  · rw [hy]
    exact List.mem_append_left _ (hxi p h kv hkv)
  · exact hyi p h kv hkv

theorem grows_mem {prog : Program} {a b : ScanState} (h : Grows prog a b) (p : Str)
    (hp : p ∈ a.self.pkgs) : p ∈ b.self.pkgs := by
  obtain ⟨x, hx, _⟩ := h
  rw [hx]
  exact List.mem_append_left _ hp

theorem grows_length {prog : Program} {a b : ScanState} (h : Grows prog a b) :
    a.self.pkgs.length ≤ b.self.pkgs.length := by
  obtain ⟨x, hx, _⟩ := h
  rw [hx, List.length_append]
  exact Nat.le_add_right _ _

theorem scanInv_length {all : List Str} {R : Str → Prop} {st : ScanState}
    (h : ScanInv all R st) : st.self.pkgs.length ≤ all.length :=
  (h.2.1.subperm (fun p hp => (h.2.2 p hp).1)).length_le

theorem visit_spec (lib : Stdlib) (prog : Program) (all : List Str) (R : Str → Prop)
    (walk : ScanState → Str → Except Fault ScanState) (f : Nat)
    (hwalk : ∀ st path, ScanInv all R st → path ∈ st.self.pkgs →
      all.length < st.self.pkgs.length + f →
      ∃ st1, walk st path = .ok st1 ∧ ScanInv all R st1 ∧ Grows prog st st1
        ∧ ∀ kv ∈ (prog path).Imports, kv.2 ∈ st1.self.pkgs)
    (st : ScanState) (q : Str) (hinv : ScanInv all R st) (hq : q ∈ all) (hR : R q)
    (hlen : all.length < st.self.pkgs.length + (f + 1)) :
    ∃ st1, visit lib prog walk st q = .ok st1 ∧ ScanInv all R st1 ∧ Grows prog st st1
      ∧ q ∈ st1.self.pkgs := by
  unfold visit
  by_cases hk : q ∈ st.self.pkgs
  · rw [if_pos hk]
    exact ⟨st, rfl, hinv, grows_refl prog st, hk⟩
  · rw [if_neg hk]
    obtain ⟨hc, hnd, hall⟩ := hinv
    have hp : (processPackage lib { st.self with pkgs := st.self.pkgs ++ [q] } (prog q)).pkgs
        = st.self.pkgs ++ [q] := processPackage_pkgs lib _ _
    have hinv1 : ScanInv all R
        { self := processPackage lib { st.self with pkgs := st.self.pkgs ++ [q] } (prog q),
          calls := st.calls ++ [q] } := by
      refine ⟨?_, ?_, ?_⟩
      · show st.calls ++ [q] = _
        rw [hp, hc]
      · show List.Nodup (processPackage lib _ (prog q)).pkgs
        rw [hp]
        exact List.Nodup.append hnd (List.nodup_singleton q)
          (by
            intro a ha hb
            rw [List.mem_singleton] at hb
            exact hk (hb ▸ ha))
      · intro p hpm
        have hpm1 : p ∈ st.self.pkgs ++ [q] := hp ▸ hpm
        rcases List.mem_append.mp hpm1 with h | h
        · exact hall p h
        · rw [List.mem_singleton] at h
          rw [h]
          exact ⟨hq, hR⟩
    have hqin : q ∈ (processPackage lib { st.self with pkgs := st.self.pkgs ++ [q] }
        (prog q)).pkgs := by
      rw [hp]
      exact List.mem_append_right _ (List.mem_singleton_self q)
    have hlen1 : all.length < (processPackage lib { st.self with pkgs := st.self.pkgs ++ [q] }
        (prog q)).pkgs.length + f := by
      rw [hp, List.length_append, List.length_singleton]
      omega
    obtain ⟨st1, h1, hi1, hg1, himp⟩ := hwalk _ q hinv1 hqin hlen1
    refine ⟨st1, h1, hi1, ?_, grows_mem hg1 q hqin⟩
    obtain ⟨added, ha, hai⟩ := hg1
    have ha1 : st1.self.pkgs = (st.self.pkgs ++ [q]) ++ added := by
      rw [ha]
      show (processPackage lib _ (prog q)).pkgs ++ added = _
      rw [hp]
    refine ⟨q :: added, by rw [ha1, List.append_assoc]; rfl, ?_⟩
    intro p hpm kv hkv
    rcases List.mem_cons.mp hpm with h | h
    · rw [h] at hkv
      exact himp kv hkv
    · exact hai p h kv hkv

theorem forEach_visit (lib : Stdlib) (prog : Program) (all : List Str) (R : Str → Prop)
    (walk : ScanState → Str → Except Fault ScanState) (f : Nat)
    (hwalk : ∀ st path, ScanInv all R st → path ∈ st.self.pkgs →
      all.length < st.self.pkgs.length + f →
      ∃ st1, walk st path = .ok st1 ∧ ScanInv all R st1 ∧ Grows prog st st1
        ∧ ∀ kv ∈ (prog path).Imports, kv.2 ∈ st1.self.pkgs)
    {α : Type} (g : α → Str) (l : List α) (hl : ∀ a ∈ l, g a ∈ all ∧ R (g a)) :
    ∀ st : ScanState, ScanInv all R st → all.length < st.self.pkgs.length + (f + 1) →
      ∃ st1, forEach (fun s a => visit lib prog walk s (g a)) l st = .ok st1
        ∧ ScanInv all R st1 ∧ Grows prog st st1 ∧ ∀ a ∈ l, g a ∈ st1.self.pkgs := by
  induction l with
  | nil =>
    intro st hinv _
    exact ⟨st, rfl, hinv, grows_refl prog st, fun _ h => absurd h (List.not_mem_nil _)⟩
  | cons a r ih =>
    intro st hinv hlen
    obtain ⟨ha1, ha2⟩ := hl a (List.mem_cons_self _ _)
    obtain ⟨st1, h1, hi1, hg1, hm1⟩ :=
      visit_spec lib prog all R walk f hwalk st (g a) hinv ha1 ha2 hlen
    have hlen1 : all.length < st1.self.pkgs.length + (f + 1) := by
      have := grows_length hg1
      omega
    obtain ⟨st2, h2, hi2, hg2, hm2⟩ :=
      ih (fun b hb => hl b (List.mem_cons_of_mem _ hb)) st1 hi1 hlen1
    refine ⟨st2, ?_, hi2, grows_trans hg1 hg2, ?_⟩
    · simp only [forEach, h1]
      exact h2
    · intro b hb
      rcases List.mem_cons.mp hb with h | h
      · rw [h]
        exact grows_mem hg2 _ hm1
      · exact hm2 b h

theorem walkImports_spec (lib : Stdlib) (ro : RangeOrder) (prog : Program) (all : List Str)
    (R : Str → Prop)
    (hclosed : ∀ p ∈ all, ∀ kv ∈ (prog p).Imports, kv.2 ∈ all)
    (hR : ∀ p kv, R p → kv ∈ (prog p).Imports → R kv.2) :
    ∀ (f : Nat) (st : ScanState) (path : Str), ScanInv all R st → path ∈ st.self.pkgs →
      all.length < st.self.pkgs.length + f →
      ∃ st1, walkImports lib ro prog f st path = .ok st1 ∧ ScanInv all R st1
        ∧ Grows prog st st1 ∧ ∀ kv ∈ (prog path).Imports, kv.2 ∈ st1.self.pkgs := by
  intro f
  induction f with
  | zero =>
    intro st path hinv _ hlen
    have := scanInv_length hinv
    omega
  | succ f ih =>
    intro st path hinv hpath hlen
    obtain ⟨hpa, hpr⟩ := hinv.2.2 path hpath
    have hl : ∀ kv ∈ ro.order (prog path).Imports, kv.2 ∈ all ∧ R kv.2 := by
      intro kv hkv
      have hm := (mem_order ro _ kv).mp hkv
      exact ⟨hclosed path hpa kv hm, hR path kv hpr hm⟩
    obtain ⟨st1, h1, hi1, hg1, hm1⟩ :=
      forEach_visit lib prog all R (walkImports lib ro prog f) f ih (fun kv => kv.2)
        (ro.order (prog path).Imports) hl st hinv hlen
    refine ⟨st1, ?_, hi1, hg1, ?_⟩
    · rw [walkImports]
      exact h1
    · intro kv hkv
      exact hm1 kv ((mem_order ro _ kv).mpr hkv)

/-- C19. For a program whose packages reachable from the roots lie in a finite list `all`
(the roots are in `all`, and `all` is closed under the import edges, which may form cycles),
`scan` returns whenever the bound on the depth of the recursion is at least the length of
`all`; the log of the calls of `processPackage` then holds no package twice, and a package is
in it exactly when it is reachable from the roots. The log is the list of the known packages
of the registry. -/
theorem c19_scan_visits_reachable_once (lib : Stdlib) (ro : RangeOrder) (prog : Program)
    (roots all : List Str) (fuel : Nat)
    (hroots : ∀ p ∈ roots, p ∈ all)
    (hclosed : ∀ p ∈ all, ∀ kv ∈ (prog p).Imports, kv.2 ∈ all)
    (hfuel : all.length ≤ fuel) :
    ∃ st, scan lib ro prog fuel roots = .ok st
      ∧ st.calls.Nodup
      ∧ (∀ p, p ∈ st.calls ↔ Reachable prog roots p)
      ∧ st.calls = st.self.pkgs := by
  have hinv0 : ScanInv all (Reachable prog roots) {} :=
    ⟨rfl, List.nodup_nil, fun _ h => absurd h (List.not_mem_nil _)⟩
  obtain ⟨st1, h1, hi1, hg1, hm1⟩ :=
    forEach_visit lib prog all (Reachable prog roots) (walkImports lib ro prog fuel) fuel
      (walkImports_spec lib ro prog all (Reachable prog roots) hclosed
        (fun p kv hp hkv => Reachable.step p kv hp hkv) fuel)
      (fun p => p) roots (fun p hp => ⟨hroots p hp, Reachable.root p hp⟩) {} hinv0
      (by
        show all.length < 0 + (fuel + 1)
        omega)
  refine ⟨st1, h1, ?_, ?_, hi1.1⟩
  · rw [hi1.1]
    exact hi1.2.1
  · obtain ⟨added, ha, hai⟩ := hg1
    have ha1 : st1.self.pkgs = added := by
      rw [ha]
      exact List.nil_append _
    intro p
    rw [hi1.1]
    constructor
    · intro hp
      exact (hi1.2.2 p hp).2
    · intro hp
      induction hp with
      | root p h => exact hm1 p h
      | step p kv _ h ih => exact hai p (ha1 ▸ ih) kv h

theorem c19_scan_visits_reachable_once_witness :
    ∃ st, scan Stdlib.ascii RangeOrder.reversed diamondProgram 5
        ["a".toList, "e".toList, "a".toList] = .ok st
      ∧ st.calls.Nodup
      ∧ (∀ p, p ∈ st.calls
          ↔ Reachable diamondProgram ["a".toList, "e".toList, "a".toList] p)
      ∧ st.calls = st.self.pkgs :=
  c19_scan_visits_reachable_once Stdlib.ascii RangeOrder.reversed diamondProgram
    ["a".toList, "e".toList, "a".toList]
    ["a".toList, "b".toList, "c".toList, "d".toList, "e".toList] 5
    (by decide) (by decide) (by decide)

/-- C21, the code at the failing input. A file without a package doc comment whose one comment
is `// swag:meta` is classified as meta by `detectNodes`; the scan records a `meteParser`
whose `Comments` is nil for it, and `buildMeta` faults on that record with a nil dereference,
as does build, from the fresh document. -/
theorem c21_meta_without_doc_faults :
    detectNodes Stdlib.ascii markerOnlyFile = { metaNode := true }
      ∧ markerOnlyScanner.metas = [{ Comments := none }]
      ∧ buildMeta Stdlib.ascii RangeOrder.stored markerOnlyScanner freshDoc = .error .nilDeref
      ∧ build Stdlib.ascii RangeOrder.stored exUnderlying 8 markerOnlyScanner none
        = .error .nilDeref := by
  refine ⟨by decide, by decide, rfl, rfl⟩

theorem routeRound_sources (lib : Stdlib) (ctx : scanner) (s s1 : Swagger)
    (kr : Str × routeParser) (hkr : kr ∈ ctx.routes)
    (hi : OpRoute lib ctx s ∧ ParamSource lib ctx s)
    (h : buildRouteOne lib s kr.2 = .ok s1) :
    OpRoute lib ctx s1 ∧ ParamSource lib ctx s1 := by
  obtain ⟨_, hcase⟩ := buildRouteOne_effect lib s s1 kr.2 h
  rcases hcase with ⟨_, hsame⟩ | ⟨m, op1, hm, hupd, hid, hpar⟩
  · constructor
    · intro path m op ho
      rw [hsame] at ho
      exact hi.1 path m op ho
    · intro path m op ho
      rw [hsame] at ho
      exact hi.2 path m op ho
  · constructor
    · intro path m1 o ho
      rw [hupd] at ho
      by_cases hc : path = kr.2.Path ∧ m1 = m
      · rw [if_pos hc] at ho
        cases ho
        obtain ⟨rfl, rfl⟩ := hc
        exact ⟨kr, hkr, rfl, hm, hid⟩
      · rw [if_neg hc] at ho
        exact hi.1 path m1 o ho
    · intro path m1 o ho q hq
      rw [hupd] at ho
      by_cases hc : path = kr.2.Path ∧ m1 = m
      · rw [if_pos hc] at ho
        cases ho
        obtain ⟨rfl, rfl⟩ := hc
        rcases hpar with ⟨hnil, _⟩ | ⟨old, hold, _, hpo, _⟩
        · rw [hnil] at hq
          cases hq
        · rw [hpo] at hq
          exact hi.2 _ _ old hold q hq
      · rw [if_neg hc] at ho
        exact hi.2 path m1 o ho q hq

theorem reqRound_sources (lib : Stdlib) (U : Underlying) (fuel : Nat) (ctx : scanner)
    (s s1 : Swagger) (kv : Str × declParser) (hkv : kv ∈ ctx.reqs)
    (hi : OpRoute lib ctx s ∧ ParamSource lib ctx s)
    (h : buildReqOne lib U fuel ctx s kv.2 = .ok s1) :
    OpRoute lib ctx s1 ∧ ParamSource lib ctx s1 := by
  rcases buildReqOne_effect lib U fuel ctx s s1 kv.2 h with ⟨_, rfl⟩ | ⟨_, _, _, rfl⟩ |
    ⟨route, m, op, op1, hr, hm, ⟨hop, hupd⟩, hext, _, _, _⟩
  · exact hi
  · exact hi
  · constructor
    · intro path m1 o ho
      rw [hupd] at ho
      by_cases hc : path = route.Path ∧ m1 = m
      · rw [if_pos hc] at ho
        cases ho
        obtain ⟨rfl, rfl⟩ := hc
        obtain ⟨kr, hkr, hp, hmm, hid⟩ := hi.1 _ _ op hop
        exact ⟨kr, hkr, hp, hmm, hext.2.1.trans hid⟩
      · rw [if_neg hc] at ho
        exact hi.1 path m1 o ho
    · intro path m1 o ho q hq
      rw [hupd] at ho
      by_cases hc : path = route.Path ∧ m1 = m
      · rw [if_pos hc] at ho
        cases ho
        obtain ⟨rfl, rfl⟩ := hc
        rcases hext.2.2.2.2 q hq with h1 | h1
        · exact hi.2 _ _ op hop q h1
        · exact ⟨kv, hkv, route, hr, rfl, hm, h1⟩
      · rw [if_neg hc] at ho
        exact hi.2 path m1 o ho q hq

theorem ansRound_sources (lib : Stdlib) (U : Underlying) (fuel : Nat) (ctx : scanner)
    (s s1 : Swagger) (ans : declParser)
    (hi : OpRoute lib ctx s ∧ ParamSource lib ctx s)
    (h : buildAnsOne lib U fuel ctx s ans = .ok s1) :
    OpRoute lib ctx s1 ∧ ParamSource lib ctx s1 := by
  rcases buildAnsOne_effect lib U fuel ctx s s1 ans h with ⟨_, rfl⟩ | ⟨_, _, _, rfl⟩ |
    ⟨route, m, op, schema, list, hr, hm, ⟨hop, hupd⟩, _, _⟩
  · exact hi
  · exact hi
  · constructor
    · intro path m1 o ho
      rw [hupd] at ho
      by_cases hc : path = route.Path ∧ m1 = m
      · rw [if_pos hc] at ho
        cases ho
        obtain ⟨rfl, rfl⟩ := hc
        obtain ⟨kr, hkr, hp, hmm, hid⟩ := hi.1 _ _ op hop
        exact ⟨kr, hkr, hp, hmm, (respondsWith_frame _ _ _).2.trans hid⟩
      · rw [if_neg hc] at ho
        exact hi.1 path m1 o ho
    · intro path m1 o ho q hq
      rw [hupd] at ho
      by_cases hc : path = route.Path ∧ m1 = m
      · rw [if_pos hc] at ho
        cases ho
        obtain ⟨rfl, rfl⟩ := hc
        rw [(respondsWith_frame _ _ _).1] at hq
        exact hi.2 _ _ op hop q hq
      · rw [if_neg hc] at ho
        exact hi.2 path m1 o ho q hq

theorem build_sources (lib : Stdlib) (ro : RangeOrder) (U : Underlying) (fuel : Nat)
    (ctx : scanner) (input : Option Swagger) (d : Swagger)
    (hin : (input.getD freshDoc).Paths = [])
    (h : build lib ro U fuel ctx input = .ok d) :
    OpRoute lib ctx d ∧ ParamSource lib ctx d := by
  unfold build at h
  simp only at h
  cases h1 : buildMeta lib ro ctx (input.getD freshDoc) with
  | error f => simp [h1] at h
  | ok d1 =>
    simp only [h1] at h
    cases h2 : buildRoute lib ro ctx d1 with
    | error f => simp [h2] at h
    | ok d2 =>
      simp only [h2] at h
      cases h3 : buildReq lib ro U fuel ctx d2 with
      | error f => simp [h3] at h
      | ok d3 =>
        simp only [h3] at h
        obtain ⟨mp, _⟩ := buildMeta_frame lib ro ctx _ d1 h1
        have hnone : ∀ path m, slotOp d1 path m = none := by
          intro path m
          rw [slotOp_congr _ d1 mp]
          exact slotOp_of_paths_nil _ hin path m
        have hI1 : OpRoute lib ctx d1 ∧ ParamSource lib ctx d1 := by
          constructor
          · intro path m op ho
            rw [hnone] at ho
            cases ho
          · intro path m op ho
            rw [hnone] at ho
            cases ho
        have hI2 : OpRoute lib ctx d2 ∧ ParamSource lib ctx d2 := by
          unfold buildRoute at h2
          exact forEach_inv _ (fun s => OpRoute lib ctx s ∧ ParamSource lib ctx s) _
            (fun s a s1 ha hs hstep =>
              routeRound_sources lib ctx s s1 a ((mem_order ro _ a).mp ha) hs hstep)
            d1 d2 hI1 h2
        have hI3 : OpRoute lib ctx d3 ∧ ParamSource lib ctx d3 := by
          unfold buildReq at h3
          exact forEach_inv _ (fun s => OpRoute lib ctx s ∧ ParamSource lib ctx s) _
            (fun s a s1 ha hs hstep =>
              reqRound_sources lib U fuel ctx s s1 a ((mem_order ro _ a).mp ha) hs hstep)
            d2 d3 hI2 h3
        unfold buildAns at h
        exact forEach_inv _ (fun s => OpRoute lib ctx s ∧ ParamSource lib ctx s) _
          (fun s a s1 _ hs hstep => ansRound_sources lib U fuel ctx s s1 a.2 hs hstep)
          d3 d hI3 h

theorem id_of_target (lib : Stdlib) (ctx : scanner) (hk : KeyedByID ctx)
    (hu : SlotsUnshared lib ctx) (d : Swagger) (hO : OpRoute lib ctx d) (path : Str)
    (m : Method) (op : Operation) (ho : slotOp d path m = some op) (id : Str)
    (route : routeParser) (hr : mapGet ctx.routes id = some route) (hp : route.Path = path)
    (hm : methodOf (ToUpper lib route.Method) = some m) : id = op.ID := by
  obtain ⟨kr, hkr, hkp, hkm, hid⟩ := hO path m op ho
  have hmem : (id, route) ∈ ctx.routes := mem_of_mapGet _ _ _ hr
  have e1 : route.ID = id := hk (id, route) hmem
  have e2 : kr.2.ID = route.ID :=
    hu kr hkr (id, route) hmem (hkp.trans hp.symm) (by rw [hkm]; exact Option.some_ne_none _)
      (hkm.trans hm.symm)
  rw [hid, e2, e1]

/-- C22, the claim fails as worded. The routes `createItem` and `addItem` both are
`POST /items`, and each has a request declaration and a response declaration of its own. After
build on a fresh document the one operation of `POST /items` has the ID `addItem`, but its
body parameter references the definition of the request declaration bound to `createItem`, and
its response 200 that of the response declaration bound to `createItem`. -/
theorem c22_shared_slot_mixes_sources :
    mixedSourcesScanner.reqs.map (fun kv => (kv.2.ID, kv.2.Name))
        = [("addItem".toList, "addItem".toList), ("createItem".toList, "createItem".toList)]
      ∧ mixedSourcesScanner.anses.map (fun kv => (kv.2.ID, kv.2.Name, kv.2.Code))
        = [("createItem".toList, "createItem-200".toList, 200),
            ("addItem".toList, "addItem-201".toList, 201)]
      ∧ (opAt Stdlib.ascii
          (build Stdlib.ascii RangeOrder.stored exUnderlying 8 mixedSourcesScanner none)
          "/items".toList "POST".toList).map
          (fun op => (op.ID, op.Parameters.map Parameter.ref,
            op.Responses.StatusCodeResponses.map (fun cr => (cr.1, cr.2.ref))))
        = some ("addItem".toList, ["#/definitions/createItem".toList],
            [(200, "#/definitions/createItem-200".toList),
              (201, "#/definitions/addItem-201".toList)]) := by
  decide

/-- C22, amended. For a registry whose route records are stored under their ID, as the scan
stores them, and in which no two route records with different IDs share a path and a supported
method: after build on a fresh document, every parameter of every operation was added in the
round of `buildReq` for a request declaration of the registry whose route ID is the ID of the
operation, and every response of every operation was registered for a response declaration
of the registry whose route ID is the ID of the operation and whose code is that of the
entry, which is 0 for the default response. -/
theorem c22_sources_have_operation_id (lib : Stdlib) (ro : RangeOrder) (U : Underlying)
    (fuel : Nat) (ctx : scanner) (d : Swagger) (hk : KeyedByID ctx)
    (hu : SlotsUnshared lib ctx) (h : build lib ro U fuel ctx none = .ok d) :
    ∀ path m op, slotOp d path m = some op →
      (∀ q ∈ op.Parameters, ∃ kv ∈ ctx.reqs, kv.2.ID = op.ID
        ∧ ∃ route, mapGet ctx.routes kv.2.ID = some route ∧ reqAdded kv.2 route q)
      ∧ (∀ code resp, mapGet op.Responses.StatusCodeResponses code = some resp →
          ∃ kv ∈ ctx.anses, kv.2.ID = op.ID ∧ kv.2.Code = code
            ∧ ∃ list, resp = ansResponse kv.2 list)
      ∧ (∀ resp, op.Responses.Default = some resp →
          ∃ kv ∈ ctx.anses, kv.2.ID = op.ID ∧ kv.2.Code = 0
            ∧ ∃ list, resp = ansResponse kv.2 list) := by
  obtain ⟨hO, hS⟩ := build_sources lib ro U fuel ctx none d rfl h
  obtain ⟨_, hA, _, _⟩ := build_post lib ro U fuel ctx none d (paramInv_fresh lib ctx) h
  have hA1 := hA respEmpty_fresh
  intro path m op ho
  refine ⟨?_, ?_, ?_⟩
  · intro q hq
    obtain ⟨kv, hkv, route, hr, hp, hm, hadd⟩ := hS path m op ho q hq
    exact ⟨kv, hkv, id_of_target lib ctx hk hu d hO path m op ho kv.2.ID route hr hp hm,
      route, hr, hadd⟩
  · intro code resp hresp
    obtain ⟨kv, hkv, list, hcode, ⟨route, hr, hp, hm⟩, hres⟩ :=
      hA1.1 path m op ho code resp hresp
    exact ⟨kv, hkv, id_of_target lib ctx hk hu d hO path m op ho kv.2.ID route hr hp hm,
      hcode, list, hres⟩
  · intro resp hresp
    obtain ⟨kv, hkv, list, hcode, ⟨route, hr, hp, hm⟩, hres⟩ := hA1.2 path m op ho resp hresp
    exact ⟨kv, hkv, id_of_target lib ctx hk hu d hO path m op ho kv.2.ID route hr hp hm,
      hcode, list, hres⟩

theorem c22_sources_have_operation_id_witness :
    slotOp pairedDoc "/items".toList .POST = some pairedOp
      ∧ pairedOp.ID = "createItem".toList
      ∧ pairedOp.Parameters.map Parameter.ref = ["#/definitions/createItem".toList]
      ∧ pairedOp.Responses.StatusCodeResponses.map (fun cr => (cr.1, cr.2.ref))
        = [(200, "#/definitions/createItem-200".toList)]
      ∧ pairedOp.Responses.Default.map Response.ref
        = some "#/definitions/createItem-0".toList
      ∧ (∀ q ∈ pairedOp.Parameters, ∃ kv ∈ pairedScanner.reqs, kv.2.ID = pairedOp.ID
        ∧ ∃ route, mapGet pairedScanner.routes kv.2.ID = some route ∧ reqAdded kv.2 route q)
      ∧ (∀ code resp, mapGet pairedOp.Responses.StatusCodeResponses code = some resp →
          ∃ kv ∈ pairedScanner.anses, kv.2.ID = pairedOp.ID ∧ kv.2.Code = code
            ∧ ∃ list, resp = ansResponse kv.2 list)
      ∧ (∀ resp, pairedOp.Responses.Default = some resp →
          ∃ kv ∈ pairedScanner.anses, kv.2.ID = pairedOp.ID ∧ kv.2.Code = 0
            ∧ ∃ list, resp = ansResponse kv.2 list) := by
  have h := c22_sources_have_operation_id Stdlib.ascii RangeOrder.stored exUnderlying 8
    pairedScanner pairedDoc (by unfold KeyedByID; decide) (by unfold SlotsUnshared; decide) rfl
    "/items".toList .POST pairedOp rfl
  exact ⟨rfl, by decide, by decide, by decide, by decide, h.1, h.2.1, h.2.2⟩

end Go2Swag
